import Mathlib

/-! vimpc: library entries, the select window and the settings

A shallow embedding of `src/buffer/library.hpp` (class `LibraryEntry`), of
`src/window/selectwindow.cpp` (class `SelectWindow`) and of `src/settings.cpp`
(class `Settings`).

Library entries live in a heap (a list of entries); a pointer to an entry is
its index in the heap and `NULL` is `none`.  The four counter methods recurse
along `parent_`; the embedding bounds the call depth by a fuel argument and
returns `none` when a pointer dangles or the fuel is used up (a parent chain
that never ends).
-/

namespace Vimpc

/-! ## Machine integers -/

/-- Largest `int32_t` value. -/
def INT32_MAX : Int := 2147483647

/-- Value of an integer stored in an `int32_t`: reduction into
`[-2^31, 2^31)` modulo `2^32` (the wrap-around the machine performs). -/
def toInt32 (x : Int) : Int := (x + 2147483648) % 4294967296 - 2147483648

/-! ## `Mpc::LibraryEntry` -/

/-- The entry types of `Mpc::EntryType` used by the library. -/
inductive EntryType where
  | ArtistType
  | AlbumType
  | SongType
  deriving DecidableEq, Repr

/-- The fields of `LibraryEntry` that the counter methods read or write.
`children_` and `parent_` hold heap indices. -/
structure LibraryEntry where
  type_ : EntryType
  children_ : List Nat
  parent_ : Option Nat
  childrenInPlaylist_ : Int
  partial_ : Int
  deriving DecidableEq, Repr

/-- The heap of library entries. -/
abbrev Heap := List LibraryEntry

/-- The test `(childrenInPlaylist_ == static_cast<int32_t>(children_.size())) ||
(type_ == Mpc::SongType)` of `AddedToPlaylist` and `RemovedFromPlaylist`. -/
def fullOrSong (e : LibraryEntry) : Bool :=
  decide (e.childrenInPlaylist_ = toInt32 e.children_.length) || decide (e.type_ = EntryType.SongType)

/-- The statement `++childrenInPlaylist_;` on an entry. -/
def LibraryEntry.incCount (e : LibraryEntry) : LibraryEntry :=
  { e with childrenInPlaylist_ := toInt32 (e.childrenInPlaylist_ + 1) }

/-- The statement `++partial_;` on an entry. -/
def LibraryEntry.incPartial (e : LibraryEntry) : LibraryEntry :=
  { e with partial_ := toInt32 (e.partial_ + 1) }

/-- The statement `if (childrenInPlaylist_ > 0) { --childrenInPlaylist_; }` on an entry. -/
def LibraryEntry.decCount (e : LibraryEntry) : LibraryEntry :=
  { e with childrenInPlaylist_ :=
      if e.childrenInPlaylist_ > 0 then e.childrenInPlaylist_ - 1 else e.childrenInPlaylist_ }

/-- The statement `if (partial_ > 0) { --partial_; }` on an entry. -/
def LibraryEntry.decPartial (e : LibraryEntry) : LibraryEntry :=
  { e with partial_ := if e.partial_ > 0 then e.partial_ - 1 else e.partial_ }

/-- `LibraryEntry::AddPartial`. -/
def AddPartial : Nat → Heap → Nat → Option Heap
  | 0, _, _ => none
  | fuel + 1, h, this =>
    match h[this]? with
    | none => none
    | some e =>
      let h1 := h.set this e.incPartial
      match e.parent_ with
      | some p => AddPartial fuel h1 p
      | none => some h1

/-- `LibraryEntry::RemovePartial`. -/
def RemovePartial : Nat → Heap → Nat → Option Heap
  | 0, _, _ => none
  | fuel + 1, h, this =>
    match h[this]? with
    | none => none
    | some e =>
      let h1 := h.set this e.decPartial
      match e.parent_ with
      | some p => RemovePartial fuel h1 p
      | none => some h1

/-- The statement `if ((parent_ != NULL) && c) parent_->f();` where the
condition `c` is evaluated on the current contents of `*this`. -/
def callParentIf (f : Heap → Nat → Option Heap) (c : LibraryEntry → Bool) (h : Heap) (this : Nat) :
    Option Heap :=
  match h[this]? with
  | none => none
  | some e =>
    match e.parent_ with
    | some p => if c e then f h p else some h
    | none => some h

/-- `LibraryEntry::AddedToPlaylist`. -/
def AddedToPlaylist : Nat → Heap → Nat → Option Heap
  | 0, _, _ => none
  | fuel + 1, h, this =>
    match h[this]? with
    | none => none
    | some e =>
      let h1 := h.set this e.incCount
      match callParentIf (AddPartial fuel) (fun e1 => decide (e1.childrenInPlaylist_ = 1)) h1 this with
      | none => none
      | some h2 => callParentIf (AddedToPlaylist fuel) fullOrSong h2 this

/-- `LibraryEntry::RemovedFromPlaylist`. -/
def RemovedFromPlaylist : Nat → Heap → Nat → Option Heap
  | 0, _, _ => none
  | fuel + 1, h, this =>
    match callParentIf (RemovedFromPlaylist fuel) fullOrSong h this with
    | none => none
    | some h1 =>
      match h1[this]? with
      | none => none
      | some e1 =>
        let h2 := h1.set this e1.decCount
        callParentIf (RemovePartial fuel) (fun e2 => decide (e2.childrenInPlaylist_ = 0)) h2 this

/-- A freshly constructed entry (both counters zero) with the given type,
children and parent. -/
def mkEntry (t : EntryType) (cs : List Nat) (p : Option Nat) : LibraryEntry :=
  { type_ := t, children_ := cs, parent_ := p, childrenInPlaylist_ := 0, partial_ := 0 }

/-- Artist A (index 0) -> Album1 (index 1) -> track1 (index 2), track2 (index 3). -/
def exampleLibrary : Heap :=
  [ mkEntry .ArtistType [1] none,
    mkEntry .AlbumType [2, 3] (some 0),
    mkEntry .SongType [] (some 1),
    mkEntry .SongType [] (some 1) ]

/-- The root entry `er` after `AddedToPlaylist` ran on a child of it, where
`ea1` is the child after its own `++childrenInPlaylist_`: the first `if` of the
child calls `AddPartial` on the root, the second calls `AddedToPlaylist`. -/
def rootAfterChildAdded (ea1 er : LibraryEntry) : LibraryEntry :=
  if fullOrSong ea1 = true then
    (if ea1.childrenInPlaylist_ = 1 then er.incPartial else er).incCount
  else (if ea1.childrenInPlaylist_ = 1 then er.incPartial else er)

/-- The root entry `er` after `RemovedFromPlaylist` ran on a child of it, where
`ea` is the child before the call: the first `if` of the child calls
`RemovedFromPlaylist` on the root, the last one calls `RemovePartial`. -/
def rootAfterChildRemoved (ea er : LibraryEntry) : LibraryEntry :=
  if ea.decCount.childrenInPlaylist_ = 0 then
    (if fullOrSong ea = true then er.decCount else er).decPartial
  else (if fullOrSong ea = true then er.decCount else er)

/-- Depth of the entries of `exampleLibrary`: 0 for the Artist, 1 for the
Album, 2 for the Songs. -/
def exampleRank (i : Nat) : Nat := if i = 0 then 0 else if i = 1 then 1 else 2

/-- Artist (index 0) -> Album (index 1) -> Song (index 2), all counters zero
except the Artist's `partial_`, which is `INT32_MAX - 1`. -/
def nearOverflowLibrary : Heap :=
  [ { mkEntry .ArtistType [1] none with partial_ := 2147483646 },
    mkEntry .AlbumType [2] (some 0),
    mkEntry .SongType [] (some 1) ]

/-- A single root entry whose `childrenInPlaylist_` is `INT32_MAX`. -/
def fullCounterLibrary : Heap :=
  [ { mkEntry .ArtistType [] none with childrenInPlaylist_ := 2147483647 } ]

/-- A root Artist with `partial_ = 1` and one Album below it whose
`childrenInPlaylist_` is 0. -/
def staleParentLibrary : Heap :=
  [ { mkEntry .ArtistType [1] none with partial_ := 1 },
    mkEntry .AlbumType [] (some 0) ]

/-- A root Artist with `partial_ = 0` and one Album below it whose
`childrenInPlaylist_` is 1. -/
def clampedParentLibrary : Heap :=
  [ mkEntry .ArtistType [1] none,
    { mkEntry .AlbumType [] (some 0) with childrenInPlaylist_ := 1 } ]

/-! ### Sequences of calls -/

/-- A call of one of the four counter methods on the entry at a heap index. -/
inductive Call where
  | Added (this : Nat)
  | Removed (this : Nat)
  | AddPartial (this : Nat)
  | RemovePartial (this : Nat)
  deriving DecidableEq, Repr

/-- The entry a call is made on. -/
def Call.target : Call → Nat
  | .Added i => i
  | .Removed i => i
  | .AddPartial i => i
  | .RemovePartial i => i

/-- Effect of one call on the heap. -/
def Call.apply (fuel : Nat) (h : Heap) : Call → Option Heap
  | .Added i => Vimpc.AddedToPlaylist fuel h i
  | .Removed i => Vimpc.RemovedFromPlaylist fuel h i
  | .AddPartial i => Vimpc.AddPartial fuel h i
  | .RemovePartial i => Vimpc.RemovePartial fuel h i

/-- The heap after a sequence of calls, made one after the other. -/
def runCalls (fuel : Nat) : Heap → List Call → Option Heap
  | h, [] => some h
  | h, c :: cs =>
    match c.apply fuel h with
    | none => none
    | some h1 => runCalls fuel h1 cs

/-- The songs in the external playlist after a sequence of playlist events,
starting from the songs `pl` (a bookkeeping value, not part of the program). -/
def playlistAfter : List Nat → List Call → List Nat
  | pl, [] => pl
  | pl, .Added s :: cs => playlistAfter (s :: pl) cs
  | pl, .Removed s :: cs => playlistAfter (pl.filter (fun x => decide (x ≠ s))) cs
  | pl, _ :: cs => playlistAfter pl cs

/-- The type of the entry at an index, if there is one. -/
def typeAt (h : Heap) (i : Nat) : Option EntryType := h[i]?.map (fun e => e.type_)

/-- The parent pointer of the entry at an index (`none` also for no entry). -/
def parentAt (h : Heap) (i : Nat) : Option Nat := h[i]?.bind (fun e => e.parent_)

/-- The children of the entry at an index (empty for no entry). -/
def childrenAt (h : Heap) (i : Nat) : List Nat := (h[i]?.map (fun e => e.children_)).getD []

/-- The counter `childrenInPlaylist_` of the entry at an index (0 for no entry). -/
def countAt (h : Heap) (i : Nat) : Int := (h[i]?.map (fun e => e.childrenInPlaylist_)).getD 0

/-- The counter `partial_` of the entry at an index (0 for no entry). -/
def partialAt (h : Heap) (i : Nat) : Int := (h[i]?.map (fun e => e.partial_)).getD 0

/-- A sequence of playlist events that follows the playlist: `AddedToPlaylist`
is called only on a Song entry that is absent from the playlist and
`RemovedFromPlaylist` only on a Song entry that is present; no other call. -/
def Disciplined (h : Heap) : List Nat → List Call → Prop
  | _, [] => True
  | pl, .Added s :: cs => typeAt h s = some .SongType ∧ s ∉ pl ∧ Disciplined h (s :: pl) cs
  | pl, .Removed s :: cs =>
    typeAt h s = some .SongType ∧ s ∈ pl ∧ Disciplined h (pl.filter (fun x => decide (x ≠ s))) cs
  | _, _ :: _ => False

instance Disciplined.instDecidable (h : Heap) : (pl : List Nat) → (cs : List Call) →
    Decidable (Disciplined h pl cs)
  | _, [] => isTrue trivial
  | pl, .Added s :: cs =>
    have := Disciplined.instDecidable h (s :: pl) cs
    inferInstanceAs (Decidable (_ ∧ _ ∧ _))
  | pl, .Removed s :: cs =>
    have := Disciplined.instDecidable h (pl.filter (fun x => decide (x ≠ s))) cs
    inferInstanceAs (Decidable (_ ∧ _ ∧ _))
  | _, .AddPartial _ :: _ => isFalse (fun h => h)
  | _, .RemovePartial _ :: _ => isFalse (fun h => h)

/-- Every counter of every entry is zero. -/
def AllZero (h : Heap) : Prop := ∀ e ∈ h, e.childrenInPlaylist_ = 0 ∧ e.partial_ = 0

instance AllZero.instDecidable (h : Heap) : Decidable (AllZero h) := by
  unfold AllZero; infer_instance

/-- The entry `e` at index `i` fits a library tree Artist -> Album -> Song:
its children are distinct, fewer than `2^31` and point back to it; an Artist
is a root, the parent of an Album is an Artist and the parent of a Song is an
Album, and a parent lists the entry among its children; a Song has no
children. -/
def EntryWellFormed (h : Heap) (i : Nat) (e : LibraryEntry) : Prop :=
  e.children_.Nodup ∧ (e.children_.length : Int) ≤ INT32_MAX ∧
  (∀ c ∈ e.children_, parentAt h c = some i) ∧
  (∀ p ∈ e.parent_, i ∈ childrenAt h p) ∧
  (e.type_ = .ArtistType → e.parent_ = none) ∧
  (e.type_ = .AlbumType → e.parent_.bind (typeAt h) = some .ArtistType) ∧
  (e.type_ = .SongType → e.parent_.bind (typeAt h) = some .AlbumType ∧ e.children_ = [])

instance EntryWellFormed.instDecidable (h : Heap) (i : Nat) (e : LibraryEntry) :
    Decidable (EntryWellFormed h i e) := by
  unfold EntryWellFormed; infer_instance

/-- The heap is a library forest Artist -> Album -> Song with parent pointers
consistent with the children lists. -/
def WellFormed (h : Heap) : Prop := ∀ (i : Nat) (hi : i < h.length), EntryWellFormed h i (h.get ⟨i, hi⟩)

instance WellFormed.instDecidable (h : Heap) : Decidable (WellFormed h) := by
  unfold WellFormed; infer_instance

/-- Parent pointers of the heap form a forest: every parent pointer is valid
and leads to an entry of smaller rank. -/
def Forest (h : Heap) (rank : Nat → Nat) : Prop :=
  ∀ (i : Nat) (hi : i < h.length), ∀ p ∈ (h.get ⟨i, hi⟩).parent_, p < h.length ∧ rank p < rank i

instance Forest.instDecidable (h : Heap) (rank : Nat → Nat) : Decidable (Forest h rank) := by
  unfold Forest; infer_instance

/-! ### What the counters stand for -/

/-- The fields of an entry that the counter methods never write. -/
def LibraryEntry.shape (e : LibraryEntry) : EntryType × List Nat × Option Nat :=
  (e.type_, e.children_, e.parent_)

/-- Two heaps hold the same entries up to the two counters. -/
def SameShape (h0 h : Heap) : Prop :=
  ∀ i : Nat, h[i]?.map LibraryEntry.shape = h0[i]?.map LibraryEntry.shape

/-- Whether a song is in the playlist `pl`. -/
def inPlaylist (pl : List Nat) (s : Nat) : Bool := decide (s ∈ pl)

/-- Whether the entry at `a` has at least one child and all its children are
in the playlist `pl`. -/
def albumFull (h : Heap) (pl : List Nat) (a : Nat) : Bool :=
  !(childrenAt h a).isEmpty && (childrenAt h a).all (inPlaylist pl)

/-- The Song entries among the children and grandchildren of the entry at `i`. -/
def descendantSongs (h : Heap) (i : Nat) : List Nat :=
  (childrenAt h i ++ (childrenAt h i).flatMap (childrenAt h)).filter
    (fun s => decide (typeAt h s = some .SongType))

/-- The counters `childrenInPlaylist_` of `h` follow the playlist `pl` over the
tree `h0`: a Song counts 1 when it is in the playlist and 0 otherwise, an Album
counts its Songs in the playlist, an Artist counts its Albums that are not
empty and have every Song in the playlist. -/
def CountsFollow (h0 h : Heap) (pl : List Nat) : Prop :=
  ∀ i : Nat,
    (typeAt h0 i = some .SongType → countAt h i = if i ∈ pl then 1 else 0) ∧
    (typeAt h0 i = some .AlbumType → countAt h i = ((childrenAt h0 i).countP (inPlaylist pl) : Nat)) ∧
    (typeAt h0 i = some .ArtistType → countAt h i = ((childrenAt h0 i).countP (albumFull h0 pl) : Nat))

/-- The entry `e'` is `e` after guarded decrements: the same entry up to the
counters, no counter is larger, and a counter that was non-negative still is. -/
def LibraryEntry.Lowered (e e' : LibraryEntry) : Prop :=
  e'.shape = e.shape ∧
  e'.childrenInPlaylist_ ≤ e.childrenInPlaylist_ ∧
  (0 ≤ e.childrenInPlaylist_ → 0 ≤ e'.childrenInPlaylist_) ∧
  e'.partial_ ≤ e.partial_ ∧ (0 ≤ e.partial_ → 0 ≤ e'.partial_)

/-- The entry `e'` is `e` after increments: the same entry up to the counters,
`childrenInPlaylist_` incremented at most once and `partial_` raised by at
most `k`. -/
def LibraryEntry.Raised (k : Nat) (e e' : LibraryEntry) : Prop :=
  e'.shape = e.shape ∧
  (e'.childrenInPlaylist_ = e.childrenInPlaylist_ ∨
    e'.childrenInPlaylist_ = toInt32 (e.childrenInPlaylist_ + 1)) ∧
  e.partial_ ≤ e'.partial_ ∧ e'.partial_ ≤ e.partial_ + (k : Int)

/-! ## `Ui::SelectWindow`

The header `selectwindow.hpp` and the base class `Ui::ScrollWindow` are not
part of the sources.  Line numbers are taken as integers, and the members of
the base class that `SelectWindow` uses are taken as parameters acting on the
state `β` of the base sub-object. -/

/-- The pair `Ui::Selection`: `first` is the anchor, `second` the cursor end. -/
abbrev Selection := Int × Int

/-- The members of `Ui::ScrollWindow` used by `SelectWindow`, over a base state
`β`.  The first argument of `Scroll`, `ScrollTo` and `Resize` is the value of
the virtual `BufferSize()`. -/
structure ScrollWindow (β : Type) where
  Scroll : Nat → Int → β → β
  ScrollTo : Nat → Nat → β → β
  Resize : Nat → Int → Int → β → β
  LastLine : β → Int
  scrollLine_ : β → Int
  MaxRows : β → Int

/-- State of a `SelectWindow`: the base sub-object and the own fields. -/
structure SelectWindow (β : Type) where
  base : β
  visualMode_ : Bool
  hadSelection_ : Bool
  currentLine_ : Int
  currentSelection_ : Selection
  lastSelection_ : Selection

/-- Conversion of an integer to `uint16_t`. -/
def toUInt16 (x : Int) : Nat := (x % 65536).toNat

namespace SelectWindow

variable {β : Type}

/-- The constructor `SelectWindow::SelectWindow`, given the constructed base. -/
def init (b : β) : SelectWindow β :=
  { base := b, visualMode_ := false, hadSelection_ := false, currentLine_ := 0,
    currentSelection_ := (0, 0), lastSelection_ := (0, 0) }

/-- `SelectWindow::LimitCurrentSelection`; `n` is `BufferSize()`. -/
def LimitCurrentSelection (n : Nat) (w : SelectWindow β) : SelectWindow β :=
  let cur : Int :=
    if w.currentLine_ < 0 then 0
    else if w.currentLine_ ≥ toInt32 n ∧ n > 0 then (n : Int) - 1
    else w.currentLine_
  let first : Int := if w.visualMode_ = false then cur else w.currentSelection_.1
  { w with currentLine_ := cur, currentSelection_ := (first, cur) }

/-- `SelectWindow::Resize`. -/
def Resize (sw : ScrollWindow β) (n : Nat) (rows columns : Int) (w : SelectWindow β) :
    SelectWindow β :=
  let w1 := if w.currentLine_ ≥ rows then { w with currentLine_ := rows - 1 } else w
  { w1 with base := sw.Resize n rows columns w1.base }

/-- `SelectWindow::Scroll`. -/
def Scroll (sw : ScrollWindow β) (n : Nat) (scrollCount : Int) (w : SelectWindow β) :
    SelectWindow β :=
  let w1 := LimitCurrentSelection n { w with currentLine_ := w.currentLine_ + scrollCount }
  if w1.currentLine_ ≥ sw.scrollLine_ w1.base ∨
      w1.currentLine_ < sw.scrollLine_ w1.base - sw.MaxRows w1.base then
    { w1 with base := sw.Scroll n scrollCount w1.base }
  else w1

/-- `SelectWindow::ScrollTo`; `scrollLine` is the `uint16_t` argument. -/
def ScrollTo (sw : ScrollWindow β) (n : Nat) (scrollLine : Nat) (w : SelectWindow β) :
    SelectWindow β :=
  let oldSelection := w.currentLine_
  let w1 := LimitCurrentSelection n { w with currentLine_ := (scrollLine : Int) }
  if w1.currentLine_ = sw.LastLine w1.base ∧ w1.currentLine_ - oldSelection = 1 then
    { w1 with base := sw.Scroll n 1 w1.base }
  else if w1.currentLine_ = sw.scrollLine_ w1.base - sw.MaxRows w1.base ∧
      w1.currentLine_ - oldSelection = -1 then
    { w1 with base := sw.Scroll n (-1) w1.base }
  else if w1.currentLine_ ≥ sw.scrollLine_ w1.base ∨
      w1.currentLine_ < sw.scrollLine_ w1.base - sw.MaxRows w1.base then
    { w1 with base := sw.ScrollTo n scrollLine w1.base }
  else if sw.scrollLine_ w1.base > (n : Int) then
    { w1 with base := sw.ScrollTo n n w1.base }
  else w1

/-- `SelectWindow::UpdateLastSelection`. -/
def UpdateLastSelection (w : SelectWindow β) : SelectWindow β :=
  if w.visualMode_ = true then { w with lastSelection_ := w.currentSelection_ } else w

/-- `SelectWindow::Confirm`. -/
def Confirm (w : SelectWindow β) : SelectWindow β :=
  let w1 := UpdateLastSelection w
  { w1 with visualMode_ := false, currentSelection_ := (w1.currentLine_, w1.currentSelection_.2) }

/-- `SelectWindow::AddLine`; the arguments are not used by the body. -/
def AddLine (_line _count : Nat) (_scroll : Bool) (w : SelectWindow β) : SelectWindow β :=
  let w1 := UpdateLastSelection w
  { w1 with visualMode_ := false, currentSelection_ := (w1.currentLine_, w1.currentSelection_.2) }

/-- `SelectWindow::DeleteLine`; the arguments are not used by the body. -/
def DeleteLine (_line _count : Nat) (_scroll : Bool) (w : SelectWindow β) : SelectWindow β :=
  let w1 := UpdateLastSelection w
  { w1 with visualMode_ := false, currentSelection_ := (w1.currentLine_, w1.currentSelection_.2) }

/-- `SelectWindow::Escape`. -/
def Escape (w : SelectWindow β) : SelectWindow β :=
  let w1 := UpdateLastSelection w
  { w1 with visualMode_ := false, currentSelection_ := (w1.currentLine_, w1.currentSelection_.2) }

/-- `SelectWindow::Visual`. -/
def Visual (w : SelectWindow β) : SelectWindow β :=
  let w1 := UpdateLastSelection w
  { w1 with hadSelection_ := true, visualMode_ := !w1.visualMode_,
            currentSelection_ := (w1.currentLine_, w1.currentSelection_.2) }

/-- `SelectWindow::IsSelected`; `line` is the `uint32_t` argument. -/
def IsSelected (w : SelectWindow β) (line : Nat) : Bool :=
  (decide (w.currentSelection_.1 = (line : Int)) || decide (w.currentSelection_.2 = (line : Int))) ||
  (decide (w.currentSelection_.1 > (line : Int)) && decide (w.currentSelection_.2 < (line : Int))) ||
  (decide (w.currentSelection_.1 < (line : Int)) && decide (w.currentSelection_.2 > (line : Int)))

/-- `SelectWindow::ResetSelection`. -/
def ResetSelection (sw : ScrollWindow β) (n : Nat) (w : SelectWindow β) : SelectWindow β :=
  if w.hadSelection_ = true then
    if w.lastSelection_.1 > -1 ∧ w.lastSelection_.2 < (n : Int) then
      let w1 := { w with visualMode_ := true, currentSelection_ := w.lastSelection_,
                         currentLine_ := w.lastSelection_.2 }
      ScrollTo sw n (toUInt16 w1.currentLine_) w1
    else w
  else w

end SelectWindow

/-- A call of one public operation of the select window, with its arguments. -/
inductive WindowOp where
  | Scroll (scrollCount : Int)
  | ScrollTo (scrollLine : Nat)
  | Resize (rows columns : Int)
  | Visual
  | Confirm
  | Escape
  | AddLine (line count : Nat) (scroll : Bool)
  | DeleteLine (line count : Nat) (scroll : Bool)
  | ResetSelection
  deriving DecidableEq, Repr

/-- Effect of one operation call on a window whose content has `n` lines. -/
def WindowOp.apply {β : Type} (sw : ScrollWindow β) (n : Nat) (w : SelectWindow β) :
    WindowOp → SelectWindow β
  | .Scroll c => w.Scroll sw n c
  | .ScrollTo l => w.ScrollTo sw n l
  | .Resize r c => w.Resize sw n r c
  | .Visual => w.Visual
  | .Confirm => w.Confirm
  | .Escape => w.Escape
  | .AddLine l c s => w.AddLine l c s
  | .DeleteLine l c s => w.DeleteLine l c s
  | .ResetSelection => w.ResetSelection sw n

/-- The window after a sequence of operation calls, starting from `w`. -/
def runWindow {β : Type} (sw : ScrollWindow β) (n : Nat) (w : SelectWindow β) (ops : List WindowOp) :
    SelectWindow β :=
  ops.foldl (WindowOp.apply sw n) w

/-- Base-class members that leave the (trivial) base state alone; used to
evaluate the window on concrete inputs where the base class plays no role. -/
def idleScrollWindow : ScrollWindow Unit :=
  { Scroll := fun _ _ b => b, ScrollTo := fun _ _ b => b, Resize := fun _ _ _ b => b,
    LastLine := fun _ => 0, scrollLine_ := fun _ => 0, MaxRows := fun _ => 0 }

/-- A call of a member of the base class `Ui::ScrollWindow`. -/
inductive BaseCall where
  | Scroll (scrollCount : Int)
  | ScrollTo (scrollLine : Nat)
  | Resize (rows columns : Int)
  deriving DecidableEq, Repr

/-- Base-class members that only record which of them were called, in order;
`LastLine()`, `scrollLine_` and `screen_.MaxRows()` are fixed values.  Used to
observe which member of `ScrollWindow` a `SelectWindow` method invokes. -/
def recordingScrollWindow (lastLine scrollLine maxRows : Int) : ScrollWindow (List BaseCall) :=
  { Scroll := fun _ c b => b ++ [BaseCall.Scroll c],
    ScrollTo := fun _ l b => b ++ [BaseCall.ScrollTo l],
    Resize := fun _ r c b => b ++ [BaseCall.Resize r c],
    LastLine := fun _ => lastLine,
    scrollLine_ := fun _ => scrollLine,
    MaxRows := fun _ => maxRows }

/-- State of the scrollable region of the spec: the first visible line and
the number of visible rows. -/
structure ScrollRegion where
  topLine : Int
  visibleRows : Int
  deriving DecidableEq, Repr

/-- Modelled from the spec: the base class `Ui::ScrollWindow` (its source is
not part of the sources), after the spec's ScrollableRegion.  `ScrollBy(delta)`
"moves `topLine` by delta, clamped to valid range", the range being
`[0, contentSize - visibleRows]` floored at 0; `ScrollTo(line)` sets `topLine`
to the requested line, clamped to the same range; `Resize` updates
`visibleRows` and clamps `topLine`.  The bottom edge `scrollLine_` (and
`LastLine()`) is `topLine + visibleRows`, the first line below the window, as
in the tests `currentLine_ >= scrollLine_` and
`currentLine_ < scrollLine_ - MaxRows()` of `SelectWindow::Scroll`. -/
def specScrollWindow : ScrollWindow ScrollRegion :=
  { Scroll := fun n delta b =>
      { b with topLine := max 0 (min (b.topLine + delta) (max 0 ((n : Int) - b.visibleRows))) },
    ScrollTo := fun n line b =>
      { b with topLine := max 0 (min (line : Int) (max 0 ((n : Int) - b.visibleRows))) },
    Resize := fun n rows _ b =>
      { topLine := max 0 (min b.topLine (max 0 ((n : Int) - rows))), visibleRows := rows },
    LastLine := fun b => b.topLine + b.visibleRows,
    scrollLine_ := fun b => b.topLine + b.visibleRows,
    MaxRows := fun b => b.visibleRows }

/-- The constant `AutoScrollSetting`. -/
def AutoScrollSetting : List Char := "autoscroll".toList

/-- The constant `HighlightSearchSetting`. -/
def HighlightSearchSetting : List Char := "hlsearch".toList

/-- The constant `SearchWrapSetting`. -/
def SearchWrapSetting : List Char := "searchwrap".toList

/-- The constant `StopOnQuitSetting`. -/
def StopOnQuitSetting : List Char := "stoponquit".toList

/-- The constant `WindowNumbersSetting`. -/
def WindowNumbersSetting : List Char := "windownumbers".toList

/-- The names of the five built-in toggles. -/
def toggleNames : List (List Char) :=
  [AutoScrollSetting, HighlightSearchSetting, SearchWrapSetting, StopOnQuitSetting,
    WindowNumbersSetting]

/-- The error numbers passed to `Error` by `Settings`. -/
inductive ErrorNumber where
  | SettingNonexistant
  deriving DecidableEq, Repr

/-- The fields of `Main::Settings`: the default window and the table of
toggles (`std::map` from name to `Setting<bool>`). -/
structure Settings (W : Type) where
  defaultWindow_ : W
  toggleTable_ : List (List Char × Bool)

/-- Outcome of a call on the settings: the settings after the call and the
error reported through `Error`, if any, with its message. -/
structure SetResult (W : Type) where
  settings : Settings W
  error : Option (ErrorNumber × List Char)

namespace Settings

variable {W : Type}

/-- The constructor `Settings::Settings`; `playlist` is `Ui::Screen::Playlist`. -/
def init (playlist : W) : Settings W :=
  { defaultWindow_ := playlist,
    toggleTable_ := [(AutoScrollSetting, true), (HighlightSearchSetting, true),
      (SearchWrapSetting, true), (StopOnQuitSetting, true), (WindowNumbersSetting, false)] }

/-- A settings state with the five built-in toggles at the given values. -/
def ofValues (window : W) (autoscroll hlsearch searchwrap stoponquit windownumbers : Bool) :
    Settings W :=
  { defaultWindow_ := window,
    toggleTable_ := [(AutoScrollSetting, autoscroll), (HighlightSearchSetting, hlsearch),
      (SearchWrapSetting, searchwrap), (StopOnQuitSetting, stoponquit),
      (WindowNumbersSetting, windownumbers)] }

/-- `Settings::Get(name)`: the value of a toggle, if the table holds it. -/
def Get (st : Settings W) (name : List Char) : Option Bool := st.toggleTable_.lookup name

/-- The statement `toggleTable_[setting]->Set(value)` for a name the table holds. -/
def setToggle (st : Settings W) (name : List Char) (value : Bool) : Settings W :=
  { st with toggleTable_ :=
      st.toggleTable_.map (fun kv => if kv.1 = name then (kv.1, value) else kv) }

/-- `std::getline(stream, str, delim)`: the characters before the first
`delim`, and the rest of the stream after that `delim`. -/
def getline (delim : Char) (stream : List Char) : List Char × List Char :=
  (stream.takeWhile (fun c => decide (c ≠ delim)),
   (stream.dropWhile (fun c => decide (c ≠ delim))).drop 1)

/-- The C string `s.c_str()` as the library reads it: the characters before
the first NUL. -/
def c_str (s : List Char) : List Char := s.takeWhile (fun c => decide (c ≠ Char.ofNat 0))

/-- `boost::regex_match(s, "^.*!$")`: the whole string ends in `!`. -/
def toggleCheck (s : List Char) : Bool := decide (s.getLast? = some '!')

/-- `boost::regex_match(s, "^no.*")`: the whole string starts with `no`. -/
def offCheck (s : List Char) : Bool := List.isPrefixOf ['n', 'o'] s

/-- `Settings::SetWindow`. -/
def SetWindow (getWindowFromName : List Char → W) (st : Settings W) (arguments : List Char) :
    Settings W :=
  { st with defaultWindow_ := getWindowFromName (arguments.map Char.toLower) }

/-- `Settings::SetSpecificSetting`; `settingsTable_` holds the one entry
`"window"`, bound to `SetWindow`. -/
def SetSpecificSetting (getWindowFromName : List Char → W) (st : Settings W)
    (setting arguments : List Char) : SetResult W :=
  if setting = "window".toList then
    { settings := SetWindow getWindowFromName st arguments, error := none }
  else
    { settings := st,
      error := some (ErrorNumber.SettingNonexistant, "No such setting: ".toList ++ setting) }

/-- `Settings::SetSingleSetting`. -/
def SetSingleSetting (st : Settings W) (setting : List Char) : SetResult W :=
  let toggle := toggleCheck (c_str setting)
  let off := offCheck (c_str setting)
  let setting1 := if toggle = true then setting.dropLast else setting
  let setting2 :=
    if off = true ∧ (st.toggleTable_.lookup setting1).isNone then setting1.drop 2 else setting1
  match st.toggleTable_.lookup setting2 with
  | some value =>
    if toggle = true then { settings := st.setToggle setting2 (!value), error := none }
    else { settings := st.setToggle setting2 (decide (off = false)), error := none }
  | none =>
    { settings := st,
      error := some (ErrorNumber.SettingNonexistant, "No such setting: ".toList ++ setting2) }

/-- `Settings::Set`. -/
def Set (getWindowFromName : List Char → W) (st : Settings W) (input : List Char) : SetResult W :=
  let setting := (getline ' ' input).1
  let arguments := (getline '\n' (getline ' ' input).2).1
  if arguments = [] then SetSingleSetting st setting
  else SetSpecificSetting getWindowFromName st setting arguments

end Settings

/-- The name of an argument-less input as the settings understand it: a
trailing `!` is removed, and if the result is not one of the five toggles a
leading `no` is removed. -/
def nameAfterStripping (name : List Char) : List Char :=
  let name1 := if name.getLast? = some '!' then name.dropLast else name
  if name1 ∈ toggleNames then name1
  else if List.isPrefixOf ['n', 'o'] name1 then name1.drop 2 else name1

/-- The text of an input before the first occurrence of the character `sep`
(the whole input when `sep` does not occur). -/
def textBefore (sep : Char) : List Char → List Char
  | [] => []
  | c :: cs => if c = sep then [] else c :: textBefore sep cs

/-- The text of an input after the first occurrence of the character `sep`
(empty when `sep` does not occur). -/
def textAfter (sep : Char) : List Char → List Char
  | [] => []
  | c :: cs => if c = sep then cs else textAfter sep cs

/-- The name of an input: the text before the first blank. -/
def settingName (input : List Char) : List Char := textBefore ' ' input

/-- The arguments of an input: the text after the first blank, up to the end
of the line. -/
def settingArguments (input : List Char) : List Char := textBefore '\n' (textAfter ' ' input)

/-- Whether an input names no known setting: an argument-less input whose
name, after stripping, is not one of the five toggles, or an input with
arguments whose name is not `window`. -/
def namesNoSetting (input : List Char) : Bool :=
  if settingArguments input = [] then
    decide (nameAfterStripping (settingName input) ∉ toggleNames)
  else decide (settingName input ≠ "window".toList)

/-- The twenty argument-less inputs that the settings accept: each toggle
name `x`, `nox`, `x!` and `nox!`. -/
def acceptedSingleSettings : List (List Char) :=
  toggleNames.flatMap (fun x => [x, ['n', 'o'] ++ x, x ++ ['!'], ['n', 'o'] ++ x ++ ['!']])

/-- A call on `st` raised no error, kept the default window, and kept every
toggle other than `x`. -/
def Settings.TouchesOnly {W : Type} (st : Settings W) (x : List Char) (r : SetResult W) : Prop :=
  r.error = none ∧ r.settings.defaultWindow_ = st.defaultWindow_ ∧
    ∀ y, y ≠ x → r.settings.Get y = st.Get y

/-! ## Ordering of library entries

`Mpc::Song`, `Algorithm::icompare` and the sort settings are declared outside
the sources; they are parameters of the comparison operators. -/

/-- Conversion of an integer to `uint32_t`. -/
def toUInt32 (x : Int) : Nat := (x % 4294967296).toNat

/-- A `LibraryEntry` with the fields that the comparison operators read next
to those of the counters; `S` stands for `Mpc::Song`, and `song_` is `none`
for `NULL`. -/
structure FullEntry (S : Type) extends LibraryEntry where
  artist_ : List Char
  album_ : List Char
  song_ : Option S
  expanded_ : Bool

/-- What `operator<` reads from outside the entry: `Algorithm::icompare`, the
two sort settings, and `atoi(song->Track().c_str())` for a song. -/
structure SortContext (S : Type) where
  icompare : List Char → List Char → Bool → Bool → Bool
  IgnoreTheSort : Bool
  IgnoreCaseSort : Bool
  trackOf : S → Int

namespace FullEntry

variable {S : Type}

/-- The default constructor `LibraryEntry::LibraryEntry()`. -/
def init : FullEntry S :=
  { type_ := EntryType.SongType, artist_ := [], album_ := [], song_ := none,
    expanded_ := false, children_ := [], parent_ := none, childrenInPlaylist_ := 0,
    partial_ := 0 }

/-- `LibraryEntry::operator<`. -/
def operatorLess (ctx : SortContext S) (lhs rhs : FullEntry S) : Bool :=
  if lhs.type_ = EntryType.ArtistType then
    ctx.icompare lhs.artist_ rhs.artist_ ctx.IgnoreTheSort ctx.IgnoreCaseSort
  else if lhs.type_ = EntryType.AlbumType then
    ctx.icompare lhs.album_ rhs.album_ ctx.IgnoreTheSort ctx.IgnoreCaseSort
  else
    match lhs.song_, rhs.song_ with
    | some song, some rhsSong =>
      decide (toUInt32 (ctx.trackOf song) < toUInt32 (ctx.trackOf rhsSong))
    | _, _ => false

/-- `LibraryEntry::operator==`. -/
def operatorEqual (ctx : SortContext S) (lhs rhs : FullEntry S) : Bool :=
  !(operatorLess ctx lhs rhs) && !(operatorLess ctx rhs lhs)

/-- `LibraryEntry::operator!=`. -/
def operatorNotEqual (ctx : SortContext S) (lhs rhs : FullEntry S) : Bool :=
  operatorLess ctx lhs rhs || operatorLess ctx rhs lhs

/-- A Song entry whose song has the given `atoi` value; the song is
represented by that value. -/
def songWithTrack (track : Int) : FullEntry Int :=
  { (init : FullEntry Int) with song_ := some track }

end FullEntry

/-- A sort context for songs represented by the `atoi` value of their track;
the string comparison is not consulted for Song entries. -/
def trackContext : SortContext Int :=
  { icompare := fun _ _ _ _ => false, IgnoreTheSort := true, IgnoreCaseSort := true,
    trackOf := fun track => track }

/-! ## The counter `partial_` of library entries -/

/-- The number of Songs of the album at `a` that are in the playlist `pl`,
plus one when there is at least one. -/
def albumWeight (h : Heap) (pl : List Nat) (a : Nat) : Nat :=
  (childrenAt h a).countP (inPlaylist pl) +
    (if 0 < (childrenAt h a).countP (inPlaylist pl) then 1 else 0)

/-- The counters `partial_` of `h` follow the playlist `pl` over the tree
`h0`: an Album holds the number of its Songs in the playlist, an Artist the
sum over its Albums of that number, plus one for each Album with a Song in
the playlist. -/
def PartialFollow (h0 h : Heap) (pl : List Nat) : Prop :=
  ∀ i : Nat,
    (typeAt h0 i = some .AlbumType →
      partialAt h i = ((childrenAt h0 i).countP (inPlaylist pl) : Nat)) ∧
    (typeAt h0 i = some .ArtistType →
      partialAt h i = (((childrenAt h0 i).map (albumWeight h0 pl)).sum : Nat))

/-- The largest value `partial_` of an Artist can take fits an `int32_t`: the
number of its Albums plus the number of their Songs is at most `INT32_MAX`. -/
def PartialFits (h : Heap) : Prop :=
  ∀ e ∈ h, e.type_ = .ArtistType →
    (((e.children_.map (fun a => (childrenAt h a).length + 1)).sum : Nat) : Int) ≤ INT32_MAX

instance PartialFits.instDecidable (h : Heap) : Decidable (PartialFits h) := by
  unfold PartialFits; infer_instance

/-! # Theorems -/

/-! ## Machine integers -/

theorem toInt32_of_range (x : Int) (h0 : -2147483648 ≤ x) (h1 : x ≤ 2147483647) : toInt32 x = x := by
  unfold toInt32; omega

theorem Heap.set_same (h : Heap) (i : Nat) (e : LibraryEntry) (hi : h[i]? = some e) : h.set i e = h := by
  apply List.ext_getElem?
  intro j
  by_cases hj : i = j
  · subst hj
    rw [List.getElem?_set_self (List.getElem?_eq_some.1 hi).1, hi]
  · rw [List.getElem?_set_ne hj]

theorem Heap.get_set_self (h : Heap) (i : Nat) (e e' : LibraryEntry) (hi : h[i]? = some e) :
    (h.set i e')[i]? = some e' :=
  List.getElem?_set_self (List.getElem?_eq_some.1 hi).1

theorem Heap.get_set_set_left (h : Heap) (a r : Nat) (ea x y : LibraryEntry) (hne : a ≠ r)
    (ha : h[a]? = some ea) : ((h.set a x).set r y)[a]? = some x := by
  rw [List.getElem?_set_ne (Ne.symm hne)]
  exact Heap.get_set_self h a ea x ha

theorem Heap.get_set_set_right (h : Heap) (a r : Nat) (er x y : LibraryEntry) (hne : a ≠ r)
    (hr : h[r]? = some er) : ((h.set a x).set r y)[r]? = some y := by
  apply Heap.get_set_self _ r er
  rw [List.getElem?_set_ne hne]
  exact hr

theorem Heap.set_pair_again (h : Heap) (a r : Nat) (x y x' y' : LibraryEntry) (hne : a ≠ r) :
    (((h.set a x).set r y).set a x').set r y' = (h.set a x').set r y' := by
  rw [List.set_comm y x' _ (Ne.symm hne), List.set_set, List.set_set]

@[simp] theorem LibraryEntry.incCount_parent (e : LibraryEntry) : e.incCount.parent_ = e.parent_ := rfl
@[simp] theorem LibraryEntry.incPartial_parent (e : LibraryEntry) : e.incPartial.parent_ = e.parent_ := rfl
@[simp] theorem LibraryEntry.decCount_parent (e : LibraryEntry) : e.decCount.parent_ = e.parent_ := rfl
@[simp] theorem LibraryEntry.decPartial_parent (e : LibraryEntry) : e.decPartial.parent_ = e.parent_ := rfl

theorem ne_of_parent (h : Heap) (a r : Nat) (ea er : LibraryEntry) (ha : h[a]? = some ea)
    (hr : h[r]? = some er) (hp : ea.parent_ ≠ er.parent_) : a ≠ r := by
  rintro rfl
  rw [ha] at hr
  cases hr
  exact hp rfl

theorem callParentIf_some (g : Heap → Nat → Option Heap) (c : LibraryEntry → Bool) (h : Heap) (i p : Nat)
    (e : LibraryEntry) (hi : h[i]? = some e) (hp : e.parent_ = some p) :
    callParentIf g c h i = if c e then g h p else some h := by
  simp only [callParentIf, hi, hp]

theorem callParentIf_none (g : Heap → Nat → Option Heap) (c : LibraryEntry → Bool) (h : Heap) (i : Nat)
    (e : LibraryEntry) (hi : h[i]? = some e) (hp : e.parent_ = none) :
    callParentIf g c h i = some h := by
  simp only [callParentIf, hi, hp]

theorem AddedToPlaylist_succ (f : Nat) (h : Heap) (i : Nat) (e : LibraryEntry) (hi : h[i]? = some e) :
    AddedToPlaylist (f + 1) h i =
      match callParentIf (AddPartial f) (fun e1 => decide (e1.childrenInPlaylist_ = 1))
          (h.set i e.incCount) i with
      | none => none
      | some h2 => callParentIf (AddedToPlaylist f) fullOrSong h2 i := by
  rw [AddedToPlaylist]
  simp only [hi]

theorem RemovedFromPlaylist_succ (f : Nat) (h : Heap) (i : Nat) :
    RemovedFromPlaylist (f + 1) h i =
      match callParentIf (RemovedFromPlaylist f) fullOrSong h i with
      | none => none
      | some h1 =>
        match h1[i]? with
        | none => none
        | some e1 =>
          callParentIf (RemovePartial f) (fun e2 => decide (e2.childrenInPlaylist_ = 0))
            (h1.set i e1.decCount) i := by
  rw [RemovedFromPlaylist]

theorem AddPartial_succ (f : Nat) (h : Heap) (i : Nat) (e : LibraryEntry) (hi : h[i]? = some e) :
    AddPartial (f + 1) h i =
      match e.parent_ with
      | some p => AddPartial f (h.set i e.incPartial) p
      | none => some (h.set i e.incPartial) := by
  rw [AddPartial]
  simp only [hi]

theorem RemovePartial_succ (f : Nat) (h : Heap) (i : Nat) (e : LibraryEntry) (hi : h[i]? = some e) :
    RemovePartial (f + 1) h i =
      match e.parent_ with
      | some p => RemovePartial f (h.set i e.decPartial) p
      | none => some (h.set i e.decPartial) := by
  rw [RemovePartial]
  simp only [hi]

/-! ### The methods on a root entry -/

theorem AddPartial_root (f : Nat) (h : Heap) (r : Nat) (er : LibraryEntry)
    (hr : h[r]? = some er) (hp : er.parent_ = none) :
    AddPartial (f + 1) h r = some (h.set r er.incPartial) := by
  rw [AddPartial_succ f h r er hr, hp]

theorem RemovePartial_root (f : Nat) (h : Heap) (r : Nat) (er : LibraryEntry)
    (hr : h[r]? = some er) (hp : er.parent_ = none) :
    RemovePartial (f + 1) h r = some (h.set r er.decPartial) := by
  rw [RemovePartial_succ f h r er hr, hp]

theorem AddedToPlaylist_root (f : Nat) (h : Heap) (r : Nat) (er : LibraryEntry)
    (hr : h[r]? = some er) (hp : er.parent_ = none) :
    AddedToPlaylist (f + 1) h r = some (h.set r er.incCount) := by
  have h1 := Heap.get_set_self h r er er.incCount hr
  rw [AddedToPlaylist_succ f h r er hr, callParentIf_none _ _ _ _ _ h1 hp]
  exact callParentIf_none _ _ _ _ _ h1 hp

theorem RemovedFromPlaylist_root (f : Nat) (h : Heap) (r : Nat) (er : LibraryEntry)
    (hr : h[r]? = some er) (hp : er.parent_ = none) :
    RemovedFromPlaylist (f + 1) h r = some (h.set r er.decCount) := by
  rw [RemovedFromPlaylist_succ, callParentIf_none _ _ _ _ _ hr hp]
  simp only [hr]
  exact callParentIf_none _ _ _ _ _ (Heap.get_set_self h r er _ hr) hp

/-! ### The methods on an entry whose parent is a root -/

theorem AddPartial_child (f : Nat) (h : Heap) (a r : Nat) (ea er : LibraryEntry)
    (ha : h[a]? = some ea) (hpa : ea.parent_ = some r)
    (hr : h[r]? = some er) (hpr : er.parent_ = none) :
    AddPartial (f + 2) h a = some ((h.set a ea.incPartial).set r er.incPartial) := by
  have hne : a ≠ r := ne_of_parent h a r ea er ha hr (by rw [hpa, hpr]; simp)
  have step : AddPartial (f + 2) h a = AddPartial (f + 1) (h.set a ea.incPartial) r := by
    rw [AddPartial_succ _ h a ea ha, hpa]
  rw [step]
  exact AddPartial_root f _ r er (by rw [List.getElem?_set_ne hne]; exact hr) hpr

theorem RemovePartial_child (f : Nat) (h : Heap) (a r : Nat) (ea er : LibraryEntry)
    (ha : h[a]? = some ea) (hpa : ea.parent_ = some r)
    (hr : h[r]? = some er) (hpr : er.parent_ = none) :
    RemovePartial (f + 2) h a = some ((h.set a ea.decPartial).set r er.decPartial) := by
  have hne : a ≠ r := ne_of_parent h a r ea er ha hr (by rw [hpa, hpr]; simp)
  have step : RemovePartial (f + 2) h a = RemovePartial (f + 1) (h.set a ea.decPartial) r := by
    rw [RemovePartial_succ _ h a ea ha, hpa]
  rw [step]
  exact RemovePartial_root f _ r er (by rw [List.getElem?_set_ne hne]; exact hr) hpr

theorem AddedToPlaylist_child (f : Nat) (h : Heap) (a r : Nat) (ea er : LibraryEntry)
    (ha : h[a]? = some ea) (hpa : ea.parent_ = some r)
    (hr : h[r]? = some er) (hpr : er.parent_ = none) :
    AddedToPlaylist (f + 2) h a =
      some ((h.set a ea.incCount).set r (rootAfterChildAdded ea.incCount er)) := by
  unfold rootAfterChildAdded
  have hne : a ≠ r := ne_of_parent h a r ea er ha hr (by rw [hpa, hpr]; simp)
  have h1a : (h.set a ea.incCount)[a]? = some ea.incCount := Heap.get_set_self h a ea _ ha
  have h1r : (h.set a ea.incCount)[r]? = some er := by rw [List.getElem?_set_ne hne]; exact hr
  -- the heap after the first `if`
  have first : callParentIf (AddPartial (f + 1)) (fun e1 => decide (e1.childrenInPlaylist_ = 1))
      (h.set a ea.incCount) a
      = some ((h.set a ea.incCount).set r
          (if ea.incCount.childrenInPlaylist_ = 1 then er.incPartial else er)) := by
    rw [callParentIf_some _ _ _ a r _ h1a (by simpa using hpa)]
    by_cases c1 : ea.incCount.childrenInPlaylist_ = 1
    · simp only [c1, decide_True, if_true]
      exact AddPartial_root f _ r er h1r hpr
    · simp only [c1, decide_False, if_false, Bool.false_eq_true]
      rw [Heap.set_same _ r er h1r]
  rw [AddedToPlaylist_succ _ h a ea ha, first]
  simp only
  have h2a := Heap.get_set_set_left h a r ea ea.incCount
    (if ea.incCount.childrenInPlaylist_ = 1 then er.incPartial else er) hne ha
  have h2r := Heap.get_set_set_right h a r er ea.incCount
    (if ea.incCount.childrenInPlaylist_ = 1 then er.incPartial else er) hne hr
  rw [callParentIf_some _ _ _ a r _ h2a (by simpa using hpa)]
  by_cases c2 : fullOrSong ea.incCount = true
  · simp only [c2, if_true]
    rw [AddedToPlaylist_root f _ r _ h2r (by split_ifs <;> simpa using hpr), List.set_set]
  · simp only [c2, if_false, Bool.false_eq_true]

theorem RemovedFromPlaylist_child (f : Nat) (h : Heap) (a r : Nat) (ea er : LibraryEntry)
    (ha : h[a]? = some ea) (hpa : ea.parent_ = some r)
    (hr : h[r]? = some er) (hpr : er.parent_ = none) :
    RemovedFromPlaylist (f + 2) h a =
      some ((h.set a ea.decCount).set r (rootAfterChildRemoved ea er)) := by
  unfold rootAfterChildRemoved
  have hne : a ≠ r := ne_of_parent h a r ea er ha hr (by rw [hpa, hpr]; simp)
  have first : callParentIf (RemovedFromPlaylist (f + 1)) fullOrSong h a
      = some (h.set r (if fullOrSong ea = true then er.decCount else er)) := by
    rw [callParentIf_some _ _ _ a r _ ha hpa]
    by_cases c1 : fullOrSong ea = true
    · simp only [c1, if_true]
      exact RemovedFromPlaylist_root f _ r er hr hpr
    · simp only [c1, if_false, Bool.false_eq_true]
      rw [Heap.set_same _ r er hr]
  have h1a : (h.set r (if fullOrSong ea = true then er.decCount else er))[a]? = some ea := by
    rw [List.getElem?_set_ne (Ne.symm hne)]; exact ha
  rw [RemovedFromPlaylist_succ, first]
  simp only [h1a]
  rw [List.set_comm _ _ _ (Ne.symm hne)]
  have h2a := Heap.get_set_set_left h a r ea ea.decCount
    (if fullOrSong ea = true then er.decCount else er) hne ha
  have h2r := Heap.get_set_set_right h a r er ea.decCount
    (if fullOrSong ea = true then er.decCount else er) hne hr
  rw [callParentIf_some _ _ _ a r _ h2a (by simpa using hpa)]
  by_cases c2 : ea.decCount.childrenInPlaylist_ = 0
  · simp only [c2, decide_True, if_true]
    rw [RemovePartial_root f _ r _ h2r (by split_ifs <;> simpa using hpr), List.set_set]
  · simp only [c2, decide_False, if_false, Bool.false_eq_true]


/-! ### The methods on an entry whose grandparent is a root -/

@[simp] theorem rootAfterChildAdded_parent (ea1 er : LibraryEntry) :
    (rootAfterChildAdded ea1 er).parent_ = er.parent_ := by
  unfold rootAfterChildAdded; split_ifs <;> rfl

@[simp] theorem rootAfterChildRemoved_parent (ea er : LibraryEntry) :
    (rootAfterChildRemoved ea er).parent_ = er.parent_ := by
  unfold rootAfterChildRemoved; split_ifs <;> rfl

theorem AddPartial_grandchild (f : Nat) (h : Heap) (s a r : Nat) (es ea er : LibraryEntry)
    (hs : h[s]? = some es) (hps : es.parent_ = some a)
    (ha : h[a]? = some ea) (hpa : ea.parent_ = some r)
    (hr : h[r]? = some er) (hpr : er.parent_ = none) :
    AddPartial (f + 3) h s =
      some (((h.set s es.incPartial).set a ea.incPartial).set r er.incPartial) := by
  have hsr : s ≠ r := ne_of_parent h s r es er hs hr (by rw [hps, hpr]; simp)
  have har : a ≠ r := ne_of_parent h a r ea er ha hr (by rw [hpa, hpr]; simp)
  have hsa : s ≠ a := by
    apply ne_of_parent h s a es ea hs ha
    rw [hps, hpa]
    intro hc
    exact har (Option.some.inj hc)
  rw [AddPartial_succ _ h s es hs, hps]
  exact AddPartial_child f _ a r ea er (by rw [List.getElem?_set_ne hsa]; exact ha) hpa
    (by rw [List.getElem?_set_ne hsr]; exact hr) hpr

theorem RemovePartial_grandchild (f : Nat) (h : Heap) (s a r : Nat) (es ea er : LibraryEntry)
    (hs : h[s]? = some es) (hps : es.parent_ = some a)
    (ha : h[a]? = some ea) (hpa : ea.parent_ = some r)
    (hr : h[r]? = some er) (hpr : er.parent_ = none) :
    RemovePartial (f + 3) h s =
      some (((h.set s es.decPartial).set a ea.decPartial).set r er.decPartial) := by
  have hsr : s ≠ r := ne_of_parent h s r es er hs hr (by rw [hps, hpr]; simp)
  have har : a ≠ r := ne_of_parent h a r ea er ha hr (by rw [hpa, hpr]; simp)
  have hsa : s ≠ a := by
    apply ne_of_parent h s a es ea hs ha
    rw [hps, hpa]
    intro hc
    exact har (Option.some.inj hc)
  rw [RemovePartial_succ _ h s es hs, hps]
  exact RemovePartial_child f _ a r ea er (by rw [List.getElem?_set_ne hsa]; exact ha) hpa
    (by rw [List.getElem?_set_ne hsr]; exact hr) hpr

theorem AddedToPlaylist_grandchild (f : Nat) (h : Heap) (s a r : Nat) (es ea er : LibraryEntry)
    (hs : h[s]? = some es) (hps : es.parent_ = some a)
    (ha : h[a]? = some ea) (hpa : ea.parent_ = some r)
    (hr : h[r]? = some er) (hpr : er.parent_ = none) :
    AddedToPlaylist (f + 3) h s =
      some (((h.set s es.incCount).set a
          (if fullOrSong es.incCount = true then
            (if es.incCount.childrenInPlaylist_ = 1 then ea.incPartial else ea).incCount
           else (if es.incCount.childrenInPlaylist_ = 1 then ea.incPartial else ea))).set r
          (if fullOrSong es.incCount = true then
            rootAfterChildAdded (if es.incCount.childrenInPlaylist_ = 1 then ea.incPartial else ea).incCount
              (if es.incCount.childrenInPlaylist_ = 1 then er.incPartial else er)
           else (if es.incCount.childrenInPlaylist_ = 1 then er.incPartial else er))) := by
  have hsr : s ≠ r := ne_of_parent h s r es er hs hr (by rw [hps, hpr]; simp)
  have har : a ≠ r := ne_of_parent h a r ea er ha hr (by rw [hpa, hpr]; simp)
  have hsa : s ≠ a := by
    apply ne_of_parent h s a es ea hs ha
    rw [hps, hpa]
    intro hc
    exact har (Option.some.inj hc)
  have h1s : (h.set s es.incCount)[s]? = some es.incCount := Heap.get_set_self h s es _ hs
  have h1a : (h.set s es.incCount)[a]? = some ea := by rw [List.getElem?_set_ne hsa]; exact ha
  have h1r : (h.set s es.incCount)[r]? = some er := by rw [List.getElem?_set_ne hsr]; exact hr
  have first : callParentIf (AddPartial (f + 2)) (fun e1 => decide (e1.childrenInPlaylist_ = 1))
      (h.set s es.incCount) s
      = some (((h.set s es.incCount).set a
          (if es.incCount.childrenInPlaylist_ = 1 then ea.incPartial else ea)).set r
          (if es.incCount.childrenInPlaylist_ = 1 then er.incPartial else er)) := by
    rw [callParentIf_some _ _ _ s a _ h1s (by simpa using hps)]
    by_cases c1 : es.incCount.childrenInPlaylist_ = 1
    · simp only [c1, decide_True, if_true]
      exact AddPartial_child f _ a r ea er h1a hpa h1r hpr
    · simp only [c1, decide_False, if_false, Bool.false_eq_true]
      rw [Heap.set_same _ a ea h1a, Heap.set_same _ r er h1r]
  rw [AddedToPlaylist_succ _ h s es hs, first]
  simp only
  have hpa1 : (if es.incCount.childrenInPlaylist_ = 1 then ea.incPartial else ea).parent_ = some r := by
    split_ifs <;> simpa using hpa
  have hpr1 : (if es.incCount.childrenInPlaylist_ = 1 then er.incPartial else er).parent_ = none := by
    split_ifs <;> simpa using hpr
  set ea1 := (if es.incCount.childrenInPlaylist_ = 1 then ea.incPartial else ea) with hea1
  set er1 := (if es.incCount.childrenInPlaylist_ = 1 then er.incPartial else er) with her1
  have h2s : (((h.set s es.incCount).set a ea1).set r er1)[s]? = some es.incCount := by
    rw [List.getElem?_set_ne (Ne.symm hsr), List.getElem?_set_ne (Ne.symm hsa)]; exact h1s
  have h2a := Heap.get_set_set_left (h.set s es.incCount) a r ea ea1 er1 har h1a
  have h2r := Heap.get_set_set_right (h.set s es.incCount) a r er ea1 er1 har h1r
  rw [callParentIf_some _ _ _ s a _ h2s (by simpa using hps)]
  by_cases c2 : fullOrSong es.incCount = true
  · simp only [c2, if_true]
    rw [AddedToPlaylist_child f _ a r ea1 er1 h2a hpa1 h2r hpr1, Heap.set_pair_again _ a r _ _ _ _ har]
  · simp only [c2, if_false, Bool.false_eq_true]

theorem RemovedFromPlaylist_grandchild (f : Nat) (h : Heap) (s a r : Nat) (es ea er : LibraryEntry)
    (hs : h[s]? = some es) (hps : es.parent_ = some a)
    (ha : h[a]? = some ea) (hpa : ea.parent_ = some r)
    (hr : h[r]? = some er) (hpr : er.parent_ = none) :
    RemovedFromPlaylist (f + 3) h s =
      some (((h.set s es.decCount).set a
          (if es.decCount.childrenInPlaylist_ = 0 then
            (if fullOrSong es = true then ea.decCount else ea).decPartial
           else (if fullOrSong es = true then ea.decCount else ea))).set r
          (if es.decCount.childrenInPlaylist_ = 0 then
            (if fullOrSong es = true then rootAfterChildRemoved ea er else er).decPartial
           else (if fullOrSong es = true then rootAfterChildRemoved ea er else er))) := by
  have hsr : s ≠ r := ne_of_parent h s r es er hs hr (by rw [hps, hpr]; simp)
  have har : a ≠ r := ne_of_parent h a r ea er ha hr (by rw [hpa, hpr]; simp)
  have hsa : s ≠ a := by
    apply ne_of_parent h s a es ea hs ha
    rw [hps, hpa]
    intro hc
    exact har (Option.some.inj hc)
  have first : callParentIf (RemovedFromPlaylist (f + 2)) fullOrSong h s
      = some ((h.set a (if fullOrSong es = true then ea.decCount else ea)).set r
          (if fullOrSong es = true then rootAfterChildRemoved ea er else er)) := by
    rw [callParentIf_some _ _ _ s a _ hs hps]
    by_cases c1 : fullOrSong es = true
    · simp only [c1, if_true]
      exact RemovedFromPlaylist_child f _ a r ea er ha hpa hr hpr
    · simp only [c1, if_false, Bool.false_eq_true]
      rw [Heap.set_same _ a ea ha, Heap.set_same _ r er hr]
  have hpa1 : (if fullOrSong es = true then ea.decCount else ea).parent_ = some r := by
    split_ifs <;> simpa using hpa
  have hpr1 : (if fullOrSong es = true then rootAfterChildRemoved ea er else er).parent_ = none := by
    split_ifs <;> simpa using hpr
  set ea1 := (if fullOrSong es = true then ea.decCount else ea) with hea1
  set er1 := (if fullOrSong es = true then rootAfterChildRemoved ea er else er) with her1
  have h1s : ((h.set a ea1).set r er1)[s]? = some es := by
    rw [List.getElem?_set_ne (Ne.symm hsr), List.getElem?_set_ne (Ne.symm hsa)]; exact hs
  rw [RemovedFromPlaylist_succ, first]
  simp only [h1s]
  have reorder : ((h.set a ea1).set r er1).set s es.decCount
      = ((h.set s es.decCount).set a ea1).set r er1 := by
    rw [List.set_comm _ _ _ (Ne.symm hsr), List.set_comm _ _ _ (Ne.symm hsa)]
  rw [reorder]
  have g1s : (h.set s es.decCount)[s]? = some es.decCount := Heap.get_set_self h s es _ hs
  have g1a : (h.set s es.decCount)[a]? = some ea := by rw [List.getElem?_set_ne hsa]; exact ha
  have g1r : (h.set s es.decCount)[r]? = some er := by rw [List.getElem?_set_ne hsr]; exact hr
  have h2s : (((h.set s es.decCount).set a ea1).set r er1)[s]? = some es.decCount := by
    rw [List.getElem?_set_ne (Ne.symm hsr), List.getElem?_set_ne (Ne.symm hsa)]; exact g1s
  have h2a := Heap.get_set_set_left (h.set s es.decCount) a r ea ea1 er1 har g1a
  have h2r := Heap.get_set_set_right (h.set s es.decCount) a r er ea1 er1 har g1r
  rw [callParentIf_some _ _ _ s a _ h2s (by simpa using hps)]
  by_cases c2 : es.decCount.childrenInPlaylist_ = 0
  · simp only [c2, decide_True, if_true]
    rw [RemovePartial_child f _ a r ea1 er1 h2a hpa1 h2r hpr1, Heap.set_pair_again _ a r _ _ _ _ har]
  · simp only [c2, decide_False, if_false, Bool.false_eq_true]


/-! ### Well-formed library trees -/

theorem WellFormed.entry {h : Heap} (hwf : WellFormed h) {i : Nat} {e : LibraryEntry}
    (hi : h[i]? = some e) : EntryWellFormed h i e := by
  obtain ⟨hlt, he⟩ := List.getElem?_eq_some.1 hi
  have := hwf i hlt
  rw [List.get_eq_getElem] at this
  simpa [he] using this

theorem typeAt_eq_some {h : Heap} {i : Nat} {t : EntryType} :
    typeAt h i = some t ↔ ∃ e, h[i]? = some e ∧ e.type_ = t := by
  unfold typeAt
  cases h[i]? <;> simp

theorem childrenAt_of_get {h : Heap} {i : Nat} {e : LibraryEntry} (hi : h[i]? = some e) :
    childrenAt h i = e.children_ := by
  simp [childrenAt, hi]

theorem countAt_of_get {h : Heap} {i : Nat} {e : LibraryEntry} (hi : h[i]? = some e) :
    countAt h i = e.childrenInPlaylist_ := by
  simp [countAt, hi]

theorem parentAt_of_get {h : Heap} {i : Nat} {e : LibraryEntry} (hi : h[i]? = some e) :
    parentAt h i = e.parent_ := by
  simp [parentAt, hi]

theorem typeAt_of_get {h : Heap} {i : Nat} {e : LibraryEntry} (hi : h[i]? = some e) :
    typeAt h i = some e.type_ := by
  simp [typeAt, hi]

/-- In a well-formed heap a Song entry sits under an Album under a root Artist. -/
theorem WellFormed.song_chain {h : Heap} (hwf : WellFormed h) {s : Nat}
    (hs : typeAt h s = some .SongType) :
    ∃ a r es ea er, h[s]? = some es ∧ es.type_ = .SongType ∧ es.parent_ = some a ∧
      h[a]? = some ea ∧ ea.type_ = .AlbumType ∧ ea.parent_ = some r ∧
      h[r]? = some er ∧ er.type_ = .ArtistType ∧ er.parent_ = none ∧
      s ∈ ea.children_ ∧ a ∈ er.children_ := by
  obtain ⟨es, hes, hts⟩ := typeAt_eq_some.1 hs
  have ws := hwf.entry hes
  obtain ⟨-, -, -, hsin, -, -, hsong⟩ := ws
  obtain ⟨hpt, -⟩ := hsong hts
  cases hps : es.parent_ with
  | none => rw [hps] at hpt; simp at hpt
  | some a =>
    rw [hps] at hpt
    simp only [Option.some_bind] at hpt
    obtain ⟨ea, hea, hta⟩ := typeAt_eq_some.1 hpt
    have wa := hwf.entry hea
    obtain ⟨-, -, -, hain, -, halb, -⟩ := wa
    have hpta := halb hta
    cases hpa : ea.parent_ with
    | none => rw [hpa] at hpta; simp at hpta
    | some r =>
      rw [hpa] at hpta
      simp only [Option.some_bind] at hpta
      obtain ⟨er, her, htr⟩ := typeAt_eq_some.1 hpta
      have wr := hwf.entry her
      obtain ⟨-, -, -, -, hart, -, -⟩ := wr
      refine ⟨a, r, es, ea, er, hes, hts, hps, hea, hta, hpa, her, htr, hart htr, ?_, ?_⟩
      · have := hsin a (by rw [hps]; simp)
        rwa [childrenAt_of_get hea] at this
      · have := hain r (by rw [hpa]; simp)
        rwa [childrenAt_of_get her] at this

theorem SameShape.get {h0 h : Heap} (hsh : SameShape h0 h) {i : Nat} {e0 : LibraryEntry}
    (hi : h0[i]? = some e0) :
    ∃ e, h[i]? = some e ∧ e.type_ = e0.type_ ∧ e.children_ = e0.children_ ∧ e.parent_ = e0.parent_ := by
  have := hsh i
  rw [hi] at this
  cases he : h[i]? with
  | none => rw [he] at this; simp at this
  | some e =>
    rw [he] at this
    simp only [Option.map_some', Option.some.injEq, LibraryEntry.shape, Prod.mk.injEq] at this
    exact ⟨e, rfl, this.1, this.2.1, this.2.2⟩

theorem SameShape.refl (h : Heap) : SameShape h h := fun _ => rfl

theorem SameShape.trans {h0 h1 h2 : Heap} (h01 : SameShape h0 h1) (h12 : SameShape h1 h2) :
    SameShape h0 h2 := fun i => (h12 i).trans (h01 i)

theorem SameShape.set {h : Heap} {i : Nat} {e e' : LibraryEntry} (hi : h[i]? = some e)
    (hs : e'.shape = e.shape) : SameShape h (h.set i e') := by
  intro j
  by_cases hj : i = j
  · subst hj
    rw [Heap.get_set_self h i e e' hi, hi]
    simp [hs]
  · rw [List.getElem?_set_ne hj]

/-! ### Counting over a list without repetitions -/

theorem countP_flip_one {l : List Nat} (hl : l.Nodup) {a : Nat} (ha : a ∈ l) {p q : Nat → Bool}
    (hpq : ∀ x ∈ l, x ≠ a → q x = p x) (hp : p a = false) :
    l.countP q = l.countP p + (if q a = true then 1 else 0) := by
  induction l with
  | nil => simp at ha
  | cons x xs ih =>
    rw [List.nodup_cons] at hl
    rw [List.countP_cons, List.countP_cons]
    by_cases hx : x = a
    · subst hx
      have hrest : xs.countP q = xs.countP p := by
        apply List.countP_congr
        intro y hy
        have hne : y ≠ x := fun h => hl.1 (h ▸ hy)
        rw [hpq y (List.mem_cons_of_mem _ hy) hne]
      rw [hrest, hp]
      simp
    · have hax : a ∈ xs := by
        rcases List.mem_cons.1 ha with h | h
        · exact absurd h.symm hx
        · exact h
      rw [ih hl.2 hax (fun y hy hne => hpq y (List.mem_cons_of_mem _ hy) hne),
        hpq x (List.mem_cons_self _ _) hx]
      omega

theorem countP_same {l : List Nat} {p q : Nat → Bool} (hpq : ∀ x ∈ l, q x = p x) :
    l.countP q = l.countP p := by
  apply List.countP_congr
  intro x hx
  rw [hpq x hx]

/-! ### Fields after the counter statements -/

@[simp] theorem LibraryEntry.incCount_shape (e : LibraryEntry) : e.incCount.shape = e.shape := rfl
@[simp] theorem LibraryEntry.incPartial_shape (e : LibraryEntry) : e.incPartial.shape = e.shape := rfl
@[simp] theorem LibraryEntry.decCount_shape (e : LibraryEntry) : e.decCount.shape = e.shape := rfl
@[simp] theorem LibraryEntry.decPartial_shape (e : LibraryEntry) : e.decPartial.shape = e.shape := rfl

@[simp] theorem LibraryEntry.incCount_type (e : LibraryEntry) : e.incCount.type_ = e.type_ := rfl
@[simp] theorem LibraryEntry.incPartial_type (e : LibraryEntry) : e.incPartial.type_ = e.type_ := rfl
@[simp] theorem LibraryEntry.decCount_type (e : LibraryEntry) : e.decCount.type_ = e.type_ := rfl
@[simp] theorem LibraryEntry.decPartial_type (e : LibraryEntry) : e.decPartial.type_ = e.type_ := rfl

@[simp] theorem LibraryEntry.incCount_children (e : LibraryEntry) : e.incCount.children_ = e.children_ := rfl
@[simp] theorem LibraryEntry.incPartial_children (e : LibraryEntry) : e.incPartial.children_ = e.children_ := rfl
@[simp] theorem LibraryEntry.decCount_children (e : LibraryEntry) : e.decCount.children_ = e.children_ := rfl
@[simp] theorem LibraryEntry.decPartial_children (e : LibraryEntry) : e.decPartial.children_ = e.children_ := rfl

@[simp] theorem LibraryEntry.incCount_count (e : LibraryEntry) :
    e.incCount.childrenInPlaylist_ = toInt32 (e.childrenInPlaylist_ + 1) := rfl
@[simp] theorem LibraryEntry.incPartial_count (e : LibraryEntry) :
    e.incPartial.childrenInPlaylist_ = e.childrenInPlaylist_ := rfl
@[simp] theorem LibraryEntry.decCount_count (e : LibraryEntry) :
    e.decCount.childrenInPlaylist_ =
      if e.childrenInPlaylist_ > 0 then e.childrenInPlaylist_ - 1 else e.childrenInPlaylist_ := rfl
@[simp] theorem LibraryEntry.decPartial_count (e : LibraryEntry) :
    e.decPartial.childrenInPlaylist_ = e.childrenInPlaylist_ := rfl

@[simp] theorem LibraryEntry.incCount_partial (e : LibraryEntry) : e.incCount.partial_ = e.partial_ := rfl
@[simp] theorem LibraryEntry.incPartial_partial (e : LibraryEntry) :
    e.incPartial.partial_ = toInt32 (e.partial_ + 1) := rfl
@[simp] theorem LibraryEntry.decCount_partial (e : LibraryEntry) : e.decCount.partial_ = e.partial_ := rfl
@[simp] theorem LibraryEntry.decPartial_partial (e : LibraryEntry) :
    e.decPartial.partial_ = if e.partial_ > 0 then e.partial_ - 1 else e.partial_ := rfl

@[simp] theorem rootAfterChildAdded_shape (ea1 er : LibraryEntry) :
    (rootAfterChildAdded ea1 er).shape = er.shape := by
  unfold rootAfterChildAdded; split_ifs <;> rfl

@[simp] theorem rootAfterChildRemoved_shape (ea er : LibraryEntry) :
    (rootAfterChildRemoved ea er).shape = er.shape := by
  unfold rootAfterChildRemoved; split_ifs <;> rfl

theorem rootAfterChildAdded_count (ea1 er : LibraryEntry) :
    (rootAfterChildAdded ea1 er).childrenInPlaylist_ =
      if fullOrSong ea1 = true then toInt32 (er.childrenInPlaylist_ + 1) else er.childrenInPlaylist_ := by
  unfold rootAfterChildAdded; split_ifs <;> rfl

theorem rootAfterChildAdded_partial (ea1 er : LibraryEntry) :
    (rootAfterChildAdded ea1 er).partial_ =
      if ea1.childrenInPlaylist_ = 1 then toInt32 (er.partial_ + 1) else er.partial_ := by
  unfold rootAfterChildAdded; split_ifs <;> rfl

theorem rootAfterChildRemoved_count (ea er : LibraryEntry) :
    (rootAfterChildRemoved ea er).childrenInPlaylist_ =
      if fullOrSong ea = true then
        (if er.childrenInPlaylist_ > 0 then er.childrenInPlaylist_ - 1 else er.childrenInPlaylist_)
      else er.childrenInPlaylist_ := by
  unfold rootAfterChildRemoved; split_ifs <;> simp_all

theorem rootAfterChildRemoved_partial (ea er : LibraryEntry) :
    (rootAfterChildRemoved ea er).partial_ =
      if ea.decCount.childrenInPlaylist_ = 0 then
        (if er.partial_ > 0 then er.partial_ - 1 else er.partial_)
      else er.partial_ := by
  unfold rootAfterChildRemoved; split_ifs <;> simp_all

theorem fullOrSong_of_song (e : LibraryEntry) (h : e.type_ = .SongType) : fullOrSong e = true := by
  simp [fullOrSong, h]

theorem fullOrSong_of_not_song (e : LibraryEntry) (h : e.type_ ≠ .SongType) :
    fullOrSong e = decide (e.childrenInPlaylist_ = toInt32 e.children_.length) := by
  simp [fullOrSong, h]

/-! ### The methods on a Song under an Album under a root -/

theorem AddedToPlaylist_song (f : Nat) (h : Heap) (s a r : Nat) (es ea er : LibraryEntry)
    (hs : h[s]? = some es) (hps : es.parent_ = some a)
    (ha : h[a]? = some ea) (hpa : ea.parent_ = some r)
    (hr : h[r]? = some er) (hpr : er.parent_ = none)
    (hts : es.type_ = .SongType) (hcs : es.childrenInPlaylist_ = 0) :
    AddedToPlaylist (f + 3) h s =
      some (((h.set s es.incCount).set a ea.incPartial.incCount).set r
        (rootAfterChildAdded ea.incPartial.incCount er.incPartial)) := by
  have c1 : es.incCount.childrenInPlaylist_ = 1 := by
    rw [LibraryEntry.incCount_count, hcs]; decide
  have c2 : fullOrSong es.incCount = true := fullOrSong_of_song _ (by simpa using hts)
  rw [AddedToPlaylist_grandchild f h s a r es ea er hs hps ha hpa hr hpr]
  simp only [c1, c2, if_true]

theorem RemovedFromPlaylist_song (f : Nat) (h : Heap) (s a r : Nat) (es ea er : LibraryEntry)
    (hs : h[s]? = some es) (hps : es.parent_ = some a)
    (ha : h[a]? = some ea) (hpa : ea.parent_ = some r)
    (hr : h[r]? = some er) (hpr : er.parent_ = none)
    (hts : es.type_ = .SongType) (hcs : es.childrenInPlaylist_ = 1) :
    RemovedFromPlaylist (f + 3) h s =
      some (((h.set s es.decCount).set a ea.decCount.decPartial).set r
        (rootAfterChildRemoved ea er).decPartial) := by
  have c1 : es.decCount.childrenInPlaylist_ = 0 := by
    rw [LibraryEntry.decCount_count, hcs]; decide
  have c2 : fullOrSong es = true := fullOrSong_of_song _ hts
  rw [RemovedFromPlaylist_grandchild f h s a r es ea er hs hps ha hpa hr hpr]
  simp only [c1, c2, if_true]

theorem Heap.get_set3 (h : Heap) (s a r : Nat) (es ea er x y z : LibraryEntry)
    (hs : h[s]? = some es) (ha : h[a]? = some ea) (hr : h[r]? = some er) (j : Nat) :
    (((h.set s x).set a y).set r z)[j]? =
      if j = r then some z else if j = a then some y else if j = s then some x else h[j]? := by
  have ls := (List.getElem?_eq_some.1 hs).1
  have la := (List.getElem?_eq_some.1 ha).1
  have lr := (List.getElem?_eq_some.1 hr).1
  by_cases jr : j = r
  · subst jr
    rw [List.getElem?_set_self (by simpa using lr)]
    simp
  · rw [List.getElem?_set_ne (Ne.symm jr), if_neg jr]
    by_cases ja : j = a
    · subst ja
      rw [List.getElem?_set_self (by simpa using la)]
      simp
    · rw [List.getElem?_set_ne (Ne.symm ja), if_neg ja]
      by_cases js : j = s
      · subst js
        rw [List.getElem?_set_self ls]
        simp
      · rw [List.getElem?_set_ne (Ne.symm js), if_neg js]

theorem SameShape.set3 (h : Heap) (s a r : Nat) (es ea er x y z : LibraryEntry)
    (hs : h[s]? = some es) (ha : h[a]? = some ea) (hr : h[r]? = some er)
    (hx : x.shape = es.shape) (hy : y.shape = ea.shape) (hz : z.shape = er.shape) :
    SameShape h (((h.set s x).set a y).set r z) := by
  intro j
  rw [Heap.get_set3 h s a r es ea er x y z hs ha hr j]
  split_ifs with jr ja js
  · subst jr; rw [hr]; simp [hz]
  · subst ja; rw [ha]; simp [hy]
  · subst js; rw [hs]; simp [hx]
  · rfl

/-! ### The counters follow the playlist -/

theorem WellFormed.parent_of_mem_children {h : Heap} (hwf : WellFormed h) {x c : Nat}
    (hc : c ∈ childrenAt h x) : parentAt h c = some x := by
  cases hx : h[x]? with
  | none => simp [childrenAt, hx] at hc
  | some e =>
    rw [childrenAt_of_get hx] at hc
    exact (hwf.entry hx).2.2.1 c hc

theorem inPlaylist_cons_of_ne (pl : List Nat) {s c : Nat} (h : c ≠ s) :
    inPlaylist (s :: pl) c = inPlaylist pl c := by
  simp [inPlaylist, h]

theorem inPlaylist_filter_of_ne (pl : List Nat) {s c : Nat} (h : c ≠ s) :
    inPlaylist (pl.filter (fun x => decide (x ≠ s))) c = inPlaylist pl c := by
  simp [inPlaylist, h]

theorem inPlaylist_filter_self (pl : List Nat) (s : Nat) :
    inPlaylist (pl.filter (fun x => decide (x ≠ s))) s = false := by
  simp [inPlaylist]

theorem albumFull_congr (h : Heap) (pl1 pl2 : List Nat) (x : Nat)
    (hx : ∀ c ∈ childrenAt h x, inPlaylist pl2 c = inPlaylist pl1 c) :
    albumFull h pl2 x = albumFull h pl1 x := by
  unfold albumFull
  congr 1
  rw [Bool.eq_iff_iff]
  simp only [List.all_eq_true]
  constructor
  · intro hall c hc; rw [← hx c hc]; exact hall c hc
  · intro hall c hc; rw [hx c hc]; exact hall c hc

theorem albumFull_eq_false (h : Heap) (pl : List Nat) (x s : Nat) (hs : s ∈ childrenAt h x)
    (hn : inPlaylist pl s = false) : albumFull h pl x = false := by
  unfold albumFull
  rw [Bool.and_eq_false_iff]
  right
  rw [Bool.eq_false_iff]
  intro hall
  rw [List.all_eq_true] at hall
  rw [hall s hs] at hn
  exact Bool.noConfusion hn

theorem albumFull_iff_countP (h : Heap) (pl : List Nat) (x s : Nat) (hs : s ∈ childrenAt h x) :
    albumFull h pl x = true ↔ (childrenAt h x).countP (inPlaylist pl) = (childrenAt h x).length := by
  unfold albumFull
  have hne : (childrenAt h x).isEmpty = false := by
    cases hl : childrenAt h x with
    | nil => rw [hl] at hs; simp at hs
    | cons _ _ => rfl
  rw [hne, List.countP_eq_length]
  simp

/-- The counters keep following the playlist when the playlist changes at the
song `s` only and the counters change accordingly at `s`, at its album `a` and
at its artist `r` only. -/
theorem CountsFollow.update {h0 h h' : Heap} {pl1 pl2 : List Nat} (hwf : WellFormed h0)
    (hc : CountsFollow h0 h pl1) {s a r : Nat}
    (hps : parentAt h0 s = some a) (hpa : parentAt h0 a = some r)
    (hdiff : ∀ c, c ≠ s → inPlaylist pl2 c = inPlaylist pl1 c)
    (hothers : ∀ j, j ≠ s → j ≠ a → j ≠ r → countAt h' j = countAt h j)
    (hs' : countAt h' s = if s ∈ pl2 then 1 else 0)
    (ha' : countAt h' a = ((childrenAt h0 a).countP (inPlaylist pl2) : Nat))
    (hr' : countAt h' r = ((childrenAt h0 r).countP (albumFull h0 pl2) : Nat))
    (hts : typeAt h0 s = some .SongType) (hta : typeAt h0 a = some .AlbumType)
    (htr : typeAt h0 r = some .ArtistType) :
    CountsFollow h0 h' pl2 := by
  have mem_iff : ∀ c, c ≠ s → (c ∈ pl2 ↔ c ∈ pl1) := by
    intro c hcs
    have := hdiff c hcs
    simp only [inPlaylist] at this
    simpa using this
  -- albums other than `a` do not hold `s`
  have not_child : ∀ x, x ≠ a → ∀ c ∈ childrenAt h0 x, c ≠ s := by
    intro x hxa c hcx hcs
    subst hcs
    have := hwf.parent_of_mem_children hcx
    rw [hps] at this
    exact hxa (Option.some.inj this).symm
  have full_same : ∀ x, x ≠ a → albumFull h0 pl2 x = albumFull h0 pl1 x := by
    intro x hxa
    apply albumFull_congr
    intro c hcx
    exact hdiff c (not_child x hxa c hcx)
  intro j
  by_cases js : j = s
  · subst js
    refine ⟨fun _ => hs', fun h => ?_, fun h => ?_⟩
    · rw [hts] at h; cases h
    · rw [hts] at h; cases h
  by_cases ja : j = a
  · subst ja
    refine ⟨fun h => ?_, fun _ => ha', fun h => ?_⟩
    · rw [hta] at h; cases h
    · rw [hta] at h; cases h
  by_cases jr : j = r
  · subst jr
    refine ⟨fun h => ?_, fun h => ?_, fun _ => hr'⟩
    · rw [htr] at h; cases h
    · rw [htr] at h; cases h
  rw [hothers j js ja jr]
  refine ⟨fun h => ?_, fun h => ?_, fun h => ?_⟩
  · rw [(hc j).1 h]
    simp only [mem_iff j js]
  · rw [(hc j).2.1 h]
    congr 1
    exact countP_same (fun c hcj => (hdiff c (not_child j ja c hcj)).symm)
  · rw [(hc j).2.2 h]
    congr 1
    apply countP_same
    intro x hxj
    symm
    apply full_same
    intro hxa
    subst hxa
    have := hwf.parent_of_mem_children hxj
    rw [hpa] at this
    exact jr (Option.some.inj this).symm

theorem CountsFollow.added {h0 h : Heap} {pl : List Nat} (hwf : WellFormed h0)
    (hsh : SameShape h0 h) (hc : CountsFollow h0 h pl) {s : Nat}
    (hs : typeAt h0 s = some .SongType) (hnot : s ∉ pl) (f : Nat) :
    ∃ h', AddedToPlaylist (f + 3) h s = some h' ∧ SameShape h0 h' ∧
      CountsFollow h0 h' (s :: pl) := by
  obtain ⟨a, r, es0, ea0, er0, hes0, hts0, hps0, hea0, hta0, hpa0, her0, htr0, hpr0, hsa, har⟩ :=
    hwf.song_chain hs
  obtain ⟨es, hes, hts, hchs, hps⟩ := hsh.get hes0
  obtain ⟨ea, hea, hta, hcha, hpa⟩ := hsh.get hea0
  obtain ⟨er, her, htr, hchr, hpr⟩ := hsh.get her0
  have hTa : typeAt h0 a = some .AlbumType := by rw [typeAt_of_get hea0, hta0]
  have hTr : typeAt h0 r = some .ArtistType := by rw [typeAt_of_get her0, htr0]
  have hsa_ne : s ≠ a := by rintro rfl; rw [hs] at hTa; cases hTa
  have hsr_ne : s ≠ r := by rintro rfl; rw [hs] at hTr; cases hTr
  have har_ne : a ≠ r := by rintro rfl; rw [hTa] at hTr; cases hTr
  have hcs : es.childrenInPlaylist_ = 0 := by
    have := (hc s).1 hs
    rwa [countAt_of_get hes, if_neg hnot] at this
  have hca : ea.childrenInPlaylist_ = (ea0.children_.countP (inPlaylist pl) : Nat) := by
    have := (hc a).2.1 hTa
    rwa [countAt_of_get hea, childrenAt_of_get hea0] at this
  have hcr : er.childrenInPlaylist_ = (er0.children_.countP (albumFull h0 pl) : Nat) := by
    have := (hc r).2.2 hTr
    rwa [countAt_of_get her, childrenAt_of_get her0] at this
  have wa := hwf.entry hea0
  have wr := hwf.entry her0
  have hns : inPlaylist pl s = false := by simp [inPlaylist, hnot]
  have hys : inPlaylist (s :: pl) s = true := by simp [inPlaylist]
  -- the album counts one more song
  have hk := countP_flip_one wa.1 hsa (p := inPlaylist pl) (q := inPlaylist (s :: pl))
    (fun x _ hx => inPlaylist_cons_of_ne pl hx) hns
  rw [hys, if_pos rfl] at hk
  have hkle := List.countP_le_length (inPlaylist (s :: pl)) (l := ea0.children_)
  have hamax := wa.2.1
  -- the artist counts one more album exactly when the album became full
  have hsa' : s ∈ childrenAt h0 a := by rw [childrenAt_of_get hea0]; exact hsa
  have hfalse : albumFull h0 pl a = false := albumFull_eq_false h0 pl a s hsa' hns
  have hm := countP_flip_one wr.1 har (p := albumFull h0 pl) (q := albumFull h0 (s :: pl))
    (fun x _ hx => by
      apply albumFull_congr
      intro c hcx
      apply inPlaylist_cons_of_ne
      rintro rfl
      have := hwf.parent_of_mem_children hcx
      rw [parentAt_of_get hes0, hps0] at this
      exact hx (Option.some.inj this).symm) hfalse
  have hmle := List.countP_le_length (albumFull h0 (s :: pl)) (l := er0.children_)
  have hrmax := wr.2.1
  have hfull := albumFull_iff_countP h0 (s :: pl) a s hsa'
  rw [childrenAt_of_get hea0] at hfull
  refine ⟨_, AddedToPlaylist_song f h s a r es ea er hes (hps.trans hps0) hea (hpa.trans hpa0)
    her (hpr.trans hpr0) (hts.trans hts0) hcs, ?_, ?_⟩
  · exact hsh.trans (SameShape.set3 h s a r es ea er _ _ _ hes hea her (by simp) (by simp) (by simp))
  · have hget := Heap.get_set3 h s a r es ea er es.incCount ea.incPartial.incCount
      (rootAfterChildAdded ea.incPartial.incCount er.incPartial) hes hea her
    apply CountsFollow.update hwf hc (s := s) (a := a) (r := r)
      (by rw [parentAt_of_get hes0, hps0]) (by rw [parentAt_of_get hea0, hpa0])
      (fun c hcs => inPlaylist_cons_of_ne pl hcs)
    · intro j js ja jr
      simp only [countAt, hget j, if_neg js, if_neg ja, if_neg jr]
    · simp only [countAt, hget s, if_neg hsa_ne, if_neg hsr_ne, if_true, Option.map_some',
        Option.getD_some, LibraryEntry.incCount_count, hcs, List.mem_cons, true_or]
      decide
    · simp only [countAt, hget a, if_neg har_ne, if_true, Option.map_some',
        Option.getD_some, LibraryEntry.incCount_count, LibraryEntry.incPartial_count]
      rw [hca, childrenAt_of_get hea0, hk]
      apply toInt32_of_range <;> simp only [INT32_MAX] at hamax <;> omega
    · simp only [countAt, hget r, if_true, Option.map_some', Option.getD_some,
        childrenAt_of_get her0]
      rw [rootAfterChildAdded_count, fullOrSong_of_not_song _ (by simp [hta, hta0])]
      simp only [LibraryEntry.incCount_count, LibraryEntry.incPartial_count,
        LibraryEntry.incCount_children, LibraryEntry.incPartial_children, hca, hcr, hcha,
        decide_eq_true_eq]
      have e1 : toInt32 ((ea0.children_.countP (inPlaylist pl) : Nat) + 1)
          = ((ea0.children_.countP (inPlaylist (s :: pl)) : Nat) : Int) := by
        rw [hk]
        apply toInt32_of_range <;> simp only [INT32_MAX] at hamax <;> omega
      have e2 : toInt32 ((ea0.children_.length : Nat) : Int) = (ea0.children_.length : Int) := by
        apply toInt32_of_range <;> simp only [INT32_MAX] at hamax <;> omega
      rw [e1, e2, hm]
      by_cases hq : albumFull h0 (s :: pl) a = true
      · have := hfull.1 hq
        rw [if_pos (by exact_mod_cast this), if_pos hq]
        rw [hq, if_pos rfl] at hm
        push_cast
        apply toInt32_of_range <;> simp only [INT32_MAX] at hrmax <;> omega
      · have : ¬ (ea0.children_.countP (inPlaylist (s :: pl)) = ea0.children_.length) :=
          fun hh => hq (hfull.2 hh)
        rw [if_neg (by exact_mod_cast this), if_neg hq]
        simp
    · exact hs
    · exact hTa
    · exact hTr


theorem CountsFollow.removed {h0 h : Heap} {pl : List Nat} (hwf : WellFormed h0)
    (hsh : SameShape h0 h) (hc : CountsFollow h0 h pl) {s : Nat}
    (hs : typeAt h0 s = some .SongType) (hin : s ∈ pl) (f : Nat) :
    ∃ h', RemovedFromPlaylist (f + 3) h s = some h' ∧ SameShape h0 h' ∧
      CountsFollow h0 h' (pl.filter (fun x => decide (x ≠ s))) := by
  obtain ⟨a, r, es0, ea0, er0, hes0, hts0, hps0, hea0, hta0, hpa0, her0, htr0, hpr0, hsa, har⟩ :=
    hwf.song_chain hs
  obtain ⟨es, hes, hts, hchs, hps⟩ := hsh.get hes0
  obtain ⟨ea, hea, hta, hcha, hpa⟩ := hsh.get hea0
  obtain ⟨er, her, htr, hchr, hpr⟩ := hsh.get her0
  have hTa : typeAt h0 a = some .AlbumType := by rw [typeAt_of_get hea0, hta0]
  have hTr : typeAt h0 r = some .ArtistType := by rw [typeAt_of_get her0, htr0]
  have hsa_ne : s ≠ a := by rintro rfl; rw [hs] at hTa; cases hTa
  have hsr_ne : s ≠ r := by rintro rfl; rw [hs] at hTr; cases hTr
  have har_ne : a ≠ r := by rintro rfl; rw [hTa] at hTr; cases hTr
  have hcs : es.childrenInPlaylist_ = 1 := by
    have := (hc s).1 hs
    rwa [countAt_of_get hes, if_pos hin] at this
  have hca : ea.childrenInPlaylist_ = (ea0.children_.countP (inPlaylist pl) : Nat) := by
    have := (hc a).2.1 hTa
    rwa [countAt_of_get hea, childrenAt_of_get hea0] at this
  have hcr : er.childrenInPlaylist_ = (er0.children_.countP (albumFull h0 pl) : Nat) := by
    have := (hc r).2.2 hTr
    rwa [countAt_of_get her, childrenAt_of_get her0] at this
  have wa := hwf.entry hea0
  have wr := hwf.entry her0
  have hys : inPlaylist pl s = true := by simp [inPlaylist, hin]
  have hns := inPlaylist_filter_self pl s
  -- the album counts one song less
  have hk := countP_flip_one wa.1 hsa (p := inPlaylist (pl.filter (fun x => decide (x ≠ s))))
    (q := inPlaylist pl) (fun x _ hx => (inPlaylist_filter_of_ne pl hx).symm) hns
  rw [hys, if_pos rfl] at hk
  have hamax := wa.2.1
  -- the artist counts one album less exactly when the album was full
  have hsa' : s ∈ childrenAt h0 a := by rw [childrenAt_of_get hea0]; exact hsa
  have hfalse : albumFull h0 (pl.filter (fun x => decide (x ≠ s))) a = false :=
    albumFull_eq_false h0 _ a s hsa' hns
  have hm := countP_flip_one wr.1 har (p := albumFull h0 (pl.filter (fun x => decide (x ≠ s))))
    (q := albumFull h0 pl)
    (fun x _ hx => by
      apply albumFull_congr
      intro c hcx
      symm
      apply inPlaylist_filter_of_ne
      rintro rfl
      have := hwf.parent_of_mem_children hcx
      rw [parentAt_of_get hes0, hps0] at this
      exact hx (Option.some.inj this).symm) hfalse
  have hfull := albumFull_iff_countP h0 pl a s hsa'
  rw [childrenAt_of_get hea0] at hfull
  refine ⟨_, RemovedFromPlaylist_song f h s a r es ea er hes (hps.trans hps0) hea (hpa.trans hpa0)
    her (hpr.trans hpr0) (hts.trans hts0) hcs, ?_, ?_⟩
  · exact hsh.trans (SameShape.set3 h s a r es ea er _ _ _ hes hea her (by simp) (by simp) (by simp))
  · have hget := Heap.get_set3 h s a r es ea er es.decCount ea.decCount.decPartial
      (rootAfterChildRemoved ea er).decPartial hes hea her
    apply CountsFollow.update hwf hc (s := s) (a := a) (r := r)
      (by rw [parentAt_of_get hes0, hps0]) (by rw [parentAt_of_get hea0, hpa0])
      (fun c hcs => inPlaylist_filter_of_ne pl hcs)
    · intro j js ja jr
      simp only [countAt, hget j, if_neg js, if_neg ja, if_neg jr]
    · simp only [countAt, hget s, if_neg hsa_ne, if_neg hsr_ne, if_true, Option.map_some',
        Option.getD_some, LibraryEntry.decCount_count, hcs]
      simp
    · simp only [countAt, hget a, if_neg har_ne, if_true, Option.map_some',
        Option.getD_some, LibraryEntry.decCount_count, LibraryEntry.decPartial_count]
      rw [hca, childrenAt_of_get hea0, hk]
      push_cast
      rw [if_pos (by omega)]
      omega
    · simp only [countAt, hget r, if_true, Option.map_some', Option.getD_some,
        childrenAt_of_get her0, LibraryEntry.decPartial_count]
      rw [rootAfterChildRemoved_count, fullOrSong_of_not_song _ (by simp [hta, hta0])]
      simp only [hca, hcr, hcha, decide_eq_true_eq]
      have e2 : toInt32 ((ea0.children_.length : Nat) : Int) = (ea0.children_.length : Int) := by
        apply toInt32_of_range <;> simp only [INT32_MAX] at hamax <;> omega
      rw [e2, hm]
      by_cases hq : albumFull h0 pl a = true
      · have := hfull.1 hq
        rw [if_pos (by exact_mod_cast this), if_pos hq]
        push_cast
        rw [if_pos (by omega)]
        omega
      · have : ¬ (ea0.children_.countP (inPlaylist pl) = ea0.children_.length) :=
          fun hh => hq (hfull.2 hh)
        rw [if_neg (by exact_mod_cast this), if_neg hq]
        simp
    · exact hs
    · exact hTa
    · exact hTr

/-! ### Heaps of the same shape -/

theorem SameShape.symm {h0 h : Heap} (hsh : SameShape h0 h) : SameShape h h0 :=
  fun i => (hsh i).symm

theorem SameShape.typeAt_eq {h0 h : Heap} (hsh : SameShape h0 h) (i : Nat) :
    typeAt h i = typeAt h0 i := by
  have := congrArg (Option.map (fun x : EntryType × List Nat × Option Nat => x.1)) (hsh i)
  simpa [typeAt, Option.map_map, Function.comp, LibraryEntry.shape] using this

theorem SameShape.childrenAt_eq {h0 h : Heap} (hsh : SameShape h0 h) (i : Nat) :
    childrenAt h i = childrenAt h0 i := by
  have := congrArg (Option.map (fun x : EntryType × List Nat × Option Nat => x.2.1)) (hsh i)
  simp only [Option.map_map, LibraryEntry.shape] at this
  simp only [childrenAt]
  exact congrArg (fun o => Option.getD o []) this

theorem SameShape.parentAt_eq {h0 h : Heap} (hsh : SameShape h0 h) (i : Nat) :
    parentAt h i = parentAt h0 i := by
  have := congrArg (fun o : Option (EntryType × List Nat × Option Nat) => o.bind (fun x => x.2.2))
    (hsh i)
  simp only [Option.bind_map, Function.comp, LibraryEntry.shape] at this
  simpa [parentAt] using this

theorem SameShape.albumFull_eq {h0 h : Heap} (hsh : SameShape h0 h) (pl : List Nat) (a : Nat) :
    albumFull h pl a = albumFull h0 pl a := by
  simp only [albumFull, hsh.childrenAt_eq]

theorem SameShape.wellFormed {h0 h : Heap} (hsh : SameShape h0 h) (hwf : WellFormed h0) :
    WellFormed h := by
  intro i hi
  have hget : h[i]? = some (h.get ⟨i, hi⟩) := by
    rw [List.get_eq_getElem]; exact List.getElem?_eq_getElem hi
  obtain ⟨e0, he0, ht, hc, hp⟩ := hsh.symm.get hget
  have w0 := hwf.entry he0
  have hty : typeAt h = typeAt h0 := funext hsh.typeAt_eq
  have hch : childrenAt h = childrenAt h0 := funext hsh.childrenAt_eq
  have hpa : parentAt h = parentAt h0 := funext hsh.parentAt_eq
  unfold EntryWellFormed at w0 ⊢
  rw [hty, hch, hpa, ← ht, ← hc, ← hp]
  exact w0

theorem CountsFollow.of_sameShape {h0 h : Heap} {pl : List Nat} (hsh : SameShape h0 h)
    (hc : CountsFollow h0 h pl) : CountsFollow h h pl := by
  intro i
  have hfull : albumFull h pl = albumFull h0 pl := funext (hsh.albumFull_eq pl)
  rw [hsh.typeAt_eq, hsh.childrenAt_eq, hfull]
  exact hc i

/-! ### Runs that follow the playlist -/

theorem albumFull_nil (h : Heap) (a : Nat) : albumFull h [] a = false := by
  unfold albumFull
  cases childrenAt h a with
  | nil => rfl
  | cons c cs => simp [inPlaylist]

theorem CountsFollow.of_allZero {h : Heap} (hz : AllZero h) : CountsFollow h h [] := by
  have hzero : ∀ i, countAt h i = 0 := by
    intro i
    cases hi : h[i]? with
    | none => simp [countAt, hi]
    | some e =>
      rw [countAt_of_get hi]
      exact (hz e (List.getElem?_mem hi)).1
  intro i
  refine ⟨fun _ => ?_, fun _ => ?_, fun _ => ?_⟩
  · rw [hzero]; simp
  · rw [hzero]
    have : (childrenAt h i).countP (inPlaylist []) = 0 := by
      rw [List.countP_eq_zero]; intro c _; simp [inPlaylist]
    rw [this]; rfl
  · rw [hzero]
    have : (childrenAt h i).countP (albumFull h []) = 0 := by
      rw [List.countP_eq_zero]; intro c _; simp [albumFull_nil]
    rw [this]; rfl

/-- A disciplined sequence of calls runs to the end with three levels of call
depth and keeps the counters following the playlist. -/
theorem runCalls_follow {h0 : Heap} (hwf : WellFormed h0) (f : Nat) :
    ∀ (cs : List Call) (h : Heap) (pl : List Nat), SameShape h0 h → CountsFollow h0 h pl →
      Disciplined h0 pl cs →
      ∃ h', runCalls (f + 3) h cs = some h' ∧ SameShape h0 h' ∧
        CountsFollow h0 h' (playlistAfter pl cs) := by
  intro cs
  induction cs with
  | nil => intro h pl hsh hc _; exact ⟨h, rfl, hsh, hc⟩
  | cons c cs ih =>
    intro h pl hsh hc hd
    cases c with
    | Added s =>
      obtain ⟨hs, hnot, hrest⟩ := hd
      obtain ⟨h1, hrun, hsh1, hc1⟩ := hc.added hwf hsh hs hnot f
      obtain ⟨h', hrun', hsh', hc'⟩ := ih h1 (s :: pl) hsh1 hc1 hrest
      refine ⟨h', ?_, hsh', hc'⟩
      simp only [runCalls, Call.apply, hrun]
      exact hrun'
    | Removed s =>
      obtain ⟨hs, hin, hrest⟩ := hd
      obtain ⟨h1, hrun, hsh1, hc1⟩ := hc.removed hwf hsh hs hin f
      obtain ⟨h', hrun', hsh', hc'⟩ := ih h1 _ hsh1 hc1 hrest
      refine ⟨h', ?_, hsh', hc'⟩
      simp only [runCalls, Call.apply, hrun]
      exact hrun'
    | AddPartial i => exact absurd hd (fun h => h)
    | RemovePartial i => exact absurd hd (fun h => h)

/-- From all counters zero, a disciplined run ends in a well-formed heap whose
counters follow the playlist. -/
theorem runCalls_from_zero {h : Heap} (hwf : WellFormed h) (hz : AllZero h) (f : Nat)
    (cs : List Call) (hd : Disciplined h [] cs) :
    ∃ h', runCalls (f + 3) h cs = some h' ∧ SameShape h h' ∧ WellFormed h' ∧
      CountsFollow h' h' (playlistAfter [] cs) := by
  obtain ⟨h', hrun, hsh, hc⟩ :=
    runCalls_follow hwf f cs h [] (SameShape.refl h) (CountsFollow.of_allZero hz) hd
  exact ⟨h', hrun, hsh, hsh.wellFormed hwf, hc.of_sameShape hsh⟩

/-! ### Types of children in a well-formed heap -/

theorem WellFormed.child_entry {h : Heap} (hwf : WellFormed h) {x c : Nat}
    (hc : c ∈ childrenAt h x) : ∃ ec, h[c]? = some ec ∧ ec.parent_ = some x := by
  have hp := hwf.parent_of_mem_children hc
  cases hec : h[c]? with
  | none => simp [parentAt, hec] at hp
  | some ec =>
    rw [parentAt_of_get hec] at hp
    exact ⟨ec, rfl, hp⟩

theorem WellFormed.child_of_album {h : Heap} (hwf : WellFormed h) {x c : Nat}
    (hx : typeAt h x = some .AlbumType) (hc : c ∈ childrenAt h x) :
    typeAt h c = some .SongType := by
  obtain ⟨ec, hec, hp⟩ := hwf.child_entry hc
  have w := hwf.entry hec
  rw [typeAt_of_get hec]
  cases ht : ec.type_ with
  | ArtistType => have := w.2.2.2.2.1 ht; rw [hp] at this; cases this
  | AlbumType =>
    have := w.2.2.2.2.2.1 ht
    rw [hp, Option.some_bind, hx] at this
    cases this
  | SongType => rfl

theorem WellFormed.child_of_artist {h : Heap} (hwf : WellFormed h) {x c : Nat}
    (hx : typeAt h x = some .ArtistType) (hc : c ∈ childrenAt h x) :
    typeAt h c = some .AlbumType := by
  obtain ⟨ec, hec, hp⟩ := hwf.child_entry hc
  have w := hwf.entry hec
  rw [typeAt_of_get hec]
  cases ht : ec.type_ with
  | ArtistType => have := w.2.2.2.2.1 ht; rw [hp] at this; cases this
  | AlbumType => rfl
  | SongType =>
    have := (w.2.2.2.2.2.2 ht).1
    rw [hp, Option.some_bind, hx] at this
    cases this

theorem WellFormed.children_of_song {h : Heap} (hwf : WellFormed h) {s : Nat}
    (hs : typeAt h s = some .SongType) : childrenAt h s = [] := by
  obtain ⟨es, hes, hts⟩ := typeAt_eq_some.1 hs
  rw [childrenAt_of_get hes]
  exact ((hwf.entry hes).2.2.2.2.2.2 hts).2

theorem sum_map_indicator (l : List Nat) (g : Nat → Int) (p : Nat → Bool)
    (hg : ∀ c ∈ l, g c = if p c = true then 1 else 0) :
    (l.map g).sum = (l.countP p : Nat) := by
  induction l with
  | nil => rfl
  | cons x xs ih =>
    rw [List.map_cons, List.sum_cons, List.countP_cons, ih (fun c hc => hg c (List.mem_cons_of_mem _ hc)),
      hg x (List.mem_cons_self _ _)]
    split_ifs <;> push_cast <;> omega

/-! ### What the counters say when they follow the playlist -/

theorem CountsFollow.album_count {g : Heap} {pl : List Nat} (hc : CountsFollow g g pl) {i : Nat}
    {e : LibraryEntry} (hi : g[i]? = some e) (ht : e.type_ = .AlbumType) :
    e.childrenInPlaylist_ = (e.children_.countP (inPlaylist pl) : Nat) := by
  have := (hc i).2.1 (by rw [typeAt_of_get hi, ht])
  rwa [countAt_of_get hi, childrenAt_of_get hi] at this

theorem CountsFollow.artist_count {g : Heap} {pl : List Nat} (hc : CountsFollow g g pl) {i : Nat}
    {e : LibraryEntry} (hi : g[i]? = some e) (ht : e.type_ = .ArtistType) :
    e.childrenInPlaylist_ = (e.children_.countP (albumFull g pl) : Nat) := by
  have := (hc i).2.2 (by rw [typeAt_of_get hi, ht])
  rwa [countAt_of_get hi, childrenAt_of_get hi] at this

theorem CountsFollow.album_sum {g : Heap} {pl : List Nat} (hwf : WellFormed g)
    (hc : CountsFollow g g pl) {i : Nat} {e : LibraryEntry} (hi : g[i]? = some e)
    (ht : e.type_ = .AlbumType) :
    e.childrenInPlaylist_ = (e.children_.map (countAt g)).sum := by
  rw [hc.album_count hi ht]
  symm
  apply sum_map_indicator
  intro c hcm
  have hx : typeAt g i = some .AlbumType := by rw [typeAt_of_get hi, ht]
  have hsong := hwf.child_of_album hx (by rw [childrenAt_of_get hi]; exact hcm)
  rw [(hc c).1 hsong]
  simp [inPlaylist]

theorem albumFull_eq_count_test {g : Heap} {pl : List Nat}
    (hc : CountsFollow g g pl) {a : Nat} (ha : typeAt g a = some .AlbumType) :
    albumFull g pl a =
      (!(childrenAt g a).isEmpty && decide (countAt g a = ((childrenAt g a).length : Int))) := by
  unfold albumFull
  congr 1
  rw [(hc a).2.1 ha, Bool.eq_iff_iff]
  simp only [decide_eq_true_eq, Nat.cast_inj]
  rw [List.countP_eq_length, List.all_eq_true]

theorem CountsFollow.artist_full_children {g : Heap} {pl : List Nat} (hwf : WellFormed g)
    (hc : CountsFollow g g pl) {i : Nat} {e : LibraryEntry} (hi : g[i]? = some e)
    (ht : e.type_ = .ArtistType) :
    e.childrenInPlaylist_ = (e.children_.countP (fun a =>
      !(childrenAt g a).isEmpty && decide (countAt g a = ((childrenAt g a).length : Int))) : Nat) := by
  rw [hc.artist_count hi ht]
  congr 1
  apply countP_same
  intro a ham
  have hx : typeAt g i = some .ArtistType := by rw [typeAt_of_get hi, ht]
  have halb := hwf.child_of_artist hx (by rw [childrenAt_of_get hi]; exact ham)
  exact albumFull_eq_count_test hc halb


theorem CountsFollow.album_full_iff {g : Heap} {pl : List Nat} (hwf : WellFormed g)
    (hc : CountsFollow g g pl) {i : Nat} {e : LibraryEntry} (hi : g[i]? = some e)
    (ht : e.type_ = .AlbumType) :
    e.childrenInPlaylist_ = (e.children_.length : Int) ↔ ∀ s ∈ descendantSongs g i, s ∈ pl := by
  have hx : typeAt g i = some .AlbumType := by rw [typeAt_of_get hi, ht]
  rw [hc.album_count hi ht, Nat.cast_inj, List.countP_eq_length]
  have hch := childrenAt_of_get hi
  constructor
  · intro hall s hs
    simp only [descendantSongs, List.mem_filter, List.mem_append, List.mem_flatMap,
      decide_eq_true_eq] at hs
    rcases hs.1 with h1 | ⟨a, ha, hsa⟩
    · have := hall s (by rw [← hch]; exact h1)
      simpa [inPlaylist] using this
    · rw [hwf.children_of_song (hwf.child_of_album hx ha)] at hsa
      simp at hsa
  · intro hall c hcm
    have hcm' : c ∈ childrenAt g i := by rw [hch]; exact hcm
    have hsong := hwf.child_of_album hx hcm'
    have : c ∈ descendantSongs g i := by
      simp only [descendantSongs, List.mem_filter, List.mem_append, decide_eq_true_eq]
      exact ⟨Or.inl hcm', hsong⟩
    simpa [inPlaylist] using hall c this

theorem CountsFollow.artist_full_iff {g : Heap} {pl : List Nat} (hwf : WellFormed g)
    (hc : CountsFollow g g pl)
    (hne : ∀ (j : Nat) (ej : LibraryEntry), g[j]? = some ej → ej.type_ = .AlbumType → ej.children_ ≠ [])
    {i : Nat} {e : LibraryEntry} (hi : g[i]? = some e) (ht : e.type_ = .ArtistType) :
    e.childrenInPlaylist_ = (e.children_.length : Int) ↔ ∀ s ∈ descendantSongs g i, s ∈ pl := by
  have hx : typeAt g i = some .ArtistType := by rw [typeAt_of_get hi, ht]
  rw [hc.artist_count hi ht, Nat.cast_inj, List.countP_eq_length]
  have hch := childrenAt_of_get hi
  constructor
  · intro hall s hs
    simp only [descendantSongs, List.mem_filter, List.mem_append, List.mem_flatMap,
      decide_eq_true_eq] at hs
    rcases hs.1 with h1 | ⟨a, ha, hsa⟩
    · have := hwf.child_of_artist hx h1
      rw [hs.2] at this
      cases this
    · have hfull := hall a (by rw [← hch]; exact ha)
      simp only [albumFull, Bool.and_eq_true, List.all_eq_true] at hfull
      simpa [inPlaylist] using hfull.2 s hsa
  · intro hall a ham
    have ham' : a ∈ childrenAt g i := by rw [hch]; exact ham
    have halb := hwf.child_of_artist hx ham'
    obtain ⟨ea, hea, hta⟩ := typeAt_eq_some.1 halb
    have hnonempty := hne a ea hea hta
    simp only [albumFull, Bool.and_eq_true, List.all_eq_true]
    constructor
    · rw [childrenAt_of_get hea]
      cases hl : ea.children_ with
      | nil => exact absurd hl hnonempty
      | cons _ _ => rfl
    · intro s hsa
      have hsong := hwf.child_of_album halb hsa
      have : s ∈ descendantSongs g i := by
        simp only [descendantSongs, List.mem_filter, List.mem_append, List.mem_flatMap,
          decide_eq_true_eq]
        exact ⟨Or.inr ⟨a, ham', hsa⟩, hsong⟩
      simpa [inPlaylist] using hall s this

/-! ### The claims about the counters of a library tree -/

/-- C1 (as stated, refuted): in the well-formed tree Artist -> Album ->
{track1, track2} with all counters zero, after the single call
`track1.AddedToPlaylist()` the Artist has `childrenInPlaylist_ = 0` while the
sum of `childrenInPlaylist_` over its children is 1. -/
theorem sum_of_children_counterexample :
    (WellFormed exampleLibrary ∧ AllZero exampleLibrary) ∧
    (runCalls 3 exampleLibrary [Call.Added 2]).map
        (fun h => (typeAt h 0, countAt h 0, ((childrenAt h 0).map (countAt h)).sum))
      = some (some EntryType.ArtistType, 0, 1) := by
  decide

/-- C1 (amended): for every library tree Artist -> Album -> Song with all
counters zero and every sequence of calls in which `AddedToPlaylist` is called
only on a Song that is absent from the playlist and `RemovedFromPlaylist` only
on a Song that is present, the sequence runs to its end (three levels of call
depth suffice) and afterwards every Album has `childrenInPlaylist_` equal to
the sum of `childrenInPlaylist_` over its `children_`, and every Artist has
`childrenInPlaylist_` equal to the number of its children that have at least
one child and whose `childrenInPlaylist_` equals their `children_.size()`. -/
theorem counts_after_disciplined_run (h : Heap) (cs : List Call) (f : Nat)
    (hwf : WellFormed h) (hz : AllZero h) (hd : Disciplined h [] cs) :
    ∃ h', runCalls (f + 3) h cs = some h' ∧
      ∀ (i : Nat) (e : LibraryEntry), h'[i]? = some e →
        (e.type_ = .AlbumType → e.childrenInPlaylist_ = (e.children_.map (countAt h')).sum) ∧
        (e.type_ = .ArtistType → e.childrenInPlaylist_ = (e.children_.countP (fun a =>
          !(childrenAt h' a).isEmpty &&
            decide (countAt h' a = ((childrenAt h' a).length : Int))) : Nat)) := by
  obtain ⟨h', hrun, -, hwf', hc⟩ := runCalls_from_zero hwf hz f cs hd
  exact ⟨h', hrun, fun i e hi =>
    ⟨fun ht => hc.album_sum hwf' hi ht, fun ht => hc.artist_full_children hwf' hi ht⟩⟩

/-- Witness for C1 (amended): both tracks added, then track1 removed. -/
theorem counts_after_disciplined_run_witness :
    (WellFormed exampleLibrary ∧ AllZero exampleLibrary ∧
      Disciplined exampleLibrary [] [Call.Added 2, Call.Added 3, Call.Removed 2]) ∧
    ∃ h', runCalls (0 + 3) exampleLibrary [Call.Added 2, Call.Added 3, Call.Removed 2] = some h' ∧
      ∀ (i : Nat) (e : LibraryEntry), h'[i]? = some e →
        (e.type_ = .AlbumType → e.childrenInPlaylist_ = (e.children_.map (countAt h')).sum) ∧
        (e.type_ = .ArtistType → e.childrenInPlaylist_ = (e.children_.countP (fun a =>
          !(childrenAt h' a).isEmpty &&
            decide (countAt h' a = ((childrenAt h' a).length : Int))) : Nat)) :=
  ⟨by decide, counts_after_disciplined_run exampleLibrary
    [Call.Added 2, Call.Added 3, Call.Removed 2] 0 (by decide) (by decide) (by decide)⟩

/-- C2 (as stated, refuted): in the tree Artist A -> Album1 -> {track1, track2}
with all counters zero, after `track1.AddedToPlaylist()` the Album has
`childrenInPlaylist_ = 1`, but the Artist has `childrenInPlaylist_ = 0` and
`partial_ = 2`, not 1 and 1. -/
theorem example_after_track1_counterexample :
    (AddedToPlaylist 3 exampleLibrary 2).map
        (fun h => (countAt h 1, countAt h 0, partialAt h 0)) = some (1, 0, 2) ∧
    ¬ ((AddedToPlaylist 3 exampleLibrary 2).map
        (fun h => (countAt h 1, countAt h 0, partialAt h 0)) = some (1, 1, 1)) := by
  decide

/-- C2 (amended): in the tree Artist A -> Album1 -> {track1, track2} with all
counters zero, after `track1.AddedToPlaylist()` Album1 has
`childrenInPlaylist_ = 1`, Artist A has `childrenInPlaylist_ = 0` and
`partial_ = 2`; after then `track2.AddedToPlaylist()` Album1 has
`childrenInPlaylist_ = 2 = children_.size()`, Artist A has
`childrenInPlaylist_ = 1` and `partial_ = 3`. -/
theorem example_after_both_tracks :
    (AddedToPlaylist 3 exampleLibrary 2).map
        (fun h => (countAt h 1, countAt h 0, partialAt h 0)) = some (1, 0, 2) ∧
    ((AddedToPlaylist 3 exampleLibrary 2).bind (fun h => AddedToPlaylist 3 h 3)).map
        (fun h => (countAt h 1, (childrenAt h 1).length, countAt h 0, partialAt h 0))
      = some (2, 2, 1, 3) := by
  decide

/-- C3: in a library tree whose Albums each have at least one Song, starting
from all counters zero, after a sequence of calls in which `AddedToPlaylist` is
called only on an absent Song and `RemovedFromPlaylist` only on a present one
(the sequence runs to its end), every Artist or Album entry has
`childrenInPlaylist_ == children_.size()` exactly when each of its descendant
Songs is in the playlist. -/
theorem full_iff_all_songs_present (h : Heap) (cs : List Call) (f : Nat)
    (hwf : WellFormed h) (hz : AllZero h)
    (hne : ∀ e ∈ h, e.type_ = .AlbumType → e.children_ ≠ [])
    (hd : Disciplined h [] cs) :
    ∃ h', runCalls (f + 3) h cs = some h' ∧
      ∀ (i : Nat) (e : LibraryEntry), h'[i]? = some e → e.type_ ≠ .SongType →
        (e.childrenInPlaylist_ = (e.children_.length : Int) ↔
          ∀ s ∈ descendantSongs h' i, s ∈ playlistAfter [] cs) := by
  obtain ⟨h', hrun, hsh, hwf', hc⟩ := runCalls_from_zero hwf hz f cs hd
  have hne' : ∀ (j : Nat) (ej : LibraryEntry), h'[j]? = some ej → ej.type_ = .AlbumType →
      ej.children_ ≠ [] := by
    intro j ej hj htj
    obtain ⟨e0, he0, ht0, hc0, -⟩ := hsh.symm.get hj
    rw [← hc0]
    exact hne e0 (List.getElem?_mem he0) (ht0.trans htj)
  refine ⟨h', hrun, fun i e hi hns => ?_⟩
  cases ht : e.type_ with
  | ArtistType => exact hc.artist_full_iff hwf' hne' hi ht
  | AlbumType => exact hc.album_full_iff hwf' hi ht
  | SongType => exact absurd ht hns

/-- Witness for C3: both tracks added, then track1 removed. -/
theorem full_iff_all_songs_present_witness :
    (WellFormed exampleLibrary ∧ AllZero exampleLibrary ∧
      (∀ e ∈ exampleLibrary, e.type_ = .AlbumType → e.children_ ≠ []) ∧
      Disciplined exampleLibrary [] [Call.Added 2, Call.Added 3, Call.Removed 2]) ∧
    ∃ h', runCalls (0 + 3) exampleLibrary [Call.Added 2, Call.Added 3, Call.Removed 2] = some h' ∧
      ∀ (i : Nat) (e : LibraryEntry), h'[i]? = some e → e.type_ ≠ .SongType →
        (e.childrenInPlaylist_ = (e.children_.length : Int) ↔
          ∀ s ∈ descendantSongs h' i,
            s ∈ playlistAfter [] [Call.Added 2, Call.Added 3, Call.Removed 2]) :=
  ⟨by decide, full_iff_all_songs_present exampleLibrary
    [Call.Added 2, Call.Added 3, Call.Removed 2] 0 (by decide) (by decide) (by decide) (by decide)⟩

theorem Forest.parent {h : Heap} {rank : Nat → Nat} (hf : Forest h rank) {i p : Nat}
    {e : LibraryEntry} (hi : h[i]? = some e) (hp : e.parent_ = some p) :
    (∃ ep, h[p]? = some ep) ∧ rank p < rank i := by
  obtain ⟨hlt, he⟩ := List.getElem?_eq_some.1 hi
  have := hf i hlt p (by rw [List.get_eq_getElem, he, hp]; rfl)
  exact ⟨⟨h[p], List.getElem?_eq_getElem this.1⟩, this.2⟩

theorem SameShape.length_eq {h0 h : Heap} (hsh : SameShape h0 h) : h.length = h0.length := by
  rcases Nat.lt_trichotomy h.length h0.length with hlt | heq | hgt
  · have := hsh h.length
    rw [List.getElem?_eq_none (le_refl _), List.getElem?_eq_getElem hlt] at this
    simp at this
  · exact heq
  · have := hsh h0.length
    rw [List.getElem?_eq_none (le_refl _), List.getElem?_eq_getElem hgt] at this
    simp at this

theorem Forest.congr_shape {h0 h : Heap} {rank : Nat → Nat} (hsh : SameShape h0 h)
    (hf : Forest h0 rank) : Forest h rank := by
  intro i hi p hp
  have hget : h[i]? = some (h.get ⟨i, hi⟩) := by
    rw [List.get_eq_getElem]; exact List.getElem?_eq_getElem hi
  obtain ⟨e0, he0, -, -, hpar⟩ := hsh.symm.get hget
  have hp' : e0.parent_ = some p := by rw [hpar]; exact hp
  obtain ⟨⟨ep, hep⟩, hr⟩ := hf.parent he0 hp'
  refine ⟨?_, hr⟩
  rw [hsh.length_eq]
  exact (List.getElem?_eq_some.1 hep).1

theorem Forest.set_entry {h : Heap} {rank : Nat → Nat} (hf : Forest h rank) {i : Nat}
    {e e' : LibraryEntry} (hi : h[i]? = some e) (hs : e'.shape = e.shape) :
    Forest (h.set i e') rank :=
  Forest.congr_shape (SameShape.set hi hs) hf

/-- Effect of `AddPartial` on a forest: the call returns, and every entry is
either left alone or is an entry of rank at most that of the target whose
`partial_` was incremented. -/
theorem AddPartial_forest (rank : Nat → Nat) :
    ∀ (f : Nat) (h : Heap) (p : Nat) (ep : LibraryEntry), Forest h rank → h[p]? = some ep →
      rank p < f →
      ∃ h', AddPartial f h p = some h' ∧ SameShape h h' ∧
        ∀ (j : Nat) (ej : LibraryEntry), h[j]? = some ej →
          h'[j]? = some ej ∨ (rank j ≤ rank p ∧ h'[j]? = some ej.incPartial) := by
  intro f
  induction f with
  | zero => intro h p ep _ _ hr; exact absurd hr (Nat.not_lt_zero _)
  | succ f ih =>
    intro h p ep hf hp hr
    rw [AddPartial_succ f h p ep hp]
    cases hpar : ep.parent_ with
    | none =>
      refine ⟨_, rfl, SameShape.set hp (by simp), fun j ej hj => ?_⟩
      by_cases hjp : p = j
      · subst hjp
        rw [hp] at hj; cases hj
        exact Or.inr ⟨le_refl _, Heap.get_set_self h p ep _ hp⟩
      · left; rw [List.getElem?_set_ne hjp]; exact hj
    | some q =>
      obtain ⟨⟨eq, hq⟩, hrq⟩ := hf.parent hp hpar
      have hne : p ≠ q := by rintro rfl; exact Nat.lt_irrefl _ hrq
      have hq1 : (h.set p ep.incPartial)[q]? = some eq := by
        rw [List.getElem?_set_ne hne]; exact hq
      obtain ⟨h', hrun, hsh, heff⟩ := ih (h.set p ep.incPartial) q eq
        (hf.set_entry hp (by simp)) hq1 (by omega)
      refine ⟨h', hrun, (SameShape.set hp (by simp)).trans hsh, fun j ej hj => ?_⟩
      by_cases hjp : p = j
      · subst hjp
        rw [hp] at hj; cases hj
        have h1 := Heap.get_set_self h p ep ep.incPartial hp
        rcases heff p _ h1 with h2 | ⟨hle, -⟩
        · exact Or.inr ⟨le_refl _, h2⟩
        · omega
      · have h1 : (h.set p ep.incPartial)[j]? = some ej := by
          rw [List.getElem?_set_ne hjp]; exact hj
        rcases heff j ej h1 with h2 | ⟨hle, h2⟩
        · exact Or.inl h2
        · exact Or.inr ⟨by omega, h2⟩

/-- Effect of `RemovePartial` on a forest. -/
theorem RemovePartial_forest (rank : Nat → Nat) :
    ∀ (f : Nat) (h : Heap) (p : Nat) (ep : LibraryEntry), Forest h rank → h[p]? = some ep →
      rank p < f →
      ∃ h', RemovePartial f h p = some h' ∧ SameShape h h' ∧
        ∀ (j : Nat) (ej : LibraryEntry), h[j]? = some ej →
          h'[j]? = some ej ∨ (rank j ≤ rank p ∧ h'[j]? = some ej.decPartial) := by
  intro f
  induction f with
  | zero => intro h p ep _ _ hr; exact absurd hr (Nat.not_lt_zero _)
  | succ f ih =>
    intro h p ep hf hp hr
    rw [RemovePartial_succ f h p ep hp]
    cases hpar : ep.parent_ with
    | none =>
      refine ⟨_, rfl, SameShape.set hp (by simp), fun j ej hj => ?_⟩
      by_cases hjp : p = j
      · subst hjp
        rw [hp] at hj; cases hj
        exact Or.inr ⟨le_refl _, Heap.get_set_self h p ep _ hp⟩
      · left; rw [List.getElem?_set_ne hjp]; exact hj
    | some q =>
      obtain ⟨⟨eq, hq⟩, hrq⟩ := hf.parent hp hpar
      have hne : p ≠ q := by rintro rfl; exact Nat.lt_irrefl _ hrq
      have hq1 : (h.set p ep.decPartial)[q]? = some eq := by
        rw [List.getElem?_set_ne hne]; exact hq
      obtain ⟨h', hrun, hsh, heff⟩ := ih (h.set p ep.decPartial) q eq
        (hf.set_entry hp (by simp)) hq1 (by omega)
      refine ⟨h', hrun, (SameShape.set hp (by simp)).trans hsh, fun j ej hj => ?_⟩
      by_cases hjp : p = j
      · subst hjp
        rw [hp] at hj; cases hj
        have h1 := Heap.get_set_self h p ep ep.decPartial hp
        rcases heff p _ h1 with h2 | ⟨hle, -⟩
        · exact Or.inr ⟨le_refl _, h2⟩
        · omega
      · have h1 : (h.set p ep.decPartial)[j]? = some ej := by
          rw [List.getElem?_set_ne hjp]; exact hj
        rcases heff j ej h1 with h2 | ⟨hle, h2⟩
        · exact Or.inl h2
        · exact Or.inr ⟨by omega, h2⟩

/-- Writing an entry of higher rank commutes with `AddPartial`. -/
theorem AddPartial_set_comm (rank : Nat → Nat) :
    ∀ (f : Nat) (h : Heap) (q i : Nat) (x : LibraryEntry), Forest h rank → rank q < rank i →
      AddPartial f (h.set i x) q = (AddPartial f h q).map (fun h' => h'.set i x) := by
  intro f
  induction f with
  | zero => intro h q i x _ _; rfl
  | succ f ih =>
    intro h q i x hf hr
    have hne : i ≠ q := by rintro rfl; exact Nat.lt_irrefl _ hr
    cases hq : h[q]? with
    | none =>
      have : (h.set i x)[q]? = none := by rw [List.getElem?_set_ne hne]; exact hq
      rw [AddPartial, AddPartial]
      simp only [hq, this, Option.map_none']
    | some eq =>
      have hq' : (h.set i x)[q]? = some eq := by rw [List.getElem?_set_ne hne]; exact hq
      rw [AddPartial_succ f _ q eq hq', AddPartial_succ f h q eq hq]
      cases hpar : eq.parent_ with
      | none =>
        simp only [Option.map_some']
        rw [List.set_comm _ _ _ hne]
      | some qq =>
        obtain ⟨-, hrq⟩ := hf.parent hq hpar
        simp only
        rw [List.set_comm _ _ _ hne]
        exact ih (h.set q eq.incPartial) qq i x (hf.set_entry hq (by simp)) (by omega)

/-- Writing an entry of higher rank commutes with `RemovePartial`. -/
theorem RemovePartial_set_comm (rank : Nat → Nat) :
    ∀ (f : Nat) (h : Heap) (q i : Nat) (x : LibraryEntry), Forest h rank → rank q < rank i →
      RemovePartial f (h.set i x) q = (RemovePartial f h q).map (fun h' => h'.set i x) := by
  intro f
  induction f with
  | zero => intro h q i x _ _; rfl
  | succ f ih =>
    intro h q i x hf hr
    have hne : i ≠ q := by rintro rfl; exact Nat.lt_irrefl _ hr
    cases hq : h[q]? with
    | none =>
      have : (h.set i x)[q]? = none := by rw [List.getElem?_set_ne hne]; exact hq
      rw [RemovePartial, RemovePartial]
      simp only [hq, this, Option.map_none']
    | some eq =>
      have hq' : (h.set i x)[q]? = some eq := by rw [List.getElem?_set_ne hne]; exact hq
      rw [RemovePartial_succ f _ q eq hq', RemovePartial_succ f h q eq hq]
      cases hpar : eq.parent_ with
      | none =>
        simp only [Option.map_some']
        rw [List.set_comm _ _ _ hne]
      | some qq =>
        obtain ⟨-, hrq⟩ := hf.parent hq hpar
        simp only
        rw [List.set_comm _ _ _ hne]
        exact ih (h.set q eq.decPartial) qq i x (hf.set_entry hq (by simp)) (by omega)

theorem LibraryEntry.incPartial_decPartial (e : LibraryEntry) (h0 : 0 ≤ e.partial_)
    (h1 : e.partial_ < INT32_MAX) : e.incPartial.decPartial = e := by
  have hw : toInt32 (e.partial_ + 1) = e.partial_ + 1 := by
    apply toInt32_of_range <;> simp only [INT32_MAX] at h1 <;> omega
  obtain ⟨t, cs, p, c, q⟩ := e
  simp only [LibraryEntry.incPartial, LibraryEntry.decPartial] at hw h0 ⊢
  rw [hw, if_pos (by omega)]
  congr 1
  omega

theorem LibraryEntry.incCount_decCount (e : LibraryEntry) (h0 : 0 ≤ e.childrenInPlaylist_)
    (h1 : e.childrenInPlaylist_ < INT32_MAX) : e.incCount.decCount = e := by
  have hw : toInt32 (e.childrenInPlaylist_ + 1) = e.childrenInPlaylist_ + 1 := by
    apply toInt32_of_range <;> simp only [INT32_MAX] at h1 <;> omega
  obtain ⟨t, cs, p, c, q⟩ := e
  simp only [LibraryEntry.incCount, LibraryEntry.decCount] at hw h0 ⊢
  rw [hw, if_pos (by omega)]
  congr 1
  omega

/-- On a forest whose `partial_` counters along the chain are non-negative
and below `INT32_MAX`, `RemovePartial` undoes `AddPartial`. -/
theorem RemovePartial_AddPartial (rank : Nat → Nat) :
    ∀ (f : Nat) (h : Heap) (p : Nat) (ep : LibraryEntry), Forest h rank → h[p]? = some ep →
      rank p < f →
      (∀ (j : Nat) (ej : LibraryEntry), h[j]? = some ej → rank j ≤ rank p →
        0 ≤ ej.partial_ ∧ ej.partial_ < INT32_MAX) →
      ∃ h', AddPartial f h p = some h' ∧ RemovePartial f h' p = some h := by
  intro f
  induction f with
  | zero => intro h p ep _ _ hr; exact absurd hr (Nat.not_lt_zero _)
  | succ f ih =>
    intro h p ep hf hp hr hb
    have hbp := hb p ep hp (le_refl _)
    have hundo := ep.incPartial_decPartial hbp.1 hbp.2
    have h1p := Heap.get_set_self h p ep ep.incPartial hp
    cases hpar : ep.parent_ with
    | none =>
      refine ⟨h.set p ep.incPartial, ?_, ?_⟩
      · rw [AddPartial_succ f h p ep hp, hpar]
      · rw [RemovePartial_root f _ p _ h1p (by simpa using hpar), List.set_set, hundo,
          Heap.set_same h p ep hp]
    | some q =>
      obtain ⟨⟨eq, hq⟩, hrq⟩ := hf.parent hp hpar
      have hne : p ≠ q := by rintro rfl; exact Nat.lt_irrefl _ hrq
      have hf1 : Forest (h.set p ep.incPartial) rank := hf.set_entry hp (by simp)
      have hq1 : (h.set p ep.incPartial)[q]? = some eq := by
        rw [List.getElem?_set_ne hne]; exact hq
      have hb1 : ∀ (j : Nat) (ej : LibraryEntry), (h.set p ep.incPartial)[j]? = some ej →
          rank j ≤ rank q → 0 ≤ ej.partial_ ∧ ej.partial_ < INT32_MAX := by
        intro j ej hj hrj
        have hjp : p ≠ j := by rintro rfl; omega
        rw [List.getElem?_set_ne hjp] at hj
        exact hb j ej hj (by omega)
      obtain ⟨h', hadd, hrem⟩ := ih (h.set p ep.incPartial) q eq hf1 hq1 (by omega) hb1
      obtain ⟨h'', hadd', hsh, heff⟩ := AddPartial_forest rank f (h.set p ep.incPartial) q eq hf1 hq1
        (by omega)
      rw [hadd] at hadd'
      cases hadd'
      have hp' : h'[p]? = some ep.incPartial := by
        rcases heff p _ h1p with h2 | ⟨hle, -⟩
        · exact h2
        · omega
      refine ⟨h', ?_, ?_⟩
      · rw [AddPartial_succ f h p ep hp, hpar]
        exact hadd
      · rw [RemovePartial_succ f h' p _ hp', LibraryEntry.incPartial_parent, hpar]
        simp only
        rw [hundo, RemovePartial_set_comm rank f h' q p ep (Forest.congr_shape hsh hf1) hrq, hrem]
        simp only [Option.map_some', List.set_set]
        rw [Heap.set_same h p ep hp]

/-- On a forest, `RemovedFromPlaylist` undoes `AddedToPlaylist` on the same
entry, when along the chain above the entry the counters are non-negative,
`childrenInPlaylist_` is below `INT32_MAX` and `partial_` leaves room for one
increment per level. -/
theorem RemovedFromPlaylist_AddedToPlaylist (rank : Nat → Nat) :
    ∀ (f : Nat) (h : Heap) (i : Nat) (e : LibraryEntry), Forest h rank → h[i]? = some e →
      rank i < f →
      (∀ (j : Nat) (ej : LibraryEntry), h[j]? = some ej → rank j ≤ rank i →
        0 ≤ ej.childrenInPlaylist_ ∧ ej.childrenInPlaylist_ < INT32_MAX ∧
        0 ≤ ej.partial_ ∧ ej.partial_ + (rank i : Int) ≤ INT32_MAX) →
      ∃ h1, AddedToPlaylist f h i = some h1 ∧ SameShape h h1 ∧
        (∀ j, rank i < rank j → h1[j]? = h[j]?) ∧
        RemovedFromPlaylist f h1 i = some h := by
  intro f
  induction f with
  | zero => intro h i e _ _ hr; exact absurd hr (Nat.not_lt_zero _)
  | succ f ih =>
    intro h i e hf hi hr hb
    have hbi := hb i e hi (le_refl _)
    have hundo := e.incCount_decCount hbi.1 hbi.2.1
    have hw : toInt32 (e.childrenInPlaylist_ + 1) = e.childrenInPlaylist_ + 1 := by
      have := hbi.2.1
      apply toInt32_of_range <;> simp only [INT32_MAX] at this <;> omega
    have h1i := Heap.get_set_self h i e e.incCount hi
    cases hpar : e.parent_ with
    | none =>
      refine ⟨h.set i e.incCount, AddedToPlaylist_root f h i e hi hpar, SameShape.set hi (by simp),
        fun j hj => ?_, ?_⟩
      · have hne : i ≠ j := by rintro rfl; exact Nat.lt_irrefl _ hj
        rw [List.getElem?_set_ne hne]
      · rw [RemovedFromPlaylist_root f _ i _ h1i (by simpa using hpar), List.set_set, hundo,
          Heap.set_same h i e hi]
    | some p =>
      obtain ⟨⟨ep, hep⟩, hrp⟩ := hf.parent hi hpar
      have hne : i ≠ p := by rintro rfl; exact Nat.lt_irrefl _ hrp
      have hf1 : Forest (h.set i e.incCount) rank := hf.set_entry hi (by simp)
      have h1p : (h.set i e.incCount)[p]? = some ep := by
        rw [List.getElem?_set_ne hne]; exact hep
      have hback : (h.set i e.incCount).set i e = h := by
        rw [List.set_set, Heap.set_same h i e hi]
      -- the first `if` of `AddedToPlaylist`, and how the last `if` of `RemovedFromPlaylist` undoes it
      have stage1 : ∃ h2,
          (if decide (e.incCount.childrenInPlaylist_ = 1) = true then
              AddPartial f (h.set i e.incCount) p else some (h.set i e.incCount)) = some h2 ∧
          SameShape (h.set i e.incCount) h2 ∧ h2[i]? = some e.incCount ∧
          (∀ j, rank i < rank j → h2[j]? = (h.set i e.incCount)[j]?) ∧
          (∀ (j : Nat) (ej : LibraryEntry), h2[j]? = some ej → rank j ≤ rank p →
            0 ≤ ej.childrenInPlaylist_ ∧ ej.childrenInPlaylist_ < INT32_MAX ∧
            0 ≤ ej.partial_ ∧ ej.partial_ + (rank p : Int) ≤ INT32_MAX) ∧
          (if decide (e.childrenInPlaylist_ = 0) = true then
              RemovePartial f (h2.set i e) p else some (h2.set i e)) = some h := by
        by_cases c1 : e.childrenInPlaylist_ = 0
        · have c1' : e.incCount.childrenInPlaylist_ = 1 := by
            rw [LibraryEntry.incCount_count, hw, c1]; rfl
          obtain ⟨h2, hadd, hsh, heff⟩ := AddPartial_forest rank f _ p ep hf1 h1p (by omega)
          have h2i : h2[i]? = some e.incCount := by
            rcases heff i _ h1i with h2 | ⟨hle, -⟩
            · exact h2
            · omega
          refine ⟨h2, by simp only [c1', decide_True, if_true]; exact hadd, hsh, h2i,
            fun j hj => ?_, fun j ej hj hrj => ?_, ?_⟩
          · cases hj1 : (h.set i e.incCount)[j]? with
            | none =>
              have := hsh j
              rw [hj1] at this
              cases hj2 : h2[j]? with
              | none => rfl
              | some x => rw [hj2] at this; simp at this
            | some ej1 =>
              rcases heff j ej1 hj1 with h2 | ⟨hle, -⟩
              · exact h2
              · omega
          · have hji : i ≠ j := by rintro rfl; omega
            obtain ⟨ej1, hj1, -⟩ := hsh.symm.get hj
            have hj0 : h[j]? = some ej1 := by rwa [List.getElem?_set_ne hji] at hj1
            have hbj := hb j ej1 hj0 (by omega)
            rcases heff j ej1 hj1 with h2' | ⟨-, h2'⟩
            · rw [hj] at h2'; cases h2'
              exact ⟨hbj.1, hbj.2.1, hbj.2.2.1, by omega⟩
            · rw [hj] at h2'; cases h2'
              have hwp : toInt32 (ej1.partial_ + 1) = ej1.partial_ + 1 := by
                have := hbj.2.2.2
                apply toInt32_of_range <;> simp only [INT32_MAX] at this <;> omega
              simp only [LibraryEntry.incPartial_count, LibraryEntry.incPartial_partial, hwp]
              exact ⟨hbj.1, hbj.2.1, by omega, by omega⟩
          · simp only [c1, decide_True, if_true]
            have hcomm := AddPartial_set_comm rank f (h.set i e.incCount) p i e hf1 hrp
            rw [hback, hadd, Option.map_some'] at hcomm
            obtain ⟨h', hadd', hrem⟩ := RemovePartial_AddPartial rank f h p ep hf hep (by omega)
              (fun j ej hj hrj => by
                have := hb j ej hj (by omega)
                exact ⟨this.2.2.1, by omega⟩)
            rw [hcomm] at hadd'
            cases hadd'
            exact hrem
        · have c1' : ¬ e.incCount.childrenInPlaylist_ = 1 := by
            rw [LibraryEntry.incCount_count, hw]; omega
          refine ⟨h.set i e.incCount, by simp only [c1', decide_False, if_false, Bool.false_eq_true],
            SameShape.refl _, h1i, fun j _ => rfl, fun j ej hj hrj => ?_, ?_⟩
          · have hji : i ≠ j := by rintro rfl; omega
            rw [List.getElem?_set_ne hji] at hj
            have := hb j ej hj (by omega)
            exact ⟨this.1, this.2.1, this.2.2.1, by omega⟩
          · simp only [c1, decide_False, if_false, Bool.false_eq_true]
            rw [hback]
      obtain ⟨h2, hfirst, hsh2, h2i, hframe2, hb2, hlast⟩ := stage1
      have hf2 : Forest h2 rank := Forest.congr_shape hsh2 hf1
      obtain ⟨ep2, h2p, -⟩ := hsh2.get h1p
      -- the second `if` of `AddedToPlaylist`, undone by the first `if` of `RemovedFromPlaylist`
      have stage2 : ∃ h3,
          (if fullOrSong e.incCount = true then AddedToPlaylist f h2 p else some h2) = some h3 ∧
          SameShape h2 h3 ∧ h3[i]? = some e.incCount ∧
          (∀ j, rank i < rank j → h3[j]? = h2[j]?) ∧
          (if fullOrSong e.incCount = true then RemovedFromPlaylist f h3 p else some h3) = some h2 := by
        by_cases c2 : fullOrSong e.incCount = true
        · obtain ⟨h3, hadd, hsh3, hframe3, hrem⟩ := ih h2 p ep2 hf2 h2p (by omega) hb2
          refine ⟨h3, by simp only [c2, if_true]; exact hadd, hsh3, ?_, fun j hj => ?_, ?_⟩
          · rw [hframe3 i hrp]; exact h2i
          · exact hframe3 j (by omega)
          · simp only [c2, if_true]; exact hrem
        · exact ⟨h2, by simp only [c2, if_false, Bool.false_eq_true], SameShape.refl _, h2i,
            fun j _ => rfl, by simp only [c2, if_false, Bool.false_eq_true]⟩
      obtain ⟨h3, hsecond, hsh3, h3i, hframe3, hundo3⟩ := stage2
      refine ⟨h3, ?_, ((SameShape.set hi (by simp)).trans hsh2).trans hsh3, fun j hj => ?_, ?_⟩
      · rw [AddedToPlaylist_succ f h i e hi,
          callParentIf_some _ _ _ i p _ h1i (by simpa using hpar), hfirst]
        simp only
        rw [callParentIf_some _ _ _ i p _ h2i (by simpa using hpar)]
        exact hsecond
      · have hji : i ≠ j := by rintro rfl; exact Nat.lt_irrefl _ hj
        rw [hframe3 j hj, hframe2 j hj, List.getElem?_set_ne hji]
      · rw [RemovedFromPlaylist_succ, callParentIf_some _ _ _ i p _ h3i (by simpa using hpar),
          hundo3]
        simp only [h2i, hundo]
        have h4i : (h2.set i e)[i]? = some e := Heap.get_set_self h2 i _ e h2i
        rw [callParentIf_some _ _ _ i p _ h4i hpar]
        exact hlast

/-- C4 (as stated, refuted): in the tree Artist -> Album -> Song where every
counter is non-negative and below `INT32_MAX` (the Artist's `partial_` is
`INT32_MAX - 1`, all others are 0), `AddedToPlaylist` on the Song raises the
Artist's `partial_` twice, which wraps around; after the following
`RemovedFromPlaylist` the Artist's `partial_` is `-2147483648`, not the
`2147483646` it was before the two calls. -/
theorem added_then_removed_counterexample :
    (Forest nearOverflowLibrary exampleRank ∧
      ∀ e ∈ nearOverflowLibrary, 0 ≤ e.childrenInPlaylist_ ∧ e.childrenInPlaylist_ < INT32_MAX ∧
        0 ≤ e.partial_ ∧ e.partial_ < INT32_MAX) ∧
    partialAt nearOverflowLibrary 0 = 2147483646 ∧
    ((AddedToPlaylist 3 nearOverflowLibrary 2).bind (fun h => RemovedFromPlaylist 3 h 2)).map
        (fun h => partialAt h 0) = some (-2147483648) := by
  decide

/-- C4 (amended): in every forest of entries (parent pointers valid and
acyclic, `rank` decreasing towards the roots) and for every entry `i`, if all
`childrenInPlaylist_` and `partial_` values are non-negative, every
`childrenInPlaylist_` is below `INT32_MAX` and every `partial_` is at most
`INT32_MAX` minus the rank (depth) of `i`, then `AddedToPlaylist` on `i`
followed by `RemovedFromPlaylist` on `i` returns (with call depth above the
rank of `i`) and restores the whole heap, so in particular
`childrenInPlaylist_` and `partial_` of every entry. -/
theorem added_then_removed_restores (h : Heap) (rank : Nat → Nat) (i f : Nat)
    (hf : Forest h rank) (hi : i < h.length) (hr : rank i < f)
    (hb : ∀ e ∈ h, 0 ≤ e.childrenInPlaylist_ ∧ e.childrenInPlaylist_ < INT32_MAX ∧
      0 ≤ e.partial_ ∧ e.partial_ + (rank i : Int) ≤ INT32_MAX) :
    ∃ h1, AddedToPlaylist f h i = some h1 ∧ RemovedFromPlaylist f h1 i = some h := by
  obtain ⟨h1, hadd, -, -, hrem⟩ := RemovedFromPlaylist_AddedToPlaylist rank f h i h[i] hf
    (List.getElem?_eq_getElem hi) hr (fun j ej hj _ => hb ej (List.getElem?_mem hj))
  exact ⟨h1, hadd, hrem⟩

/-- Witness for C4 (amended): track1 of the tree Artist A -> Album1 ->
{track1, track2} with all counters zero. -/
theorem added_then_removed_restores_witness :
    (Forest exampleLibrary exampleRank ∧ 2 < exampleLibrary.length ∧ exampleRank 2 < 3 ∧
      ∀ e ∈ exampleLibrary, 0 ≤ e.childrenInPlaylist_ ∧ e.childrenInPlaylist_ < INT32_MAX ∧
        0 ≤ e.partial_ ∧ e.partial_ + (exampleRank 2 : Int) ≤ INT32_MAX) ∧
    ∃ h1, AddedToPlaylist 3 exampleLibrary 2 = some h1 ∧
      RemovedFromPlaylist 3 h1 2 = some exampleLibrary :=
  ⟨by decide, added_then_removed_restores exampleLibrary exampleRank 2 3 (by decide) (by decide)
    (by decide) (by decide)⟩

/-- C6 (as stated, refuted): `RemovedFromPlaylist` on an entry whose count is
already 0 still lowers the `partial_` of its root parent (from 1 to 0), and
`RemovedFromPlaylist` on an entry whose count goes from 1 to 0 leaves a parent
`partial_` of 0 at 0 instead of lowering it by 1. -/
theorem parent_partial_counterexample :
    (countAt staleParentLibrary 1 = 0 ∧ partialAt staleParentLibrary 0 = 1 ∧
      (RemovedFromPlaylist 2 staleParentLibrary 1).map (fun h => (countAt h 1, partialAt h 0))
        = some (0, 0)) ∧
    (countAt clampedParentLibrary 1 = 1 ∧ partialAt clampedParentLibrary 0 = 0 ∧
      (RemovedFromPlaylist 2 clampedParentLibrary 1).map (fun h => (countAt h 1, partialAt h 0))
        = some (0, 0)) := by
  decide

/-- C6 (amended): for every entry `e` whose parent `p` is a root (counters
within the `int32_t` range): `e.AddedToPlaylist()` raises `p.partial_` by
exactly 1 when `e`'s count goes from 0 to 1 and `p.partial_` is below
`INT32_MAX`, and leaves `p.partial_` unchanged when `e`'s count was not 0;
`e.RemovedFromPlaylist()` lowers `p.partial_` by exactly 1 when `e`'s count
goes from 1 to 0 and `p.partial_` is positive, and leaves `p.partial_`
unchanged when `e`'s count was neither 1 nor 0, or when `p.partial_` is not
positive. -/
theorem parent_partial_after_call (f : Nat) (h : Heap) (e p : Nat) (ee ep : LibraryEntry)
    (he : h[e]? = some ee) (hpe : ee.parent_ = some p)
    (hp : h[p]? = some ep) (hpp : ep.parent_ = none)
    (hce : -2147483648 ≤ ee.childrenInPlaylist_ ∧ ee.childrenInPlaylist_ ≤ INT32_MAX)
    (hcp : -2147483648 ≤ ep.partial_ ∧ ep.partial_ ≤ INT32_MAX) :
    (∃ h1, AddedToPlaylist (f + 2) h e = some h1 ∧
      (ee.childrenInPlaylist_ = 0 → ep.partial_ < INT32_MAX →
        countAt h1 e = 1 ∧ partialAt h1 p = ep.partial_ + 1) ∧
      (ee.childrenInPlaylist_ ≠ 0 → partialAt h1 p = ep.partial_)) ∧
    (∃ h2, RemovedFromPlaylist (f + 2) h e = some h2 ∧
      (ee.childrenInPlaylist_ = 1 → 0 < ep.partial_ →
        countAt h2 e = 0 ∧ partialAt h2 p = ep.partial_ - 1) ∧
      (ee.childrenInPlaylist_ ≠ 1 → ee.childrenInPlaylist_ ≠ 0 → partialAt h2 p = ep.partial_) ∧
      (ep.partial_ ≤ 0 → partialAt h2 p = ep.partial_)) := by
  have hne : e ≠ p := ne_of_parent h e p ee ep he hp (by rw [hpe, hpp]; simp)
  simp only [INT32_MAX] at hce hcp
  constructor
  · refine ⟨_, AddedToPlaylist_child f h e p ee ep he hpe hp hpp, ?_, ?_⟩
    · intro hc hlt
      simp only [INT32_MAX] at hlt
      have hw : toInt32 (ep.partial_ + 1) = ep.partial_ + 1 := by
        apply toInt32_of_range <;> omega
      constructor
      · simp only [countAt]
        rw [Heap.get_set_set_left h e p ee _ _ hne he]
        simp only [Option.map_some', Option.getD_some, LibraryEntry.incCount_count, hc]
        decide
      · simp only [partialAt]
        rw [Heap.get_set_set_right h e p ep _ _ hne hp]
        simp only [Option.map_some', Option.getD_some]
        rw [ rootAfterChildAdded_partial, LibraryEntry.incCount_count, hc, if_pos (by decide), hw]
    · intro hc
      simp only [partialAt]
      rw [Heap.get_set_set_right h e p ep _ _ hne hp]
      simp only [Option.map_some', Option.getD_some]
      rw [ rootAfterChildAdded_partial, LibraryEntry.incCount_count, if_neg]
      unfold toInt32
      omega
  · refine ⟨_, RemovedFromPlaylist_child f h e p ee ep he hpe hp hpp, ?_, ?_, ?_⟩
    · intro hc hpos
      constructor
      · simp only [countAt]
        rw [Heap.get_set_set_left h e p ee _ _ hne he]
        simp only [Option.map_some', Option.getD_some, LibraryEntry.decCount_count, hc]
        decide
      · simp only [partialAt]
        rw [Heap.get_set_set_right h e p ep _ _ hne hp]
        simp only [Option.map_some', Option.getD_some]
        rw [ rootAfterChildRemoved_partial, LibraryEntry.decCount_count, hc, if_pos (by decide),
          if_pos hpos]
    · intro hc1 hc0
      simp only [partialAt]
      rw [Heap.get_set_set_right h e p ep _ _ hne hp]
      simp only [Option.map_some', Option.getD_some]
      rw [ rootAfterChildRemoved_partial, LibraryEntry.decCount_count, if_neg]
      split_ifs <;> omega
    · intro hle
      simp only [partialAt]
      rw [Heap.get_set_set_right h e p ep _ _ hne hp]
      simp only [Option.map_some', Option.getD_some]
      rw [ rootAfterChildRemoved_partial]
      split_ifs <;> first | rfl | omega

/-- Witness for C6 (amended): Album1 under Artist A in the tree Artist A ->
Album1 -> {track1, track2} with all counters zero. -/
theorem parent_partial_after_call_witness :
    (exampleLibrary[1]? = some (mkEntry .AlbumType [2, 3] (some 0)) ∧
      exampleLibrary[0]? = some (mkEntry .ArtistType [1] none)) ∧
    ∃ h1, AddedToPlaylist (0 + 2) exampleLibrary 1 = some h1 ∧
      ((mkEntry .AlbumType [2, 3] (some 0)).childrenInPlaylist_ = 0 →
        (mkEntry .ArtistType [1] none).partial_ < INT32_MAX →
        countAt h1 1 = 1 ∧ partialAt h1 0 = (mkEntry .ArtistType [1] none).partial_ + 1) ∧
      ((mkEntry .AlbumType [2, 3] (some 0)).childrenInPlaylist_ ≠ 0 →
        partialAt h1 0 = (mkEntry .ArtistType [1] none).partial_) :=
  ⟨by decide, (parent_partial_after_call 0 exampleLibrary 1 0 (mkEntry .AlbumType [2, 3] (some 0))
    (mkEntry .ArtistType [1] none) (by decide) (by decide) (by decide) (by decide) (by decide)
    (by decide)).1⟩

/-! ### Bounds on the counters after one call -/

theorem LibraryEntry.Lowered.lowered_self (e : LibraryEntry) : e.Lowered e :=
  ⟨rfl, le_refl _, fun h => h, le_refl _, fun h => h⟩

theorem LibraryEntry.Lowered.lowered_trans {a b c : LibraryEntry} (hab : a.Lowered b) (hbc : b.Lowered c) :
    a.Lowered c :=
  ⟨hbc.1.trans hab.1, le_trans hbc.2.1 hab.2.1, fun h => hbc.2.2.1 (hab.2.2.1 h),
    le_trans hbc.2.2.2.1 hab.2.2.2.1, fun h => hbc.2.2.2.2 (hab.2.2.2.2 h)⟩

theorem LibraryEntry.lowered_decCount (e : LibraryEntry) : e.Lowered e.decCount := by
  refine ⟨by simp, ?_, fun h => ?_, le_refl _, fun h => h⟩
  · rw [LibraryEntry.decCount_count]; split_ifs <;> omega
  · rw [LibraryEntry.decCount_count]; split_ifs <;> omega

theorem LibraryEntry.lowered_decPartial (e : LibraryEntry) : e.Lowered e.decPartial := by
  refine ⟨by simp, le_refl _, fun h => h, ?_, fun h => ?_⟩
  · rw [LibraryEntry.decPartial_partial]; split_ifs <;> omega
  · rw [LibraryEntry.decPartial_partial]; split_ifs <;> omega

/-- Effect of `RemovedFromPlaylist` on a forest: the call returns, entries of
higher rank are left alone, and every entry is lowered. -/
theorem RemovedFromPlaylist_forest (rank : Nat → Nat) :
    ∀ (f : Nat) (h : Heap) (i : Nat) (e : LibraryEntry), Forest h rank → h[i]? = some e →
      rank i < f →
      ∃ h', RemovedFromPlaylist f h i = some h' ∧ SameShape h h' ∧
        (∀ j, rank i < rank j → h'[j]? = h[j]?) ∧
        ∀ (j : Nat) (ej : LibraryEntry), h[j]? = some ej →
          ∃ ej', h'[j]? = some ej' ∧ ej.Lowered ej' := by
  intro f
  induction f with
  | zero => intro h i e _ _ hr; exact absurd hr (Nat.not_lt_zero _)
  | succ f ih =>
    intro h i e hf hi hr
    -- the first `if`
    have stageA : ∃ h1, callParentIf (RemovedFromPlaylist f) fullOrSong h i = some h1 ∧
        SameShape h h1 ∧ h1[i]? = some e ∧ (∀ j, rank i < rank j → h1[j]? = h[j]?) ∧
        ∀ (j : Nat) (ej : LibraryEntry), h[j]? = some ej →
          ∃ ej', h1[j]? = some ej' ∧ ej.Lowered ej' := by
      cases hpar : e.parent_ with
      | none =>
        exact ⟨h, callParentIf_none _ _ _ _ _ hi hpar, SameShape.refl h, hi, fun _ _ => rfl,
          fun j ej hj => ⟨ej, hj, LibraryEntry.Lowered.lowered_self ej⟩⟩
      | some p =>
        obtain ⟨⟨ep, hep⟩, hrp⟩ := hf.parent hi hpar
        rw [callParentIf_some _ _ _ i p e hi hpar]
        by_cases c : fullOrSong e = true
        · obtain ⟨h1, hrun, hsh, hframe, heff⟩ := ih h p ep hf hep (by omega)
          refine ⟨h1, by simp only [c, if_true]; exact hrun, hsh, ?_, fun j hj => ?_, heff⟩
          · rw [hframe i hrp]; exact hi
          · exact hframe j (by omega)
        · exact ⟨h, by simp only [c, if_false, Bool.false_eq_true], SameShape.refl h, hi,
            fun _ _ => rfl, fun j ej hj => ⟨ej, hj, LibraryEntry.Lowered.lowered_self ej⟩⟩
    obtain ⟨h1, hfirst, hsh1, h1i, hframe1, heff1⟩ := stageA
    have hf1 : Forest h1 rank := Forest.congr_shape hsh1 hf
    have h2i : (h1.set i e.decCount)[i]? = some e.decCount := Heap.get_set_self h1 i e _ h1i
    have hsh2 : SameShape h1 (h1.set i e.decCount) := SameShape.set h1i (by simp)
    have hf2 : Forest (h1.set i e.decCount) rank := Forest.congr_shape hsh2 hf1
    -- the last `if`
    have stageB : ∃ h3, callParentIf (RemovePartial f)
          (fun e2 => decide (e2.childrenInPlaylist_ = 0)) (h1.set i e.decCount) i = some h3 ∧
        SameShape (h1.set i e.decCount) h3 ∧
        (∀ j, rank i < rank j → h3[j]? = (h1.set i e.decCount)[j]?) ∧
        ∀ (j : Nat) (ej : LibraryEntry), (h1.set i e.decCount)[j]? = some ej →
          ∃ ej', h3[j]? = some ej' ∧ ej.Lowered ej' := by
      cases hpar : e.parent_ with
      | none =>
        exact ⟨_, callParentIf_none _ _ _ _ _ h2i (by simpa using hpar), SameShape.refl _,
          fun _ _ => rfl, fun j ej hj => ⟨ej, hj, LibraryEntry.Lowered.lowered_self ej⟩⟩
      | some p =>
        obtain ⟨⟨ep, hep⟩, hrp⟩ := hf2.parent h2i (by simpa using hpar)
        rw [callParentIf_some _ _ _ i p _ h2i (by simpa using hpar)]
        by_cases c : e.decCount.childrenInPlaylist_ = 0
        · obtain ⟨h3, hrun, hsh, heff⟩ := RemovePartial_forest rank f _ p ep hf2 hep (by omega)
          refine ⟨h3, by simp only [c, decide_True, if_true]; exact hrun, hsh, fun j hj => ?_,
            fun j ej hj => ?_⟩
          · cases hj2 : (h1.set i e.decCount)[j]? with
            | none =>
              have := hsh j
              rw [hj2] at this
              cases hj3 : h3[j]? with
              | none => rfl
              | some x => rw [hj3] at this; simp at this
            | some ej2 =>
              rcases heff j ej2 hj2 with h3' | ⟨hle, -⟩
              · exact h3'
              · omega
          · rcases heff j ej hj with h3' | ⟨-, h3'⟩
            · exact ⟨ej, h3', LibraryEntry.Lowered.lowered_self ej⟩
            · exact ⟨_, h3', ej.lowered_decPartial⟩
        · exact ⟨_, by simp only [c, decide_False, if_false, Bool.false_eq_true], SameShape.refl _,
            fun _ _ => rfl, fun j ej hj => ⟨ej, hj, LibraryEntry.Lowered.lowered_self ej⟩⟩
    obtain ⟨h3, hlast, hsh3, hframe3, heff3⟩ := stageB
    refine ⟨h3, ?_, (hsh1.trans hsh2).trans hsh3, fun j hj => ?_, fun j ej hj => ?_⟩
    · rw [RemovedFromPlaylist_succ, hfirst]
      simp only [h1i]
      exact hlast
    · have hji : i ≠ j := by rintro rfl; exact Nat.lt_irrefl _ hj
      rw [hframe3 j hj, List.getElem?_set_ne hji, hframe1 j hj]
    · obtain ⟨ej1, hj1, hl1⟩ := heff1 j ej hj
      by_cases hji : i = j
      · subst hji
        rw [h1i] at hj1; cases hj1
        obtain ⟨ej3, hj3, hl3⟩ := heff3 i _ h2i
        exact ⟨ej3, hj3, (hl1.lowered_trans (LibraryEntry.lowered_decCount _)).lowered_trans hl3⟩
      · have hj2 : (h1.set i e.decCount)[j]? = some ej1 := by
          rw [List.getElem?_set_ne hji]; exact hj1
        obtain ⟨ej3, hj3, hl3⟩ := heff3 j ej1 hj2
        exact ⟨ej3, hj3, hl1.lowered_trans hl3⟩

theorem LibraryEntry.Raised.raised_self (k : Nat) (e : LibraryEntry) : e.Raised k e :=
  ⟨rfl, Or.inl rfl, le_refl _, by omega⟩

/-- Effect of `AddedToPlaylist` on a forest whose `partial_` counters leave
room for one increment per level: the call returns, entries of higher rank are
left alone, `childrenInPlaylist_` of an entry is incremented at most once and
`partial_` is raised by at most the rank of the target. -/
theorem AddedToPlaylist_forest (rank : Nat → Nat) :
    ∀ (f : Nat) (h : Heap) (i : Nat) (e : LibraryEntry), Forest h rank → h[i]? = some e →
      rank i < f →
      (∀ (j : Nat) (ej : LibraryEntry), h[j]? = some ej →
        -2147483648 ≤ ej.partial_ ∧ ej.partial_ + (rank i : Int) ≤ INT32_MAX) →
      ∃ h', AddedToPlaylist f h i = some h' ∧ SameShape h h' ∧
        (∀ j, rank i < rank j → h'[j]? = h[j]?) ∧
        ∀ (j : Nat) (ej : LibraryEntry), h[j]? = some ej →
          ∃ ej', h'[j]? = some ej' ∧ ej.Raised (rank i) ej' := by
  intro f
  induction f with
  | zero => intro h i e _ _ hr; exact absurd hr (Nat.not_lt_zero _)
  | succ f ih =>
    intro h i e hf hi hr hb
    have h1i := Heap.get_set_self h i e e.incCount hi
    have hsh1 : SameShape h (h.set i e.incCount) := SameShape.set hi (by simp)
    have hf1 : Forest (h.set i e.incCount) rank := Forest.congr_shape hsh1 hf
    have hraise_i : e.Raised (rank i) e.incCount :=
      ⟨by simp, Or.inr rfl, le_refl _, by simp⟩
    cases hpar : e.parent_ with
    | none =>
      refine ⟨h.set i e.incCount, AddedToPlaylist_root f h i e hi hpar, hsh1, fun j hj => ?_,
        fun j ej hj => ?_⟩
      · have hne : i ≠ j := by rintro rfl; exact Nat.lt_irrefl _ hj
        rw [List.getElem?_set_ne hne]
      · by_cases hji : i = j
        · subst hji
          rw [hi] at hj; cases hj
          exact ⟨_, h1i, hraise_i⟩
        · exact ⟨ej, by rw [List.getElem?_set_ne hji]; exact hj, LibraryEntry.Raised.raised_self _ ej⟩
    | some p =>
      obtain ⟨⟨ep, hep⟩, hrp⟩ := hf.parent hi hpar
      have hne : i ≠ p := by rintro rfl; exact Nat.lt_irrefl _ hrp
      have h1p : (h.set i e.incCount)[p]? = some ep := by
        rw [List.getElem?_set_ne hne]; exact hep
      -- the first `if`
      have stage1 : ∃ h2,
          (if decide (e.incCount.childrenInPlaylist_ = 1) = true then
              AddPartial f (h.set i e.incCount) p else some (h.set i e.incCount)) = some h2 ∧
          SameShape (h.set i e.incCount) h2 ∧ h2[i]? = some e.incCount ∧
          (∀ j, rank i < rank j → h2[j]? = (h.set i e.incCount)[j]?) ∧
          ∀ (j : Nat) (ej : LibraryEntry), h[j]? = some ej → i ≠ j →
            ∃ ej2, h2[j]? = some ej2 ∧ ej2.shape = ej.shape ∧
              ej2.childrenInPlaylist_ = ej.childrenInPlaylist_ ∧
              ej.partial_ ≤ ej2.partial_ ∧ ej2.partial_ ≤ ej.partial_ + 1 := by
        by_cases c1 : e.incCount.childrenInPlaylist_ = 1
        · obtain ⟨h2, hadd, hsh, heff⟩ := AddPartial_forest rank f _ p ep hf1 h1p (by omega)
          have h2i : h2[i]? = some e.incCount := by
            rcases heff i _ h1i with h2 | ⟨hle, -⟩
            · exact h2
            · omega
          refine ⟨h2, by simp only [c1, decide_True, if_true]; exact hadd, hsh, h2i,
            fun j hj => ?_, fun j ej hj hji => ?_⟩
          · cases hj1 : (h.set i e.incCount)[j]? with
            | none =>
              have := hsh j
              rw [hj1] at this
              cases hj2 : h2[j]? with
              | none => rfl
              | some x => rw [hj2] at this; simp at this
            | some ej1 =>
              rcases heff j ej1 hj1 with h2 | ⟨hle, -⟩
              · exact h2
              · omega
          · have hj1 : (h.set i e.incCount)[j]? = some ej := by
              rw [List.getElem?_set_ne hji]; exact hj
            have hbj := hb j ej hj
            rcases heff j ej hj1 with h2' | ⟨-, h2'⟩
            · exact ⟨ej, h2', rfl, rfl, le_refl _, by omega⟩
            · have hwp : toInt32 (ej.partial_ + 1) = ej.partial_ + 1 := by
                have h1 := hbj.1
                have h2 := hbj.2
                apply toInt32_of_range <;> simp only [INT32_MAX] at h2 <;> omega
              refine ⟨_, h2', by simp, by simp, ?_, ?_⟩
              · rw [LibraryEntry.incPartial_partial, hwp]; omega
              · rw [LibraryEntry.incPartial_partial, hwp]
        · exact ⟨h.set i e.incCount,
            by simp only [c1, decide_False, if_false, Bool.false_eq_true], SameShape.refl _, h1i,
            fun j _ => rfl, fun j ej hj hji =>
              ⟨ej, by rw [List.getElem?_set_ne hji]; exact hj, rfl, rfl, le_refl _, by omega⟩⟩
      obtain ⟨h2, hfirst, hsh2, h2i, hframe2, heff2⟩ := stage1
      have hf2 : Forest h2 rank := Forest.congr_shape hsh2 hf1
      obtain ⟨ep2, h2p, -⟩ := hsh2.get h1p
      have hb2 : ∀ (j : Nat) (ej : LibraryEntry), h2[j]? = some ej →
          -2147483648 ≤ ej.partial_ ∧ ej.partial_ + (rank p : Int) ≤ INT32_MAX := by
        intro j ej2 hj2
        by_cases hji : i = j
        · subst hji
          rw [h2i] at hj2; cases hj2
          have := hb i e hi
          simp only [LibraryEntry.incCount_partial]
          exact ⟨this.1, by omega⟩
        · obtain ⟨ej0, hj0, -⟩ := (hsh1.trans hsh2).symm.get hj2
          obtain ⟨ej2', hj2', -, -, hlo, hhi⟩ := heff2 j ej0 hj0 hji
          rw [hj2] at hj2'; cases hj2'
          have := hb j ej0 hj0
          exact ⟨by omega, by omega⟩
      -- the second `if`
      have stage2 : ∃ h3,
          (if fullOrSong e.incCount = true then AddedToPlaylist f h2 p else some h2) = some h3 ∧
          SameShape h2 h3 ∧ (∀ j, rank p < rank j → h3[j]? = h2[j]?) ∧
          ∀ (j : Nat) (ej : LibraryEntry), h2[j]? = some ej →
            ∃ ej', h3[j]? = some ej' ∧ ej.Raised (rank p) ej' := by
        by_cases c2 : fullOrSong e.incCount = true
        · obtain ⟨h3, hadd, hsh3, hframe3, heff3⟩ := ih h2 p ep2 hf2 h2p (by omega) hb2
          exact ⟨h3, by simp only [c2, if_true]; exact hadd, hsh3, hframe3, heff3⟩
        · exact ⟨h2, by simp only [c2, if_false, Bool.false_eq_true], SameShape.refl _,
            fun j _ => rfl, fun j ej hj => ⟨ej, hj, LibraryEntry.Raised.raised_self _ ej⟩⟩
      obtain ⟨h3, hsecond, hsh3, hframe3, heff3⟩ := stage2
      refine ⟨h3, ?_, (hsh1.trans hsh2).trans hsh3, fun j hj => ?_, fun j ej hj => ?_⟩
      · rw [AddedToPlaylist_succ f h i e hi,
          callParentIf_some _ _ _ i p _ h1i (by simpa using hpar), hfirst]
        simp only
        rw [callParentIf_some _ _ _ i p _ h2i (by simpa using hpar)]
        exact hsecond
      · have hji : i ≠ j := by rintro rfl; exact Nat.lt_irrefl _ hj
        rw [hframe3 j (by omega), hframe2 j hj, List.getElem?_set_ne hji]
      · by_cases hji : i = j
        · subst hji
          rw [hi] at hj; cases hj
          exact ⟨_, by rw [hframe3 i hrp]; exact h2i, hraise_i⟩
        · obtain ⟨ej2, hj2, hs2, hc2, hlo2, hhi2⟩ := heff2 j ej hj hji
          obtain ⟨ej3, hj3, hs3, hc3, hlo3, hhi3⟩ := heff3 j ej2 hj2
          refine ⟨ej3, hj3, hs3.trans hs2, ?_, by omega, by omega⟩
          rw [← hc2]; exact hc3

/-- One call on a forest whose counters are non-negative and at least `D`
below the bound `B` (with `D` above every rank): the call returns and every
counter is still non-negative and at most `B`. -/
theorem Call.apply_bounds (rank : Nat → Nat) (D fuel : Nat) (h : Heap) (c : Call) (B : Int)
    (hf : Forest h rank) (hD : ∀ i < h.length, rank i < D) (hfuel : D ≤ fuel)
    (hc : c.target < h.length) (hB : B ≤ INT32_MAX)
    (hb : ∀ e ∈ h, 0 ≤ e.childrenInPlaylist_ ∧ e.childrenInPlaylist_ + (D : Int) ≤ B ∧
      0 ≤ e.partial_ ∧ e.partial_ + (D : Int) ≤ B) :
    ∃ h', c.apply fuel h = some h' ∧ SameShape h h' ∧
      ∀ e' ∈ h', 0 ≤ e'.childrenInPlaylist_ ∧ e'.childrenInPlaylist_ ≤ B ∧
        0 ≤ e'.partial_ ∧ e'.partial_ ≤ B := by
  simp only [INT32_MAX] at hB
  -- it is enough to relate every entry of the result to the entry it came from
  have finish : ∀ h' : Heap, SameShape h h' →
      (∀ (j : Nat) (ej : LibraryEntry), h[j]? = some ej → ∃ ej', h'[j]? = some ej' ∧
        0 ≤ ej'.childrenInPlaylist_ ∧ ej'.childrenInPlaylist_ ≤ B ∧
        0 ≤ ej'.partial_ ∧ ej'.partial_ ≤ B) →
      ∀ e' ∈ h', 0 ≤ e'.childrenInPlaylist_ ∧ e'.childrenInPlaylist_ ≤ B ∧
        0 ≤ e'.partial_ ∧ e'.partial_ ≤ B := by
    intro h' hsh hall e' he'
    obtain ⟨j, hj⟩ := List.mem_iff_getElem?.1 he'
    obtain ⟨ej, hej, -⟩ := hsh.symm.get hj
    obtain ⟨ej', hej', hres⟩ := hall j ej hej
    rw [hj] at hej'; cases hej'
    exact hres
  cases c with
  | Added i =>
    simp only [Call.target] at hc
    have hri := hD i hc
    obtain ⟨h', hrun, hsh, -, heff⟩ := AddedToPlaylist_forest rank fuel h i h[i] hf
      (List.getElem?_eq_getElem hc) (by omega) (fun j ej hj => by
        have := hb ej (List.getElem?_mem hj)
        simp only [INT32_MAX]
        exact ⟨by omega, by omega⟩)
    refine ⟨h', hrun, hsh, finish h' hsh (fun j ej hj => ?_)⟩
    obtain ⟨ej', hj', -, hcnt, hlo, hhi⟩ := heff j ej hj
    have hbj := hb ej (List.getElem?_mem hj)
    have hw : toInt32 (ej.childrenInPlaylist_ + 1) = ej.childrenInPlaylist_ + 1 := by
      apply toInt32_of_range <;> omega
    rw [hw] at hcnt
    refine ⟨ej', hj', ?_, ?_, by omega, by omega⟩
    · rcases hcnt with h1 | h1 <;> omega
    · rcases hcnt with h1 | h1 <;> omega
  | Removed i =>
    simp only [Call.target] at hc
    have hri := hD i hc
    obtain ⟨h', hrun, hsh, -, heff⟩ := RemovedFromPlaylist_forest rank fuel h i h[i] hf
      (List.getElem?_eq_getElem hc) (by omega)
    refine ⟨h', hrun, hsh, finish h' hsh (fun j ej hj => ?_)⟩
    obtain ⟨ej', hj', -, hc1, hc2, hp1, hp2⟩ := heff j ej hj
    have hbj := hb ej (List.getElem?_mem hj)
    exact ⟨ej', hj', hc2 hbj.1, by omega, hp2 hbj.2.2.1, by omega⟩
  | AddPartial i =>
    simp only [Call.target] at hc
    have hri := hD i hc
    obtain ⟨h', hrun, hsh, heff⟩ := AddPartial_forest rank fuel h i h[i] hf
      (List.getElem?_eq_getElem hc) (by omega)
    refine ⟨h', hrun, hsh, finish h' hsh (fun j ej hj => ?_)⟩
    have hbj := hb ej (List.getElem?_mem hj)
    rcases heff j ej hj with hj' | ⟨-, hj'⟩
    · exact ⟨ej, hj', hbj.1, by omega, hbj.2.2.1, by omega⟩
    · have hw : toInt32 (ej.partial_ + 1) = ej.partial_ + 1 := by
        apply toInt32_of_range <;> omega
      refine ⟨_, hj', ?_, ?_, ?_, ?_⟩
      · simpa using hbj.1
      · simp only [LibraryEntry.incPartial_count]; omega
      · rw [LibraryEntry.incPartial_partial, hw]; omega
      · rw [LibraryEntry.incPartial_partial, hw]; omega
  | RemovePartial i =>
    simp only [Call.target] at hc
    have hri := hD i hc
    obtain ⟨h', hrun, hsh, heff⟩ := RemovePartial_forest rank fuel h i h[i] hf
      (List.getElem?_eq_getElem hc) (by omega)
    refine ⟨h', hrun, hsh, finish h' hsh (fun j ej hj => ?_)⟩
    have hbj := hb ej (List.getElem?_mem hj)
    rcases heff j ej hj with hj' | ⟨-, hj'⟩
    · exact ⟨ej, hj', hbj.1, by omega, hbj.2.2.1, by omega⟩
    · have hl := ej.lowered_decPartial
      exact ⟨_, hj', hl.2.2.1 hbj.1, by have := hl.2.1; omega, hl.2.2.2.2 hbj.2.2.1,
        by have := hl.2.2.2.1; omega⟩

/-- A sequence of calls on a forest whose counters are non-negative and leave
room for `D` increments per call: the sequence runs to its end and every
counter is still non-negative. -/
theorem runCalls_bounds (rank : Nat → Nat) (D fuel : Nat) (hfuel : D ≤ fuel) :
    ∀ (cs : List Call) (h : Heap), Forest h rank → (∀ i < h.length, rank i < D) →
      (∀ c ∈ cs, c.target < h.length) →
      (∀ e ∈ h, 0 ≤ e.childrenInPlaylist_ ∧
        e.childrenInPlaylist_ + ((cs.length * D : Nat) : Int) ≤ INT32_MAX ∧
        0 ≤ e.partial_ ∧ e.partial_ + ((cs.length * D : Nat) : Int) ≤ INT32_MAX) →
      ∃ h', runCalls fuel h cs = some h' ∧
        ∀ e ∈ h', 0 ≤ e.childrenInPlaylist_ ∧ 0 ≤ e.partial_ := by
  intro cs
  induction cs with
  | nil =>
    intro h _ _ _ hb
    exact ⟨h, rfl, fun e he => ⟨(hb e he).1, (hb e he).2.2.1⟩⟩
  | cons c cs ih =>
    intro h hf hD hcs hb
    have hstep := Call.apply_bounds rank D fuel h c (INT32_MAX - ((cs.length * D : Nat) : Int)) hf hD
      hfuel (hcs c (List.mem_cons_self _ _)) (by omega) (fun e he => by
        have := hb e he
        simp only [List.length_cons] at this
        push_cast at this ⊢
        refine ⟨this.1, ?_, this.2.2.1, ?_⟩ <;> nlinarith [this.2.1, this.2.2.2])
    obtain ⟨h1, hrun, hsh, hb1⟩ := hstep
    have hlen := hsh.length_eq
    obtain ⟨h', hrun', hres⟩ := ih h1 (Forest.congr_shape hsh hf)
      (fun i hi => hD i (by omega))
      (fun c' hc' => by rw [hlen]; exact hcs c' (List.mem_cons_of_mem _ hc'))
      (fun e he => by
        have := hb1 e he
        exact ⟨this.1, by omega, this.2.2.1, by omega⟩)
    refine ⟨h', ?_, hres⟩
    simp only [runCalls, hrun]
    exact hrun'

/-- C5 (as stated, refuted): a root entry whose `childrenInPlaylist_` is
`INT32_MAX` (both counters non-negative) has `childrenInPlaylist_ =
-2147483648` after one `AddedToPlaylist` call: the unguarded increment wraps
around. -/
theorem counters_nonnegative_counterexample :
    (∀ e ∈ fullCounterLibrary, 0 ≤ e.childrenInPlaylist_ ∧ 0 ≤ e.partial_) ∧
    (runCalls 1 fullCounterLibrary [Call.Added 0]).map (fun h => countAt h 0)
      = some (-2147483648) := by
  decide

/-- C5 (amended): starting from a forest (every rank below `D`) in which each
`childrenInPlaylist_` and `partial_` is non-negative and at most `INT32_MAX`
minus `D` times the number of calls, every sequence of `AddedToPlaylist`,
`RemovedFromPlaylist`, `AddPartial` and `RemovePartial` calls on entries of
the forest (also `RemovedFromPlaylist` on entries whose count is already 0)
runs to its end with call depth `D`, and afterwards every entry still has
`childrenInPlaylist_ >= 0` and `partial_ >= 0`. -/
theorem counters_stay_nonnegative (h : Heap) (rank : Nat → Nat) (D fuel : Nat) (cs : List Call)
    (hf : Forest h rank) (hD : ∀ i < h.length, rank i < D) (hfuel : D ≤ fuel)
    (hcs : ∀ c ∈ cs, c.target < h.length)
    (hb : ∀ e ∈ h, 0 ≤ e.childrenInPlaylist_ ∧
      e.childrenInPlaylist_ + ((cs.length * D : Nat) : Int) ≤ INT32_MAX ∧
      0 ≤ e.partial_ ∧ e.partial_ + ((cs.length * D : Nat) : Int) ≤ INT32_MAX) :
    ∃ h', runCalls fuel h cs = some h' ∧
      ∀ e ∈ h', 0 ≤ e.childrenInPlaylist_ ∧ 0 ≤ e.partial_ :=
  runCalls_bounds rank D fuel hfuel cs h hf hD hcs hb

/-- Witness for C5 (amended): three calls on the tree Artist A -> Album1 ->
{track1, track2} with all counters zero, the first a `RemovedFromPlaylist` on
a Song whose count is 0. -/
theorem counters_stay_nonnegative_witness :
    (Forest exampleLibrary exampleRank ∧ (∀ i < exampleLibrary.length, exampleRank i < 3) ∧
      3 ≤ 3 ∧
      (∀ c ∈ [Call.Removed 2, Call.Added 3, Call.RemovePartial 1], c.target < exampleLibrary.length) ∧
      ∀ e ∈ exampleLibrary, 0 ≤ e.childrenInPlaylist_ ∧
        e.childrenInPlaylist_ +
          ((([Call.Removed 2, Call.Added 3, Call.RemovePartial 1].length * 3 : Nat)) : Int)
            ≤ INT32_MAX ∧
        0 ≤ e.partial_ ∧
        e.partial_ +
          ((([Call.Removed 2, Call.Added 3, Call.RemovePartial 1].length * 3 : Nat)) : Int)
            ≤ INT32_MAX) ∧
    ∃ h', runCalls 3 exampleLibrary [Call.Removed 2, Call.Added 3, Call.RemovePartial 1] = some h' ∧
      ∀ e ∈ h', 0 ≤ e.childrenInPlaylist_ ∧ 0 ≤ e.partial_ :=
  ⟨⟨by decide, by decide, by decide, by decide, by decide⟩,
    counters_stay_nonnegative exampleLibrary exampleRank 3 3
      [Call.Removed 2, Call.Added 3, Call.RemovePartial 1]
      (by decide) (by decide) (by decide) (by decide) (by decide)⟩

/-! ### The counter `partial_` follows the playlist -/

theorem sum_map_flip_one {l : List Nat} (hl : l.Nodup) {a : Nat} (ha : a ∈ l) {f g : Nat → Nat}
    (hfg : ∀ x ∈ l, x ≠ a → g x = f x) :
    (l.map g).sum + f a = (l.map f).sum + g a := by
  induction l with
  | nil => simp at ha
  | cons x xs ih =>
    rw [List.nodup_cons] at hl
    rw [List.map_cons, List.map_cons, List.sum_cons, List.sum_cons]
    by_cases hx : x = a
    · subst hx
      have hrest : xs.map g = xs.map f := by
        apply List.map_congr_left
        intro y hy
        exact hfg y (List.mem_cons_of_mem _ hy) (fun h => hl.1 (h ▸ hy))
      rw [hrest]
      omega
    · have hax : a ∈ xs := by
        rcases List.mem_cons.1 ha with h | h
        · exact absurd h.symm hx
        · exact h
      have := ih hl.2 hax (fun y hy hne => hfg y (List.mem_cons_of_mem _ hy) hne)
      rw [hfg x (List.mem_cons_self _ _) hx]
      omega

theorem sum_map_same {l : List Nat} {f g : Nat → Nat} (hfg : ∀ x ∈ l, g x = f x) :
    (l.map g).sum = (l.map f).sum := by
  rw [List.map_congr_left hfg]

theorem sum_map_le {l : List Nat} {f g : Nat → Nat} (hfg : ∀ x ∈ l, f x ≤ g x) :
    (l.map f).sum ≤ (l.map g).sum := by
  induction l with
  | nil => simp
  | cons x xs ih =>
    rw [List.map_cons, List.map_cons, List.sum_cons, List.sum_cons]
    have := ih (fun y hy => hfg y (List.mem_cons_of_mem _ hy))
    have := hfg x (List.mem_cons_self _ _)
    omega

theorem le_sum_map {l : List Nat} {a : Nat} (ha : a ∈ l) (f : Nat → Nat) :
    f a ≤ (l.map f).sum := by
  induction l with
  | nil => simp at ha
  | cons x xs ih =>
    rw [List.map_cons, List.sum_cons]
    rcases List.mem_cons.1 ha with h | h
    · subst h; omega
    · have := ih h; omega

theorem albumWeight_le (h : Heap) (pl : List Nat) (a : Nat) :
    albumWeight h pl a ≤ (childrenAt h a).length + 1 := by
  unfold albumWeight
  have := List.countP_le_length (inPlaylist pl) (l := childrenAt h a)
  split_ifs <;> omega

theorem albumWeight_congr (h : Heap) (pl1 pl2 : List Nat) (x : Nat)
    (hx : ∀ c ∈ childrenAt h x, inPlaylist pl2 c = inPlaylist pl1 c) :
    albumWeight h pl2 x = albumWeight h pl1 x := by
  unfold albumWeight
  rw [countP_same hx]

theorem partialAt_of_get {h : Heap} {i : Nat} {e : LibraryEntry} (hi : h[i]? = some e) :
    partialAt h i = e.partial_ := by
  simp [partialAt, hi]

/-- The counters `partial_` keep following the playlist when the playlist
changes at the song `s` only and `partial_` changes accordingly at its album
`a` and at its artist `r` only. -/
theorem PartialFollow.update_partial {h0 h h' : Heap} {pl1 pl2 : List Nat} (hwf : WellFormed h0)
    (hp : PartialFollow h0 h pl1) {s a r : Nat}
    (hps : parentAt h0 s = some a) (hpa : parentAt h0 a = some r)
    (hdiff : ∀ c, c ≠ s → inPlaylist pl2 c = inPlaylist pl1 c)
    (hothers : ∀ j, j ≠ a → j ≠ r → partialAt h' j = partialAt h j)
    (ha' : partialAt h' a = ((childrenAt h0 a).countP (inPlaylist pl2) : Nat))
    (hr' : partialAt h' r = (((childrenAt h0 r).map (albumWeight h0 pl2)).sum : Nat))
    (hta : typeAt h0 a = some .AlbumType) (htr : typeAt h0 r = some .ArtistType) :
    PartialFollow h0 h' pl2 := by
  have not_child : ∀ x, x ≠ a → ∀ c ∈ childrenAt h0 x, c ≠ s := by
    intro x hxa c hcx hcs
    subst hcs
    have := hwf.parent_of_mem_children hcx
    rw [hps] at this
    exact hxa (Option.some.inj this).symm
  intro j
  by_cases ja : j = a
  · subst ja
    refine ⟨fun _ => ha', fun h => ?_⟩
    rw [hta] at h; cases h
  by_cases jr : j = r
  · subst jr
    refine ⟨fun h => ?_, fun _ => hr'⟩
    rw [htr] at h; cases h
  rw [hothers j ja jr]
  refine ⟨fun h => ?_, fun h => ?_⟩
  · rw [(hp j).1 h]
    congr 1
    exact countP_same (fun c hcj => (hdiff c (not_child j ja c hcj)).symm)
  · rw [(hp j).2 h]
    congr 1
    apply sum_map_same
    intro x hxj
    symm
    apply albumWeight_congr
    intro c hcx
    apply hdiff c
    apply not_child x _ c hcx
    intro hxa
    subst hxa
    have := hwf.parent_of_mem_children hxj
    rw [hpa] at this
    exact jr (Option.some.inj this).symm

/-- The arithmetic of the Artist's `partial_` when a Song is added. -/
theorem partial_added_arith (K P P2 L : Nat) (hk : K + 1 ≤ L) (hL : (L : Int) ≤ 2147483647)
    (hm : P2 + (K + if 0 < K then 1 else 0) = P + (K + 1 + 1))
    (hmax : (P2 : Int) ≤ 2147483647) :
    (if toInt32 ((K : Int) + 1) = 1 then toInt32 (toInt32 ((P : Int) + 1) + 1)
      else toInt32 ((P : Int) + 1)) = (P2 : Int) := by
  have e1 : toInt32 ((K : Int) + 1) = (K : Int) + 1 := by
    apply toInt32_of_range <;> omega
  rw [e1]
  by_cases hzero : K = 0
  · subst hzero
    simp only [lt_self_iff_false, if_false] at hm
    have e2 : toInt32 ((P : Int) + 1) = (P : Int) + 1 := by
      apply toInt32_of_range <;> omega
    have e3 : toInt32 ((P : Int) + 1 + 1) = (P : Int) + 1 + 1 := by
      apply toInt32_of_range <;> omega
    rw [if_pos (by simp), e2, e3]
    omega
  · rw [if_pos (by omega)] at hm
    have e2 : toInt32 ((P : Int) + 1) = (P : Int) + 1 := by
      apply toInt32_of_range <;> omega
    rw [if_neg (by omega), e2]
    omega

/-- The arithmetic of the Artist's `partial_` when a Song is removed. -/
theorem partial_removed_arith (K P P2 : Nat) (hk : 1 ≤ K) (hle : K + 1 ≤ P)
    (hm : P2 + (K + 1) = P + (K - 1 + if 0 < K - 1 then 1 else 0)) (c : Int)
    (hc : c = if (K : Int) > 0 then (K : Int) - 1 else (K : Int)) (q : Int)
    (hq : q = if c = 0 then (if (P : Int) > 0 then (P : Int) - 1 else (P : Int)) else (P : Int)) :
    (if q > 0 then q - 1 else q) = (P2 : Int) := by
  rw [if_pos (by omega)] at hc
  by_cases hone : K = 1
  · subst hone
    simp only [Nat.sub_self, lt_self_iff_false, if_false] at hm
    rw [hc] at hq
    rw [if_pos (by simp), if_pos (by omega)] at hq
    rw [hq, if_pos (by omega)]
    omega
  · rw [if_pos (by omega)] at hm
    rw [hc, if_neg (by omega)] at hq
    rw [hq, if_pos (by omega)]
    omega

theorem PartialFits.artist {h0 : Heap} (hfit : PartialFits h0) {r : Nat} {er0 : LibraryEntry}
    (her0 : h0[r]? = some er0) (htr0 : er0.type_ = .ArtistType) (pl : List Nat) :
    (((er0.children_.map (albumWeight h0 pl)).sum : Nat) : Int) ≤ 2147483647 := by
  have h1 := hfit er0 (List.getElem?_mem her0) htr0
  have h2 : (er0.children_.map (albumWeight h0 pl)).sum ≤
      (er0.children_.map (fun a => (childrenAt h0 a).length + 1)).sum :=
    sum_map_le (fun x _ => albumWeight_le h0 pl x)
  simp only [INT32_MAX] at h1
  omega

theorem PartialFollow.added_partial {h0 h : Heap} {pl : List Nat} (hwf : WellFormed h0)
    (hfit : PartialFits h0) (hsh : SameShape h0 h) (hc : CountsFollow h0 h pl)
    (hp : PartialFollow h0 h pl) {s : Nat}
    (hs : typeAt h0 s = some .SongType) (hnot : s ∉ pl) (f : Nat) (h' : Heap)
    (hrun : AddedToPlaylist (f + 3) h s = some h') :
    PartialFollow h0 h' (s :: pl) := by
  obtain ⟨a, r, es0, ea0, er0, hes0, hts0, hps0, hea0, hta0, hpa0, her0, htr0, hpr0, hsa, har⟩ :=
    hwf.song_chain hs
  obtain ⟨es, hes, hts, hchs, hps⟩ := hsh.get hes0
  obtain ⟨ea, hea, hta, hcha, hpa⟩ := hsh.get hea0
  obtain ⟨er, her, htr, hchr, hpr⟩ := hsh.get her0
  have hTa : typeAt h0 a = some .AlbumType := by rw [typeAt_of_get hea0, hta0]
  have hTr : typeAt h0 r = some .ArtistType := by rw [typeAt_of_get her0, htr0]
  have hsa_ne : s ≠ a := by rintro rfl; rw [hs] at hTa; cases hTa
  have hsr_ne : s ≠ r := by rintro rfl; rw [hs] at hTr; cases hTr
  have har_ne : a ≠ r := by rintro rfl; rw [hTa] at hTr; cases hTr
  have hcs : es.childrenInPlaylist_ = 0 := by
    have := (hc s).1 hs
    rwa [countAt_of_get hes, if_neg hnot] at this
  have hca : ea.childrenInPlaylist_ = (ea0.children_.countP (inPlaylist pl) : Nat) := by
    have := (hc a).2.1 hTa
    rwa [countAt_of_get hea, childrenAt_of_get hea0] at this
  have hqa : ea.partial_ = (ea0.children_.countP (inPlaylist pl) : Nat) := by
    have := (hp a).1 hTa
    rwa [partialAt_of_get hea, childrenAt_of_get hea0] at this
  have hqr : er.partial_ = ((er0.children_.map (albumWeight h0 pl)).sum : Nat) := by
    have := (hp r).2 hTr
    rwa [partialAt_of_get her, childrenAt_of_get her0] at this
  have wa := hwf.entry hea0
  have wr := hwf.entry her0
  have hns : inPlaylist pl s = false := by simp [inPlaylist, hnot]
  have hys : inPlaylist (s :: pl) s = true := by simp [inPlaylist]
  have hk := countP_flip_one wa.1 hsa (p := inPlaylist pl) (q := inPlaylist (s :: pl))
    (fun x _ hx => inPlaylist_cons_of_ne pl hx) hns
  rw [hys, if_pos rfl] at hk
  have hkle := List.countP_le_length (inPlaylist (s :: pl)) (l := ea0.children_)
  have hamax := wa.2.1
  simp only [INT32_MAX] at hamax
  -- the weight of the album, before and after
  have hw1 : albumWeight h0 pl a = ea0.children_.countP (inPlaylist pl) +
      (if 0 < ea0.children_.countP (inPlaylist pl) then 1 else 0) := by
    rw [albumWeight, childrenAt_of_get hea0]
  have hw2 : albumWeight h0 (s :: pl) a = ea0.children_.countP (inPlaylist pl) + 1 + 1 := by
    rw [albumWeight, childrenAt_of_get hea0, hk, if_pos (by omega)]
  have hm := sum_map_flip_one wr.1 har (f := albumWeight h0 pl) (g := albumWeight h0 (s :: pl))
    (fun x _ hx => by
      apply albumWeight_congr
      intro c hcx
      apply inPlaylist_cons_of_ne
      rintro rfl
      have := hwf.parent_of_mem_children hcx
      rw [parentAt_of_get hes0, hps0] at this
      exact hx (Option.some.inj this).symm)
  rw [hw1, hw2] at hm
  have hrmax := hfit.artist her0 htr0 (s :: pl)
  have hexact := AddedToPlaylist_song f h s a r es ea er hes (hps.trans hps0) hea (hpa.trans hpa0)
    her (hpr.trans hpr0) (hts.trans hts0) hcs
  rw [hexact] at hrun
  have hh' := Option.some.inj hrun
  subst hh'
  have hget := Heap.get_set3 h s a r es ea er es.incCount ea.incPartial.incCount
    (rootAfterChildAdded ea.incPartial.incCount er.incPartial) hes hea her
  apply PartialFollow.update_partial hwf hp (s := s) (a := a) (r := r)
    (by rw [parentAt_of_get hes0, hps0]) (by rw [parentAt_of_get hea0, hpa0])
    (fun c hcs => inPlaylist_cons_of_ne pl hcs)
  · intro j ja jr
    simp only [partialAt, hget j, if_neg ja, if_neg jr]
    by_cases js : j = s
    · subst js
      simp only [if_true, hes, Option.map_some', Option.getD_some, LibraryEntry.incCount_partial]
    · simp only [if_neg js]
  · simp only [partialAt, hget a, if_neg har_ne, if_true, Option.map_some', Option.getD_some,
      LibraryEntry.incCount_partial, LibraryEntry.incPartial_partial]
    rw [hqa, childrenAt_of_get hea0, hk]
    rw [toInt32_of_range] <;> push_cast <;> omega
  · simp only [partialAt, hget r, if_true, Option.map_some', Option.getD_some,
      childrenAt_of_get her0]
    rw [ rootAfterChildAdded_partial]
    simp only [LibraryEntry.incCount_count, LibraryEntry.incPartial_count,
      LibraryEntry.incPartial_partial]
    rw [hca, hqr]
    exact partial_added_arith _ _ _ ea0.children_.length (by rw [← hk]; exact hkle) hamax hm hrmax
  · exact hTa
  · exact hTr

theorem PartialFollow.removed_partial {h0 h : Heap} {pl : List Nat} (hwf : WellFormed h0)
    (hsh : SameShape h0 h) (hc : CountsFollow h0 h pl)
    (hp : PartialFollow h0 h pl) {s : Nat}
    (hs : typeAt h0 s = some .SongType) (hin : s ∈ pl) (f : Nat) (h' : Heap)
    (hrun : RemovedFromPlaylist (f + 3) h s = some h') :
    PartialFollow h0 h' (pl.filter (fun x => decide (x ≠ s))) := by
  obtain ⟨a, r, es0, ea0, er0, hes0, hts0, hps0, hea0, hta0, hpa0, her0, htr0, hpr0, hsa, har⟩ :=
    hwf.song_chain hs
  obtain ⟨es, hes, hts, hchs, hps⟩ := hsh.get hes0
  obtain ⟨ea, hea, hta, hcha, hpa⟩ := hsh.get hea0
  obtain ⟨er, her, htr, hchr, hpr⟩ := hsh.get her0
  have hTa : typeAt h0 a = some .AlbumType := by rw [typeAt_of_get hea0, hta0]
  have hTr : typeAt h0 r = some .ArtistType := by rw [typeAt_of_get her0, htr0]
  have hsa_ne : s ≠ a := by rintro rfl; rw [hs] at hTa; cases hTa
  have hsr_ne : s ≠ r := by rintro rfl; rw [hs] at hTr; cases hTr
  have har_ne : a ≠ r := by rintro rfl; rw [hTa] at hTr; cases hTr
  have hcs : es.childrenInPlaylist_ = 1 := by
    have := (hc s).1 hs
    rwa [countAt_of_get hes, if_pos hin] at this
  have hca : ea.childrenInPlaylist_ = (ea0.children_.countP (inPlaylist pl) : Nat) := by
    have := (hc a).2.1 hTa
    rwa [countAt_of_get hea, childrenAt_of_get hea0] at this
  have hqa : ea.partial_ = (ea0.children_.countP (inPlaylist pl) : Nat) := by
    have := (hp a).1 hTa
    rwa [partialAt_of_get hea, childrenAt_of_get hea0] at this
  have hqr : er.partial_ = ((er0.children_.map (albumWeight h0 pl)).sum : Nat) := by
    have := (hp r).2 hTr
    rwa [partialAt_of_get her, childrenAt_of_get her0] at this
  have wa := hwf.entry hea0
  have wr := hwf.entry her0
  have hys : inPlaylist pl s = true := by simp [inPlaylist, hin]
  have hns := inPlaylist_filter_self pl s
  have hk := countP_flip_one wa.1 hsa (p := inPlaylist (pl.filter (fun x => decide (x ≠ s))))
    (q := inPlaylist pl) (fun x _ hx => (inPlaylist_filter_of_ne pl hx).symm) hns
  rw [hys, if_pos rfl] at hk
  have hk' : ea0.children_.countP (inPlaylist (pl.filter (fun x => decide (x ≠ s)))) =
      ea0.children_.countP (inPlaylist pl) - 1 := by
    rw [hk]; rfl
  have hk1 : 1 ≤ ea0.children_.countP (inPlaylist pl) := by
    rw [hk]; exact Nat.le_add_left 1 _
  -- the weight of the album, before and after
  have hw1 : albumWeight h0 pl a = ea0.children_.countP (inPlaylist pl) + 1 := by
    rw [albumWeight, childrenAt_of_get hea0, if_pos (Nat.pos_of_ne_zero (by omega))]
  have hw2 : albumWeight h0 (pl.filter (fun x => decide (x ≠ s))) a =
      ea0.children_.countP (inPlaylist pl) - 1 +
        (if 0 < ea0.children_.countP (inPlaylist pl) - 1 then 1 else 0) := by
    rw [albumWeight, childrenAt_of_get hea0, hk']
  have hm := sum_map_flip_one wr.1 har (f := albumWeight h0 pl)
    (g := albumWeight h0 (pl.filter (fun x => decide (x ≠ s))))
    (fun x _ hx => by
      apply albumWeight_congr
      intro c hcx
      apply inPlaylist_filter_of_ne
      rintro rfl
      have := hwf.parent_of_mem_children hcx
      rw [parentAt_of_get hes0, hps0] at this
      exact hx (Option.some.inj this).symm)
  have hle := le_sum_map har (albumWeight h0 pl)
  rw [hw1] at hle
  rw [hw1, hw2] at hm
  have hexact := RemovedFromPlaylist_song f h s a r es ea er hes (hps.trans hps0) hea
    (hpa.trans hpa0) her (hpr.trans hpr0) (hts.trans hts0) hcs
  rw [hexact] at hrun
  have hh' := Option.some.inj hrun
  subst hh'
  have hget := Heap.get_set3 h s a r es ea er es.decCount ea.decCount.decPartial
    (rootAfterChildRemoved ea er).decPartial hes hea her
  apply PartialFollow.update_partial hwf hp (s := s) (a := a) (r := r)
    (by rw [parentAt_of_get hes0, hps0]) (by rw [parentAt_of_get hea0, hpa0])
    (fun c hcs => inPlaylist_filter_of_ne pl hcs)
  · intro j ja jr
    simp only [partialAt, hget j, if_neg ja, if_neg jr]
    by_cases js : j = s
    · subst js
      simp only [if_true, hes, Option.map_some', Option.getD_some, LibraryEntry.decCount_partial]
    · simp only [if_neg js]
  · simp only [partialAt, hget a, if_neg har_ne, if_true, Option.map_some', Option.getD_some,
      LibraryEntry.decCount_partial, LibraryEntry.decPartial_partial]
    rw [hqa, childrenAt_of_get hea0, hk', if_pos (by exact_mod_cast hk1)]
    rw [Nat.cast_sub hk1]
    rfl
  · simp only [partialAt, hget r, if_true, Option.map_some', Option.getD_some,
      childrenAt_of_get her0, LibraryEntry.decPartial_partial]
    exact partial_removed_arith _ _ _ hk1 hle hm ea.decCount.childrenInPlaylist_
      (by rw [LibraryEntry.decCount_count, hca])
      (rootAfterChildRemoved ea er).partial_
      (by rw [ rootAfterChildRemoved_partial, hqr])
  · exact hTa
  · exact hTr

theorem PartialFollow.zero_start {h : Heap} (hz : AllZero h) : PartialFollow h h [] := by
  have hzero : ∀ i, partialAt h i = 0 := by
    intro i
    cases hi : h[i]? with
    | none => simp [partialAt, hi]
    | some e =>
      rw [partialAt_of_get hi]
      exact (hz e (List.getElem?_mem hi)).2
  have hcount : ∀ i, (childrenAt h i).countP (inPlaylist []) = 0 := by
    intro i
    rw [List.countP_eq_zero]; intro c _; simp [inPlaylist]
  intro i
  refine ⟨fun _ => ?_, fun _ => ?_⟩
  · rw [hzero, hcount]; rfl
  · rw [hzero]
    have : ((childrenAt h i).map (albumWeight h [])).sum = 0 := by
      rw [List.sum_eq_zero]
      intro x hx
      rw [List.mem_map] at hx
      obtain ⟨a, -, rfl⟩ := hx
      simp [albumWeight, hcount]
    rw [this]; rfl

/-- A disciplined sequence of calls runs to the end with three levels of call
depth and keeps both counters following the playlist. -/
theorem runCalls_follow_partial {h0 : Heap} (hwf : WellFormed h0) (hfit : PartialFits h0)
    (f : Nat) :
    ∀ (cs : List Call) (h : Heap) (pl : List Nat), SameShape h0 h → CountsFollow h0 h pl →
      PartialFollow h0 h pl → Disciplined h0 pl cs →
      ∃ h', runCalls (f + 3) h cs = some h' ∧ PartialFollow h0 h' (playlistAfter pl cs) := by
  intro cs
  induction cs with
  | nil => intro h pl _ _ hp _; exact ⟨h, rfl, hp⟩
  | cons c cs ih =>
    intro h pl hsh hc hp hd
    cases c with
    | Added s =>
      obtain ⟨hs, hnot, hrest⟩ := hd
      obtain ⟨h1, hrun, hsh1, hc1⟩ := hc.added hwf hsh hs hnot f
      have hp1 := hp.added_partial hwf hfit hsh hc hs hnot f h1 hrun
      obtain ⟨h', hrun', hp'⟩ := ih h1 (s :: pl) hsh1 hc1 hp1 hrest
      refine ⟨h', ?_, hp'⟩
      simp only [runCalls, Call.apply, hrun]
      exact hrun'
    | Removed s =>
      obtain ⟨hs, hin, hrest⟩ := hd
      obtain ⟨h1, hrun, hsh1, hc1⟩ := hc.removed hwf hsh hs hin f
      have hp1 := hp.removed_partial hwf hsh hc hs hin f h1 hrun
      obtain ⟨h', hrun', hp'⟩ := ih h1 _ hsh1 hc1 hp1 hrest
      refine ⟨h', ?_, hp'⟩
      simp only [runCalls, Call.apply, hrun]
      exact hrun'
    | AddPartial i => exact absurd hd (fun h => h)
    | RemovePartial i => exact absurd hd (fun h => h)

/-! ### Descendant Songs -/

theorem mem_descendantSongs_album {h : Heap} (hwf : WellFormed h) {i : Nat}
    (hi : typeAt h i = some .AlbumType) (s : Nat) :
    s ∈ descendantSongs h i ↔ s ∈ childrenAt h i := by
  simp only [descendantSongs, List.mem_filter, List.mem_append, List.mem_flatMap,
    decide_eq_true_eq]
  constructor
  · rintro ⟨hs | ⟨c, hc, hsc⟩, -⟩
    · exact hs
    · rw [hwf.children_of_song (hwf.child_of_album hi hc)] at hsc
      simp at hsc
  · intro hs
    exact ⟨Or.inl hs, hwf.child_of_album hi hs⟩

theorem mem_descendantSongs_artist {h : Heap} (hwf : WellFormed h) {i : Nat}
    (hi : typeAt h i = some .ArtistType) (s : Nat) :
    s ∈ descendantSongs h i ↔ ∃ a ∈ childrenAt h i, s ∈ childrenAt h a := by
  simp only [descendantSongs, List.mem_filter, List.mem_append, List.mem_flatMap,
    decide_eq_true_eq]
  constructor
  · rintro ⟨hs | hs, hty⟩
    · rw [hwf.child_of_artist hi hs] at hty
      cases hty
    · exact hs
  · rintro ⟨a, ha, hs⟩
    exact ⟨Or.inr ⟨a, ha, hs⟩, hwf.child_of_album (hwf.child_of_artist hi ha) hs⟩

theorem countP_flatMap_sum (p : Nat → Bool) (ch : Nat → List Nat) (l : List Nat) :
    (l.flatMap ch).countP p = (l.map (fun a => (ch a).countP p)).sum := by
  induction l with
  | nil => rfl
  | cons x xs ih =>
    rw [List.flatMap_cons, List.countP_append, ih, List.map_cons, List.sum_cons]

theorem descendantSongs_artist {h : Heap} (hwf : WellFormed h) {i : Nat}
    (hi : typeAt h i = some .ArtistType) :
    descendantSongs h i = (childrenAt h i).flatMap (childrenAt h) := by
  unfold descendantSongs
  rw [List.filter_append]
  have h1 : (childrenAt h i).filter (fun s => decide (typeAt h s = some .SongType)) = [] := by
    rw [List.filter_eq_nil_iff]
    intro a ha
    rw [hwf.child_of_artist hi ha]
    decide
  have h2 : ((childrenAt h i).flatMap (childrenAt h)).filter
      (fun s => decide (typeAt h s = some .SongType)) =
      (childrenAt h i).flatMap (childrenAt h) := by
    rw [List.filter_eq_self]
    intro s hs
    rw [List.mem_flatMap] at hs
    obtain ⟨a, ha, hsa⟩ := hs
    rw [hwf.child_of_album (hwf.child_of_artist hi ha) hsa]
    decide
  rw [h1, h2, List.nil_append]

theorem sum_albumWeight (h : Heap) (pl : List Nat) (l : List Nat) :
    (l.map (albumWeight h pl)).sum =
      (l.map (fun a => (childrenAt h a).countP (inPlaylist pl))).sum +
        l.countP (fun a => (childrenAt h a).any (inPlaylist pl)) := by
  induction l with
  | nil => rfl
  | cons x xs ih =>
    rw [List.map_cons, List.sum_cons, List.map_cons, List.sum_cons, List.countP_cons, ih]
    have hx : ((childrenAt h x).any (inPlaylist pl) = true) ↔
        0 < (childrenAt h x).countP (inPlaylist pl) := by
      rw [List.countP_pos_iff, List.any_eq_true]
    unfold albumWeight
    by_cases hpos : 0 < (childrenAt h x).countP (inPlaylist pl)
    · rw [if_pos hpos, if_pos (hx.2 hpos)]
      omega
    · rw [if_neg hpos, if_neg (fun hh => hpos (hx.1 hh))]
      omega

/-! ### The claim about the exact value of `partial_` -/

/-- C16: in a library tree Artist -> Album -> Song with all counters zero
(and no Artist with more than `INT32_MAX` Albums and Songs together), after
every sequence of calls in which `AddedToPlaylist` is called only on an
absent Song and `RemovedFromPlaylist` only on a present one, the sequence
runs to its end, every Album has `partial_` equal to the number of its Songs
in the playlist, every Artist has `partial_` equal to the number of its
descendant Songs in the playlist plus the number of its Albums with at least
one Song in the playlist, and for both `partial_ > 0` holds iff some
descendant Song is in the playlist. -/
theorem partial_counts_present_songs (h : Heap) (cs : List Call) (f : Nat)
    (hwf : WellFormed h) (hz : AllZero h) (hfit : PartialFits h)
    (hd : Disciplined h [] cs) :
    ∃ h', runCalls (f + 3) h cs = some h' ∧
      ∀ i : Nat,
        (typeAt h i = some .AlbumType →
          partialAt h' i =
            ((childrenAt h i).countP (inPlaylist (playlistAfter [] cs)) : Nat)) ∧
        (typeAt h i = some .ArtistType →
          partialAt h' i =
            (((descendantSongs h i).countP (inPlaylist (playlistAfter [] cs)) +
              (childrenAt h i).countP
                (fun a => (childrenAt h a).any (inPlaylist (playlistAfter [] cs))) : Nat) : Int)) ∧
        (typeAt h i = some .AlbumType ∨ typeAt h i = some .ArtistType →
          (0 < partialAt h' i ↔ ∃ s ∈ descendantSongs h i, s ∈ playlistAfter [] cs)) := by
  obtain ⟨h', hrun, hp⟩ := runCalls_follow_partial hwf hfit f cs h [] (SameShape.refl h)
    (CountsFollow.of_allZero hz) (PartialFollow.zero_start hz) hd
  have halbum : ∀ i, typeAt h i = some .AlbumType →
      (0 < partialAt h' i ↔ ∃ s ∈ descendantSongs h i, s ∈ playlistAfter [] cs) := by
    intro i hi
    rw [(hp i).1 hi, Nat.cast_pos, List.countP_pos_iff]
    constructor
    · rintro ⟨s, hs, hin⟩
      exact ⟨s, (mem_descendantSongs_album hwf hi s).2 hs, by simpa [inPlaylist] using hin⟩
    · rintro ⟨s, hs, hin⟩
      exact ⟨s, (mem_descendantSongs_album hwf hi s).1 hs, by simpa [inPlaylist] using hin⟩
  have hartist : ∀ i, typeAt h i = some .ArtistType →
      partialAt h' i =
        (((descendantSongs h i).countP (inPlaylist (playlistAfter [] cs)) +
          (childrenAt h i).countP
            (fun a => (childrenAt h a).any (inPlaylist (playlistAfter [] cs))) : Nat) : Int) := by
    intro i hi
    rw [(hp i).2 hi, sum_albumWeight, descendantSongs_artist hwf hi, countP_flatMap_sum]
  refine ⟨h', hrun, fun i => ⟨(hp i).1, hartist i, ?_⟩⟩
  rintro (hi | hi)
  · exact halbum i hi
  · rw [hartist i hi, Nat.cast_pos]
    constructor
    · intro hpos
      by_cases hfirst : 0 < (descendantSongs h i).countP (inPlaylist (playlistAfter [] cs))
      · rw [List.countP_pos_iff] at hfirst
        obtain ⟨s, hs, hin⟩ := hfirst
        exact ⟨s, hs, by simpa [inPlaylist] using hin⟩
      · have hsecond : 0 < (childrenAt h i).countP
            (fun a => (childrenAt h a).any (inPlaylist (playlistAfter [] cs))) := by omega
        rw [List.countP_pos_iff] at hsecond
        obtain ⟨a, ha, hany⟩ := hsecond
        rw [List.any_eq_true] at hany
        obtain ⟨s, hs, hin⟩ := hany
        exact ⟨s, (mem_descendantSongs_artist hwf hi s).2 ⟨a, ha, hs⟩,
          by simpa [inPlaylist] using hin⟩
    · rintro ⟨s, hs, hin⟩
      have : 0 < (descendantSongs h i).countP (inPlaylist (playlistAfter [] cs)) := by
        rw [List.countP_pos_iff]
        exact ⟨s, hs, by simpa [inPlaylist] using hin⟩
      omega

/-- Witness for C16: both tracks of the example album added, then track1
removed; the Album ends with `partial_ = 1` and the Artist with `partial_ = 2`. -/
theorem partial_counts_present_songs_witness :
    (WellFormed exampleLibrary ∧ AllZero exampleLibrary ∧ PartialFits exampleLibrary ∧
      Disciplined exampleLibrary [] [Call.Added 2, Call.Added 3, Call.Removed 2]) ∧
    (runCalls 3 exampleLibrary [Call.Added 2, Call.Added 3, Call.Removed 2]).map
        (fun h' => (partialAt h' 1, partialAt h' 0)) = some (1, 2) ∧
    ∃ h', runCalls (0 + 3) exampleLibrary [Call.Added 2, Call.Added 3, Call.Removed 2] = some h' ∧
      ∀ i : Nat,
        (typeAt exampleLibrary i = some .AlbumType →
          partialAt h' i = ((childrenAt exampleLibrary i).countP
            (inPlaylist (playlistAfter [] [Call.Added 2, Call.Added 3, Call.Removed 2])) : Nat)) ∧
        (typeAt exampleLibrary i = some .ArtistType →
          partialAt h' i =
            (((descendantSongs exampleLibrary i).countP
                (inPlaylist (playlistAfter [] [Call.Added 2, Call.Added 3, Call.Removed 2])) +
              (childrenAt exampleLibrary i).countP
                (fun a => (childrenAt exampleLibrary a).any
                  (inPlaylist (playlistAfter [] [Call.Added 2, Call.Added 3, Call.Removed 2]))) :
              Nat) : Int)) ∧
        (typeAt exampleLibrary i = some .AlbumType ∨
            typeAt exampleLibrary i = some .ArtistType →
          (0 < partialAt h' i ↔ ∃ s ∈ descendantSongs exampleLibrary i,
            s ∈ playlistAfter [] [Call.Added 2, Call.Added 3, Call.Removed 2])) :=
  ⟨by decide, by decide, partial_counts_present_songs exampleLibrary
    [Call.Added 2, Call.Added 3, Call.Removed 2] 0 (by decide) (by decide) (by decide)
    (by decide)⟩

/-! ## The select window -/

namespace SelectWindow

variable {β : Type}

theorem scrollTo_currentLine (sw : ScrollWindow β) (n l : Nat) (w : SelectWindow β) :
    (ScrollTo sw n l w).currentLine_ =
      (LimitCurrentSelection n { w with currentLine_ := (l : Int) }).currentLine_ := by
  simp only [ScrollTo]
  split_ifs <;> simp only

theorem scroll_currentLine (sw : ScrollWindow β) (n : Nat) (c : Int) (w : SelectWindow β) :
    (Scroll sw n c w).currentLine_ =
      (LimitCurrentSelection n { w with currentLine_ := w.currentLine_ + c }).currentLine_ := by
  simp only [Scroll]
  split_ifs <;> simp only

theorem scroll_currentSelection (sw : ScrollWindow β) (n : Nat) (c : Int) (w : SelectWindow β) :
    (Scroll sw n c w).currentSelection_ =
      (LimitCurrentSelection n { w with currentLine_ := w.currentLine_ + c }).currentSelection_ := by
  simp only [Scroll]
  split_ifs <;> simp only

end SelectWindow

/-- C8: `IsSelected(line)` holds exactly when `line` lies between the smaller
and the larger of the two ends of `currentSelection_` (inclusive), and swapping
anchor and cursor does not change which lines are selected. -/
theorem SelectWindow.isSelected_iff_between {β : Type} (w : SelectWindow β) (line : Nat) :
    (w.IsSelected line = true ↔
      min w.currentSelection_.1 w.currentSelection_.2 ≤ (line : Int) ∧
      (line : Int) ≤ max w.currentSelection_.1 w.currentSelection_.2) ∧
    SelectWindow.IsSelected { w with currentSelection_ := (w.currentSelection_.2, w.currentSelection_.1) } line
      = w.IsSelected line := by
  constructor
  · simp only [SelectWindow.IsSelected, Bool.or_eq_true, Bool.and_eq_true, decide_eq_true_eq]
    omega
  · simp only [SelectWindow.IsSelected]
    rw [Bool.eq_iff_iff]
    simp only [Bool.or_eq_true, Bool.and_eq_true, decide_eq_true_eq]
    omega

/-- C10: for a content of `n >= 1` lines (with `n` in the `int32_t` range the
code casts `BufferSize()` to), `Scroll(delta)` sets the cursor to
`clamp(currentLine_ + delta, 0, n - 1)`; with visual mode off the selection
becomes `(currentLine_, currentLine_)`, with visual mode on the anchor is kept
and the cursor end of the selection becomes `currentLine_`. -/
theorem SelectWindow.scroll_clamps_cursor {β : Type} (sw : ScrollWindow β) (n : Nat) (delta : Int)
    (w : SelectWindow β) (hn : 1 ≤ n) (hmax : (n : Int) ≤ INT32_MAX) :
    (w.Scroll sw n delta).currentLine_ = max 0 (min (w.currentLine_ + delta) ((n : Int) - 1)) ∧
    (w.visualMode_ = false →
      (w.Scroll sw n delta).currentSelection_ =
        ((w.Scroll sw n delta).currentLine_, (w.Scroll sw n delta).currentLine_)) ∧
    (w.visualMode_ = true →
      (w.Scroll sw n delta).currentSelection_.1 = w.currentSelection_.1 ∧
      (w.Scroll sw n delta).currentSelection_.2 = (w.Scroll sw n delta).currentLine_) := by
  have hcast : toInt32 (n : Int) = (n : Int) := by
    apply toInt32_of_range <;> simp only [INT32_MAX] at hmax <;> omega
  rw [SelectWindow.scroll_currentLine, SelectWindow.scroll_currentSelection]
  simp only [SelectWindow.LimitCurrentSelection, hcast]
  refine ⟨?_, ?_, ?_⟩
  · split_ifs <;> omega
  · intro hv; simp [hv]
  · intro hv; simp [hv]

/-- Witness for C10: ten lines of content, cursor on line 4, `Scroll(9)`. -/
theorem SelectWindow.scroll_clamps_cursor_witness :
    (1 ≤ 10 ∧ ((10 : Nat) : Int) ≤ INT32_MAX) ∧
    (SelectWindow.Scroll idleScrollWindow 10 9
        { (SelectWindow.init ()) with currentLine_ := 4 }).currentLine_ = 9 := by
  have h := SelectWindow.scroll_clamps_cursor idleScrollWindow 10 9
    { (SelectWindow.init ()) with currentLine_ := 4 } (by decide) (by decide)
  exact ⟨by decide, by rw [h.1]; decide⟩

/-! ### Visual mode and the remembered selection -/

/-- C13: `Visual()` flips the mode, sets the anchor (`currentSelection_.first`)
to `currentLine_` and sets `hadSelection_`; called in Normal mode it leaves
`lastSelection_` unchanged, called in Visual mode it stores the selection held
just before the call into `lastSelection_`. -/
theorem SelectWindow.visual_toggles {β : Type} (w : SelectWindow β) :
    (w.Visual).visualMode_ = (!w.visualMode_) ∧
    (w.Visual).currentSelection_.1 = w.currentLine_ ∧
    (w.Visual).currentSelection_.2 = w.currentSelection_.2 ∧
    (w.Visual).currentLine_ = w.currentLine_ ∧
    (w.Visual).hadSelection_ = true ∧
    (w.Visual).lastSelection_ =
      (if w.visualMode_ = true then w.currentSelection_ else w.lastSelection_) := by
  cases hv : w.visualMode_ <;> simp [SelectWindow.Visual, SelectWindow.UpdateLastSelection, hv]

/-- C18: `SelectWindow::Scroll(delta)` leaves the base window alone when the
clamped new cursor lies in `[scrollLine_ - MaxRows, scrollLine_)`, and
otherwise forwards `delta` once to `ScrollWindow::Scroll`. -/
theorem SelectWindow.scroll_forwards_outside_window {β : Type} (sw : ScrollWindow β) (n : Nat)
    (delta : Int) (w : SelectWindow β) :
    (w.Scroll sw n delta).base =
      (if sw.scrollLine_ w.base - sw.MaxRows w.base ≤ (w.Scroll sw n delta).currentLine_ ∧
          (w.Scroll sw n delta).currentLine_ < sw.scrollLine_ w.base
        then w.base else sw.Scroll n delta w.base) := by
  rw [SelectWindow.scroll_currentLine]
  simp only [SelectWindow.Scroll]
  have hb : (SelectWindow.LimitCurrentSelection n
      { w with currentLine_ := w.currentLine_ + delta }).base = w.base := rfl
  rw [hb]
  split_ifs with h1 h2 h2
  · exfalso; omega
  · rfl
  · rfl
  · exfalso; omega

/-! ### Commit operations -/

theorem SelectWindow.limit_of_inside {β : Type} (n : Nat) (w : SelectWindow β)
    (hn : (n : Int) ≤ INT32_MAX) (h0 : 0 ≤ w.currentLine_) (h1 : w.currentLine_ < (n : Int)) :
    (SelectWindow.LimitCurrentSelection n w).currentLine_ = w.currentLine_ := by
  have hcast : toInt32 (n : Int) = (n : Int) := by
    apply toInt32_of_range <;> simp only [INT32_MAX] at hn <;> omega
  simp only [SelectWindow.LimitCurrentSelection, hcast]
  split_ifs <;> omega

/-- C11: when the cursor is on the row just above `LastLine()` and `ScrollTo`
requests the line `LastLine()` (inside the content, whose size is in the
`int32_t` range the code casts it to), the cursor moves to that line and the
base window is advanced by `ScrollWindow::Scroll(1)`; with the base class as
in the spec, `contentSize = 100`, `visibleRows = 20` and `topLine = 10`, moving
the cursor from line 29 to line 30 leaves `topLine = 11`. -/
theorem SelectWindow.scrollTo_smooth_down :
    (∀ (β : Type) (sw : ScrollWindow β) (n l : Nat) (w : SelectWindow β),
      (n : Int) ≤ INT32_MAX → l < n → (l : Int) = sw.LastLine w.base →
      w.currentLine_ = sw.LastLine w.base - 1 →
      (w.ScrollTo sw n l).base = sw.Scroll n 1 w.base ∧ (w.ScrollTo sw n l).currentLine_ = (l : Int)) ∧
    (SelectWindow.ScrollTo specScrollWindow 100 30
        { SelectWindow.init { topLine := 10, visibleRows := 20 } with
          currentLine_ := 29, currentSelection_ := (29, 29) }).base.topLine = 11 ∧
    (SelectWindow.ScrollTo specScrollWindow 100 30
        { SelectWindow.init { topLine := 10, visibleRows := 20 } with
          currentLine_ := 29, currentSelection_ := (29, 29) }).currentLine_ = 30 := by
  refine ⟨?_, by decide, by decide⟩
  intro β sw n l w hn hl hlast hcur
  have hlim : (SelectWindow.LimitCurrentSelection n { w with currentLine_ := (l : Int) }).currentLine_
      = (l : Int) :=
    SelectWindow.limit_of_inside n _ hn (by simp) (by simp only; omega)
  have hbase : (SelectWindow.LimitCurrentSelection n { w with currentLine_ := (l : Int) }).base
      = w.base := by
    simp only [SelectWindow.LimitCurrentSelection]
  refine ⟨?_, by rw [SelectWindow.scrollTo_currentLine, hlim]⟩
  simp only [SelectWindow.ScrollTo, hlim, hbase]
  rw [if_pos ⟨hlast, by omega⟩]

/-- Witness for C11: the window of the spec's example, rows 10 to 29 of 100
lines, cursor on line 29, `ScrollTo(30)`. -/
theorem SelectWindow.scrollTo_smooth_down_witness :
    (((100 : Nat) : Int) ≤ INT32_MAX ∧ 30 < 100 ∧
      ((30 : Nat) : Int) = specScrollWindow.LastLine { topLine := 10, visibleRows := 20 }) ∧
    (SelectWindow.ScrollTo specScrollWindow 100 30
        { SelectWindow.init { topLine := 10, visibleRows := 20 } with
          currentLine_ := 29, currentSelection_ := (29, 29) }).base
      = specScrollWindow.Scroll 100 1 { topLine := 10, visibleRows := 20 } :=
  ⟨by decide, (SelectWindow.scrollTo_smooth_down.1 ScrollRegion specScrollWindow 100 30
    { SelectWindow.init { topLine := 10, visibleRows := 20 } with
      currentLine_ := 29, currentSelection_ := (29, 29) }
    (by decide) (by decide) (by decide) (by decide)).1⟩

/-- C17 (the code at the failing input): in a window showing rows 10 to 29 of
100 lines (`scrollLine_ = 30`, `MaxRows() = 20`) with the cursor on the first
visible row 10, `ScrollTo(9)` calls `ScrollWindow::ScrollTo(9)` and not
`ScrollWindow::Scroll(-1)`; the call `ScrollWindow::Scroll(-1)` is made one row
earlier, when the cursor moves from row 11 onto the first visible row 10. -/
theorem SelectWindow.scrollTo_up_from_first_row :
    (SelectWindow.ScrollTo (recordingScrollWindow 30 30 20) 100 9
        { SelectWindow.init [] with currentLine_ := 10, currentSelection_ := (10, 10) }).base
      = [BaseCall.ScrollTo 9] ∧
    (SelectWindow.ScrollTo (recordingScrollWindow 30 30 20) 100 10
        { SelectWindow.init [] with currentLine_ := 11, currentSelection_ := (11, 11) }).base
      = [BaseCall.Scroll (-1)] ∧
    (SelectWindow.ScrollTo (recordingScrollWindow 30 30 20) 100 30
        { SelectWindow.init [] with currentLine_ := 29, currentSelection_ := (29, 29) }).base
      = [BaseCall.Scroll 1] := by
  decide

/-! ### `ResetSelection` -/

/-- C12 (as stated, refuted): after a visual selection from line 50 up to line
3 in 100 lines of content and `Escape()`, with the content shrunk to 10 lines
`ResetSelection()` re-enters visual mode with the anchor 50 outside the
content; and with 100000 lines of content a remembered selection on line 70000
is restored with the cursor on line 4464 (`70000 mod 65536`). -/
theorem SelectWindow.resetSelection_counterexample :
    ((runWindow idleScrollWindow 100 (SelectWindow.init ())
        [WindowOp.Scroll 50, WindowOp.Visual, WindowOp.Scroll (-47), WindowOp.Escape]).lastSelection_
      = (50, 3) ∧
     (SelectWindow.ResetSelection idleScrollWindow 10
        (runWindow idleScrollWindow 100 (SelectWindow.init ())
          [WindowOp.Scroll 50, WindowOp.Visual, WindowOp.Scroll (-47), WindowOp.Escape])).visualMode_
      = true ∧
     (SelectWindow.ResetSelection idleScrollWindow 10
        (runWindow idleScrollWindow 100 (SelectWindow.init ())
          [WindowOp.Scroll 50, WindowOp.Visual, WindowOp.Scroll (-47), WindowOp.Escape])).currentSelection_
      = (50, 3)) ∧
    ((runWindow idleScrollWindow 100000 (SelectWindow.init ())
        [WindowOp.Scroll 70000, WindowOp.Visual, WindowOp.Escape]).lastSelection_ = (70000, 70000) ∧
     (SelectWindow.ResetSelection idleScrollWindow 100000
        (runWindow idleScrollWindow 100000 (SelectWindow.init ())
          [WindowOp.Scroll 70000, WindowOp.Visual, WindowOp.Escape])).currentLine_ = 4464 ∧
     (SelectWindow.ResetSelection idleScrollWindow 100000
        (runWindow idleScrollWindow 100000 (SelectWindow.init ())
          [WindowOp.Scroll 70000, WindowOp.Visual, WindowOp.Escape])).currentSelection_
      = (70000, 4464)) := by
  decide

/-- C12 (amended): if a visual selection was made before, both remembered
endpoints lie in `[0, BufferSize)` and the remembered cursor end is below
65536 (the range of the `uint16_t` argument of `ScrollTo`; `BufferSize` in the
`int32_t` range), `ResetSelection` re-enters visual mode with
`currentSelection_ = lastSelection_` and `currentLine_ = lastSelection_.second`;
if no visual selection was made before, or the remembered anchor is negative,
or the remembered cursor end is at or beyond `BufferSize`, it leaves the whole
window unchanged. -/
theorem SelectWindow.resetSelection_restores {β : Type} (sw : ScrollWindow β) (n : Nat)
    (w : SelectWindow β) (hn : (n : Int) ≤ INT32_MAX) :
    (w.hadSelection_ = true → 0 ≤ w.lastSelection_.1 → w.lastSelection_.1 < (n : Int) →
      0 ≤ w.lastSelection_.2 → w.lastSelection_.2 < (n : Int) → w.lastSelection_.2 < 65536 →
      (w.ResetSelection sw n).visualMode_ = true ∧
      (w.ResetSelection sw n).currentSelection_ = w.lastSelection_ ∧
      (w.ResetSelection sw n).currentLine_ = w.lastSelection_.2) ∧
    ((w.hadSelection_ = false ∨ w.lastSelection_.1 < 0 ∨ (n : Int) ≤ w.lastSelection_.2) →
      w.ResetSelection sw n = w) := by
  constructor
  · intro hh h1 _ h3 h4 h5
    have hguard : w.lastSelection_.1 > -1 ∧ w.lastSelection_.2 < (n : Int) := ⟨by omega, h4⟩
    have h16 : ((toUInt16 w.lastSelection_.2 : Nat) : Int) = w.lastSelection_.2 := by
      unfold toUInt16
      rw [Int.toNat_of_nonneg (by omega)]
      omega
    simp only [SelectWindow.ResetSelection, hh, if_true, if_pos hguard]
    have hlim : (SelectWindow.LimitCurrentSelection n
        { base := w.base, visualMode_ := true, hadSelection_ := w.hadSelection_,
          currentLine_ := ((toUInt16 w.lastSelection_.2 : Nat) : Int),
          currentSelection_ := w.lastSelection_, lastSelection_ := w.lastSelection_ }).currentLine_
        = w.lastSelection_.2 := by
      rw [SelectWindow.limit_of_inside n _ hn (by simp only; omega) (by simp only; omega)]
      exact h16
    have hsel : (SelectWindow.LimitCurrentSelection n
        { base := w.base, visualMode_ := true, hadSelection_ := w.hadSelection_,
          currentLine_ := ((toUInt16 w.lastSelection_.2 : Nat) : Int),
          currentSelection_ := w.lastSelection_, lastSelection_ := w.lastSelection_ }).currentSelection_
        = w.lastSelection_ := by
      have := hlim
      simp only [SelectWindow.LimitCurrentSelection] at this ⊢
      rw [this]
      simp
    have hvis : (SelectWindow.LimitCurrentSelection n
        { base := w.base, visualMode_ := true, hadSelection_ := w.hadSelection_,
          currentLine_ := ((toUInt16 w.lastSelection_.2 : Nat) : Int),
          currentSelection_ := w.lastSelection_, lastSelection_ := w.lastSelection_ }).visualMode_
        = true := by
      simp only [SelectWindow.LimitCurrentSelection]
    refine ⟨?_, ?_, ?_⟩
    · simp only [SelectWindow.ScrollTo]
      split_ifs <;> exact hvis
    · simp only [SelectWindow.ScrollTo]
      split_ifs <;> exact hsel
    · rw [SelectWindow.scrollTo_currentLine]
      exact hlim
  · intro hcase
    simp only [SelectWindow.ResetSelection]
    rcases hcase with h | h | h
    · simp [h]
    · rw [if_neg (by omega : ¬ (w.lastSelection_.1 > -1 ∧ w.lastSelection_.2 < (n : Int)))]
      simp
    · rw [if_neg (by omega : ¬ (w.lastSelection_.1 > -1 ∧ w.lastSelection_.2 < (n : Int)))]
      simp

/-- Witness for C12 (amended): a visual selection from line 2 to line 5 in ten
lines of content, left with `Escape()`, is restored. -/
theorem SelectWindow.resetSelection_restores_witness :
    ((10 : Nat) : Int) ≤ INT32_MAX ∧
    (SelectWindow.ResetSelection idleScrollWindow 10
      (runWindow idleScrollWindow 10 (SelectWindow.init ())
        [WindowOp.Scroll 2, WindowOp.Visual, WindowOp.Scroll 3, WindowOp.Escape])).visualMode_ = true ∧
    (SelectWindow.ResetSelection idleScrollWindow 10
      (runWindow idleScrollWindow 10 (SelectWindow.init ())
        [WindowOp.Scroll 2, WindowOp.Visual, WindowOp.Scroll 3, WindowOp.Escape])).currentSelection_
      = (2, 5) := by
  have h := (SelectWindow.resetSelection_restores idleScrollWindow 10
    (runWindow idleScrollWindow 10 (SelectWindow.init ())
      [WindowOp.Scroll 2, WindowOp.Visual, WindowOp.Scroll 3, WindowOp.Escape]) (by decide)).1
    (by decide) (by decide) (by decide) (by decide) (by decide) (by decide)
  exact ⟨by decide, h.1, by rw [h.2.1]; decide⟩

theorem Settings.lookup_map_other (x : List Char) (v : Bool) (y : List Char) (hy : y ≠ x)
    (table : List (List Char × Bool)) :
    (table.map (fun kv => if kv.1 = x then (kv.1, v) else kv)).lookup y = table.lookup y := by
  induction table with
  | nil => rfl
  | cons kv rest ih =>
    obtain ⟨k, b⟩ := kv
    by_cases hk : k = x
    · subst hk
      have hyk : (y == k) = false := by simpa using hy
      simp only [List.map_cons, if_true, List.lookup_cons, hyk, ih]
    · by_cases hyk : y = k
      · subst hyk
        simp only [List.map_cons, if_neg hk, List.lookup_cons, beq_self_eq_true]
      · have hyk' : (y == k) = false := by simpa using hyk
        simp only [List.map_cons, if_neg hk, List.lookup_cons, hyk', ih]

theorem Settings.setToggle_get_other {W : Type} (st : Settings W) (x : List Char) (v : Bool)
    (y : List Char) (hy : y ≠ x) : (st.setToggle x v).Get y = st.Get y :=
  Settings.lookup_map_other x v y hy st.toggleTable_

/-! ### The four forms of a toggle command -/

/-- The result of `Set` on the four forms of a toggle command, for a state
with the five built-in toggles. -/
theorem Settings.set_forms_eq {W : Type} (getWindowFromName : List Char → W) (window : W)
    (a h s q w : Bool) (x : List Char) (hx : x ∈ toggleNames) :
    (∃ v, (Settings.ofValues window a h s q w).Get x = some v ∧
      (Settings.ofValues window a h s q w).setToggle x v = Settings.ofValues window a h s q w ∧
      (∀ b, ((Settings.ofValues window a h s q w).setToggle x b).Get x = some b) ∧
      (∀ b, Settings.Set getWindowFromName ((Settings.ofValues window a h s q w).setToggle x b)
          (x ++ ['!']) =
        { settings := (Settings.ofValues window a h s q w).setToggle x (!b), error := none }) ∧
      (∀ b, Settings.Set getWindowFromName ((Settings.ofValues window a h s q w).setToggle x b)
          (['n', 'o'] ++ x ++ ['!']) =
        { settings := (Settings.ofValues window a h s q w).setToggle x (!b), error := none })) ∧
    Settings.Set getWindowFromName (Settings.ofValues window a h s q w) x =
      { settings := (Settings.ofValues window a h s q w).setToggle x true, error := none } ∧
    Settings.Set getWindowFromName (Settings.ofValues window a h s q w) (['n', 'o'] ++ x) =
      { settings := (Settings.ofValues window a h s q w).setToggle x false, error := none } := by
  simp only [toggleNames, List.mem_cons, List.mem_singleton, List.not_mem_nil, or_false] at hx
  rcases hx with rfl | rfl | rfl | rfl | rfl
  · exact ⟨⟨a, rfl, rfl, fun _ => rfl, fun _ => rfl, fun _ => rfl⟩, rfl, rfl⟩
  · exact ⟨⟨h, rfl, rfl, fun _ => rfl, fun _ => rfl, fun _ => rfl⟩, rfl, rfl⟩
  · exact ⟨⟨s, rfl, rfl, fun _ => rfl, fun _ => rfl, fun _ => rfl⟩, rfl, rfl⟩
  · exact ⟨⟨q, rfl, rfl, fun _ => rfl, fun _ => rfl, fun _ => rfl⟩, rfl, rfl⟩
  · exact ⟨⟨w, rfl, rfl, fun _ => rfl, fun _ => rfl, fun _ => rfl⟩, rfl, rfl⟩

theorem Settings.touchesOnly_setToggle {W : Type} (st : Settings W) (x : List Char) (v : Bool) :
    Settings.TouchesOnly st x { settings := st.setToggle x v, error := none } :=
  ⟨rfl, rfl, fun y hy => Settings.setToggle_get_other st x v y hy⟩

/-- C19: for each built-in toggle `x` and every settings state (any default
window, any values of the five toggles), `Set("x")` makes `x` true,
`Set("nox")` makes `x` false, `Set("x!")` and `Set("nox!")` negate `x`, and
`Set("x!")` applied twice restores the state; each of these calls raises no
error and leaves the other toggles and the default window unchanged. -/
theorem Settings.set_toggle_commands {W : Type} (getWindowFromName : List Char → W) (window : W)
    (a h s q w : Bool) (x : List Char) (hx : x ∈ toggleNames) :
    (Settings.TouchesOnly (Settings.ofValues window a h s q w) x
        (Settings.Set getWindowFromName (Settings.ofValues window a h s q w) x) ∧
      (Settings.Set getWindowFromName (Settings.ofValues window a h s q w) x).settings.Get x =
        some true) ∧
    (Settings.TouchesOnly (Settings.ofValues window a h s q w) x
        (Settings.Set getWindowFromName (Settings.ofValues window a h s q w) (['n', 'o'] ++ x)) ∧
      (Settings.Set getWindowFromName (Settings.ofValues window a h s q w)
        (['n', 'o'] ++ x)).settings.Get x = some false) ∧
    (Settings.TouchesOnly (Settings.ofValues window a h s q w) x
        (Settings.Set getWindowFromName (Settings.ofValues window a h s q w) (x ++ ['!'])) ∧
      (Settings.Set getWindowFromName (Settings.ofValues window a h s q w)
        (x ++ ['!'])).settings.Get x =
        ((Settings.ofValues window a h s q w).Get x).map (fun b => !b)) ∧
    (Settings.TouchesOnly (Settings.ofValues window a h s q w) x
        (Settings.Set getWindowFromName (Settings.ofValues window a h s q w)
          (['n', 'o'] ++ x ++ ['!'])) ∧
      (Settings.Set getWindowFromName (Settings.ofValues window a h s q w)
        (['n', 'o'] ++ x ++ ['!'])).settings.Get x =
        ((Settings.ofValues window a h s q w).Get x).map (fun b => !b)) ∧
    ((Settings.ofValues window a h s q w).Get x).isSome = true ∧
    Settings.Set getWindowFromName
        (Settings.Set getWindowFromName (Settings.ofValues window a h s q w) (x ++ ['!'])).settings
        (x ++ ['!']) =
      { settings := Settings.ofValues window a h s q w, error := none } := by
  obtain ⟨⟨v, hv, hid, hget, hT, hNT⟩, hOn, hOff⟩ :=
    Settings.set_forms_eq getWindowFromName window a h s q w x hx
  have hT0 := hT v
  have hNT0 := hNT v
  rw [hid] at hT0 hNT0
  refine ⟨⟨?_, ?_⟩, ⟨?_, ?_⟩, ⟨?_, ?_⟩, ⟨?_, ?_⟩, ?_, ?_⟩
  · rw [hOn]; exact Settings.touchesOnly_setToggle _ x true
  · rw [hOn]; exact hget true
  · rw [hOff]; exact Settings.touchesOnly_setToggle _ x false
  · rw [hOff]; exact hget false
  · rw [hT0]; exact Settings.touchesOnly_setToggle _ x _
  · rw [hT0, hv]; exact hget _
  · rw [hNT0]; exact Settings.touchesOnly_setToggle _ x _
  · rw [hNT0, hv]; exact hget _
  · rw [hv]; rfl
  · rw [hT0]
    have h2 := hT (!v)
    rw [Bool.not_not, hid] at h2
    exact h2

/-- Witness for C19: `hlsearch` in the state the constructor builds. -/
theorem Settings.set_toggle_commands_witness :
    HighlightSearchSetting ∈ toggleNames ∧
    (Settings.Set (fun _ => 0) (Settings.ofValues 1 true true true true false)
      "nohlsearch".toList).settings.Get HighlightSearchSetting = some false ∧
    (Settings.Set (fun _ => 0) (Settings.ofValues 1 true true true true false)
      "hlsearch!".toList).settings.Get HighlightSearchSetting = some false :=
  ⟨by decide,
    (Settings.set_toggle_commands (fun _ => 0) 1 true true true true false
      HighlightSearchSetting (by decide)).2.1.2,
    (Settings.set_toggle_commands (fun _ => 0) 1 true true true true false
      HighlightSearchSetting (by decide)).2.2.1.2⟩

/-! ### Names that the settings accept -/

theorem toggleNames_facts : ∀ x ∈ toggleNames,
    (∀ c ∈ x, c ≠ Char.ofNat 0) ∧ x.getLast? ≠ some '!' ∧ x ≠ [] ∧
    x ∈ acceptedSingleSettings ∧ ['n', 'o'] ++ x ∈ acceptedSingleSettings ∧
    x ++ ['!'] ∈ acceptedSingleSettings ∧ ['n', 'o'] ++ x ++ ['!'] ∈ acceptedSingleSettings := by
  decide

theorem nil_not_toggleName : ([] : List Char) ∉ toggleNames := by decide

theorem Settings.lookup_isSome_iff (k : List Char) (table : List (List Char × Bool)) :
    (table.lookup k).isSome = true ↔ k ∈ table.map Prod.fst := by
  induction table with
  | nil => simp
  | cons kv rest ih =>
    obtain ⟨k0, b⟩ := kv
    by_cases hk : k = k0
    · subst hk
      simp [List.lookup_cons]
    · have hk' : (k == k0) = false := by simpa using hk
      simp only [List.lookup_cons, hk', List.map_cons, List.mem_cons, hk, false_or]
      exact ih

theorem Settings.lookup_ofValues {W : Type} (window : W) (a h s q w : Bool) (k : List Char) :
    ((Settings.ofValues window a h s q w).toggleTable_.lookup k).isSome = true ↔
      k ∈ toggleNames :=
  Settings.lookup_isSome_iff k _

theorem Settings.c_str_append (y rest : List Char) (hy : ∀ c ∈ y, c ≠ Char.ofNat 0) :
    Settings.c_str (y ++ rest) = y ++ Settings.c_str rest := by
  unfold Settings.c_str
  exact List.takeWhile_append_of_pos (fun c hc => by simpa using hy c hc)

/-- A string whose C string ends in `!`, and whose part before the last
character has no NUL and does not end in `!`, ends in `!` itself. -/
theorem Settings.last_of_toggleCheck (y : List Char) (c : Char)
    (hy : ∀ c ∈ y, c ≠ Char.ofNat 0) (hlast : y.getLast? ≠ some '!')
    (ht : Settings.toggleCheck (Settings.c_str (y ++ [c])) = true) : c = '!' := by
  rw [Settings.c_str_append y [c] hy] at ht
  simp only [Settings.toggleCheck, decide_eq_true_eq] at ht
  by_cases hc : c = Char.ofNat 0
  · subst hc
    have : Settings.c_str [Char.ofNat 0] = [] := by decide
    rw [this, List.append_nil] at ht
    exact absurd ht hlast
  · have : Settings.c_str [c] = [c] := by
      simp [Settings.c_str, hc]
    rw [this, List.getLast?_append] at ht
    simpa using ht

theorem Settings.offCheck_c_str (setting : List Char)
    (ho : Settings.offCheck (Settings.c_str setting) = true) :
    ∃ r, setting = 'n' :: 'o' :: r := by
  have h1 : ['n', 'o'] <+: Settings.c_str setting := by
    simpa [Settings.offCheck] using ho
  have h2 : Settings.c_str setting <+: setting := List.takeWhile_prefix _
  obtain ⟨r, hr⟩ := h1.trans h2
  exact ⟨r, hr.symm⟩

theorem Settings.accepted_of_lookup {W : Type} (window : W) (a h s q w : Bool)
    (setting : List Char)
    (hacc : ((Settings.ofValues window a h s q w).toggleTable_.lookup
      (if Settings.offCheck (Settings.c_str setting) = true ∧
          ((Settings.ofValues window a h s q w).toggleTable_.lookup
            (if Settings.toggleCheck (Settings.c_str setting) = true then setting.dropLast
              else setting)).isNone
        then (if Settings.toggleCheck (Settings.c_str setting) = true then setting.dropLast
          else setting).drop 2
        else (if Settings.toggleCheck (Settings.c_str setting) = true then setting.dropLast
          else setting))).isSome = true) :
    setting ∈ acceptedSingleSettings := by
  rw [Settings.lookup_ofValues] at hacc
  by_cases ht : Settings.toggleCheck (Settings.c_str setting) = true
  · simp only [ht, if_true] at hacc
    rcases setting.eq_nil_or_concat with rfl | ⟨L, c, rfl⟩
    · exact absurd ht (by decide)
    · rw [List.concat_eq_append] at ht hacc ⊢
      rw [List.dropLast_concat] at hacc
      split_ifs at hacc with hoff
      · obtain ⟨r, hr⟩ := Settings.offCheck_c_str _ hoff.1
        match L, hr, hacc with
        | [], hr, hacc => simp at hr
        | [x], hr, hacc => exact absurd hacc nil_not_toggleName
        | x :: y :: L2, hr, hacc =>
          simp only [List.cons_append, List.cons.injEq] at hr
          obtain ⟨rfl, rfl, -⟩ := hr
          simp only [List.drop_succ_cons, List.drop_zero] at hacc
          obtain ⟨hnul, hlast, hne, -, h2, -, h4⟩ := toggleNames_facts L2 hacc
          have hc : c = '!' := by
            refine Settings.last_of_toggleCheck ('n' :: 'o' :: L2) c ?_ ?_ ht
            · intro c hc'
              simp only [List.mem_cons] at hc'
              rcases hc' with rfl | rfl | hc'
              · decide
              · decide
              · exact hnul c hc'
            · obtain ⟨z, L3, hz⟩ := List.exists_cons_of_ne_nil hne
              rw [hz] at hlast ⊢
              rw [List.getLast?_cons_cons, List.getLast?_cons_cons]
              exact hlast
          subst hc
          exact h4
      · obtain ⟨hnul, hlast, hne, -, -, h3, -⟩ := toggleNames_facts L hacc
        have hc : c = '!' := Settings.last_of_toggleCheck L c hnul hlast ht
        subst hc
        exact h3
  · simp only [ht, if_false, Bool.false_eq_true] at hacc
    split_ifs at hacc with hoff
    · obtain ⟨r, rfl⟩ := Settings.offCheck_c_str _ hoff.1
      simp only [List.drop_succ_cons, List.drop_zero] at hacc
      exact (toggleNames_facts r hacc).2.2.2.2.1
    · exact (toggleNames_facts setting hacc).2.2.2.1

theorem Settings.setSingle_accepted {W : Type} (window : W) (a h s q w : Bool)
    (x : List Char) (hx : x ∈ toggleNames) :
    (Settings.SetSingleSetting (Settings.ofValues window a h s q w) x).error = none ∧
    (Settings.SetSingleSetting (Settings.ofValues window a h s q w) (['n', 'o'] ++ x)).error =
      none ∧
    (Settings.SetSingleSetting (Settings.ofValues window a h s q w) (x ++ ['!'])).error = none ∧
    (Settings.SetSingleSetting (Settings.ofValues window a h s q w)
      (['n', 'o'] ++ x ++ ['!'])).error = none := by
  simp only [toggleNames, List.mem_cons, List.mem_singleton, List.not_mem_nil, or_false] at hx
  rcases hx with rfl | rfl | rfl | rfl | rfl <;> exact ⟨rfl, rfl, rfl, rfl⟩

theorem mem_acceptedSingleSettings (setting : List Char)
    (hs : setting ∈ acceptedSingleSettings) :
    ∃ x ∈ toggleNames, setting = x ∨ setting = ['n', 'o'] ++ x ∨ setting = x ++ ['!'] ∨
      setting = ['n', 'o'] ++ x ++ ['!'] := by
  unfold acceptedSingleSettings at hs
  rw [List.mem_flatMap] at hs
  obtain ⟨x, hx, hm⟩ := hs
  refine ⟨x, hx, ?_⟩
  simpa using hm

/-- On a state with the five built-in toggles `SetSingleSetting` raises no
error exactly on the twenty accepted inputs; when it raises an error it is
`SettingNonexistant` and the state is unchanged. -/
theorem Settings.setSingle_error {W : Type} (window : W) (a h s q w : Bool)
    (setting : List Char) :
    ((Settings.SetSingleSetting (Settings.ofValues window a h s q w) setting).error = none ↔
      setting ∈ acceptedSingleSettings) ∧
    ((Settings.SetSingleSetting (Settings.ofValues window a h s q w) setting).error ≠ none →
      (Settings.SetSingleSetting (Settings.ofValues window a h s q w) setting).settings =
        Settings.ofValues window a h s q w ∧
      ((Settings.SetSingleSetting (Settings.ofValues window a h s q w) setting).error.map
        Prod.fst) = some ErrorNumber.SettingNonexistant) := by
  refine ⟨⟨fun hnone => ?_, fun hmem => ?_⟩, fun hsome => ?_⟩
  · apply Settings.accepted_of_lookup window a h s q w setting
    unfold Settings.SetSingleSetting at hnone
    simp only [] at hnone
    split at hnone
    · rename_i v hv
      rw [hv]; rfl
    · simp at hnone
  · obtain ⟨x, hx, hform⟩ := mem_acceptedSingleSettings setting hmem
    obtain ⟨h1, h2, h3, h4⟩ := Settings.setSingle_accepted window a h s q w x hx
    rcases hform with rfl | rfl | rfl | rfl
    · exact h1
    · exact h2
    · exact h3
    · exact h4
  · unfold Settings.SetSingleSetting at hsome ⊢
    simp only [] at hsome ⊢
    split
    · rename_i v hv
      rw [hv] at hsome
      split_ifs at hsome <;> simp at hsome
    · exact ⟨rfl, rfl⟩

/-! ### The name of an input, as the claim words it -/

theorem nameAfterStripping_accepted :
    ∀ setting ∈ acceptedSingleSettings, nameAfterStripping setting ∈ toggleNames := by
  decide

theorem nameAfterStripping_mem_iff (setting : List Char) :
    nameAfterStripping setting ∈ toggleNames ↔ setting ∈ acceptedSingleSettings := by
  refine ⟨fun hmem => ?_, nameAfterStripping_accepted setting⟩
  unfold nameAfterStripping at hmem
  simp only [] at hmem
  by_cases ht : setting.getLast? = some '!'
  · rcases setting.eq_nil_or_concat with rfl | ⟨L, c, rfl⟩
    · simp at ht
    · rw [List.concat_eq_append] at ht hmem ⊢
      have hc : c = '!' := by simpa using ht
      subst hc
      simp only [ht, if_true, List.dropLast_concat] at hmem
      split_ifs at hmem with h1 h2
      · exact (toggleNames_facts L h1).2.2.2.2.2.1
      · match L, h2, hmem with
        | [], h2, hmem => simp at h2
        | [_], h2, hmem => simp at h2
        | x :: y :: L2, h2, hmem =>
          simp only [List.isPrefixOf, Bool.and_eq_true, beq_iff_eq, Bool.and_true] at h2
          obtain ⟨rfl, rfl⟩ := h2
          simp only [List.drop_succ_cons, List.drop_zero] at hmem
          exact (toggleNames_facts L2 hmem).2.2.2.2.2.2
      · exact absurd hmem h1
  · simp only [ht, if_false] at hmem
    split_ifs at hmem with h1 h2
    · exact (toggleNames_facts setting h1).2.2.2.1
    · match setting, h2, hmem with
      | [], h2, hmem => simp at h2
      | [_], h2, hmem => simp at h2
      | x :: y :: L2, h2, hmem =>
        simp only [List.isPrefixOf, Bool.and_eq_true, beq_iff_eq, Bool.and_true] at h2
        obtain ⟨rfl, rfl⟩ := h2
        simp only [List.drop_succ_cons, List.drop_zero] at hmem
        exact (toggleNames_facts L2 hmem).2.2.2.2.1
    · exact absurd hmem h1

/-! ### Errors of `Set` -/

theorem Settings.getline_eq (sep : Char) (stream : List Char) :
    Settings.getline sep stream = (textBefore sep stream, textAfter sep stream) := by
  unfold Settings.getline
  induction stream with
  | nil => rfl
  | cons c cs ih =>
    by_cases hc : c = sep
    · subst hc
      simp [textBefore, textAfter, List.takeWhile_cons, List.dropWhile_cons]
    · simp only [Prod.mk.injEq] at ih
      simp only [textBefore, textAfter, List.takeWhile_cons, List.dropWhile_cons, hc,
        if_false, ne_eq, not_false_eq_true, decide_True, if_true, Prod.mk.injEq, List.cons.injEq,
        true_and]
      exact ih

theorem namesNoSetting_eq (input : List Char) :
    namesNoSetting input =
      if (Settings.getline '\n' (Settings.getline ' ' input).2).1 = [] then
        decide (nameAfterStripping (Settings.getline ' ' input).1 ∉ toggleNames)
      else decide ((Settings.getline ' ' input).1 ≠ "window".toList) := by
  rw [Settings.getline_eq ' ' input, Settings.getline_eq '\n']
  rfl

/-- C20: on every settings state (any default window, any values of the five
toggles) and every input, `Set` reports `SettingNonexistant` and leaves the
toggles and the default window unchanged exactly when the input names no
known setting (an argument-less input whose name, after removing a trailing
`!` and then, if still unknown, a leading `no`, is not one of the five
toggles, or an input with arguments whose name is not `window`); on every
other input it raises no error.  The name is the text before the first blank
and the arguments are the text after it up to the end of the line:
`autoscroll on` and `window` alone are errors, `window playlist` and
`noautoscroll!` are not. -/
theorem Settings.set_error_iff_unknown {W : Type} (getWindowFromName : List Char → W)
    (window : W) (a h s q w : Bool) (input : List Char) :
    (((Settings.Set getWindowFromName (Settings.ofValues window a h s q w) input).error.map
          Prod.fst = some ErrorNumber.SettingNonexistant ∧
        (Settings.Set getWindowFromName (Settings.ofValues window a h s q w) input).settings =
          Settings.ofValues window a h s q w) ↔ namesNoSetting input = true) ∧
    ((Settings.Set getWindowFromName (Settings.ofValues window a h s q w) input).error = none ↔
      namesNoSetting input = false) ∧
    (Settings.Set getWindowFromName (Settings.ofValues window a h s q w)
      "autoscroll on".toList).error.map Prod.fst = some ErrorNumber.SettingNonexistant ∧
    (Settings.Set getWindowFromName (Settings.ofValues window a h s q w)
      "window".toList).error.map Prod.fst = some ErrorNumber.SettingNonexistant ∧
    (Settings.Set getWindowFromName (Settings.ofValues window a h s q w)
      "window playlist".toList).error = none ∧
    (Settings.Set getWindowFromName (Settings.ofValues window a h s q w)
      "noautoscroll!".toList).error = none := by
  refine ⟨?_, ?_, rfl, rfl, rfl, rfl⟩
  · rw [namesNoSetting_eq]
    unfold Settings.Set
    simp only []
    by_cases harg : (Settings.getline '\n' (Settings.getline ' ' input).2).1 = []
    · simp only [harg, if_true, decide_eq_true_eq]
      rw [nameAfterStripping_mem_iff]
      obtain ⟨hiff, herr⟩ := Settings.setSingle_error window a h s q w
        (Settings.getline ' ' input).1
      constructor
      · rintro ⟨he, -⟩ hmem
        rw [hiff.2 hmem] at he
        simp at he
      · intro hn
        have hne : (Settings.SetSingleSetting (Settings.ofValues window a h s q w)
            (Settings.getline ' ' input).1).error ≠ none := fun hnone => hn (hiff.1 hnone)
        exact ⟨(herr hne).2, (herr hne).1⟩
    · simp only [harg, if_false, decide_eq_true_eq]
      unfold Settings.SetSpecificSetting
      by_cases hw : (Settings.getline ' ' input).1 = "window".toList
      · rw [if_pos hw]
        constructor
        · rintro ⟨he, -⟩
          simp at he
        · intro hn
          exact absurd hw hn
      · rw [if_neg hw]
        exact ⟨fun _ => hw, fun _ => ⟨rfl, rfl⟩⟩
  · rw [namesNoSetting_eq]
    unfold Settings.Set
    simp only []
    by_cases harg : (Settings.getline '\n' (Settings.getline ' ' input).2).1 = []
    · simp only [harg, if_true, decide_eq_false_iff_not, not_not]
      rw [nameAfterStripping_mem_iff]
      exact (Settings.setSingle_error window a h s q w (Settings.getline ' ' input).1).1
    · simp only [harg, if_false, decide_eq_false_iff_not, not_not]
      unfold Settings.SetSpecificSetting
      by_cases hw : (Settings.getline ' ' input).1 = "window".toList
      · rw [if_pos hw]
        exact ⟨fun _ => hw, fun _ => rfl⟩
      · rw [if_neg hw]
        constructor
        · intro he
          simp at he
        · intro hn
          exact absurd hn hw

/-! ## Ordering of library entries -/

/-- Counterexample for C15: two Song entries whose songs have the track
numbers -1 and 5 (as `atoi` returns them); -1 is numerically less than 5, but
`operator<` says that the entry of track 5 is less than the entry of track -1
and not the other way round. -/
theorem FullEntry.negative_track_counterexample :
    (FullEntry.songWithTrack (-1)).type_ = EntryType.SongType ∧
    (FullEntry.songWithTrack 5).type_ = EntryType.SongType ∧
    (FullEntry.songWithTrack (-1)).song_ = some (-1) ∧
    (FullEntry.songWithTrack 5).song_ = some 5 ∧
    trackContext.trackOf (-1) < trackContext.trackOf 5 ∧
    FullEntry.operatorLess trackContext (FullEntry.songWithTrack (-1))
      (FullEntry.songWithTrack 5) = false ∧
    FullEntry.operatorLess trackContext (FullEntry.songWithTrack 5)
      (FullEntry.songWithTrack (-1)) = true := by
  decide

theorem toUInt32_lt_iff (x y : Int) (hx : -2147483648 ≤ x ∧ x ≤ 2147483647)
    (hy : -2147483648 ≤ y ∧ y ≤ 2147483647) :
    toUInt32 x < toUInt32 y ↔ (((0 ≤ x ↔ 0 ≤ y) ∧ x < y) ∨ (0 ≤ x ∧ y < 0)) := by
  unfold toUInt32
  omega

theorem toUInt32_eq_iff (x y : Int) (hx : -2147483648 ≤ x ∧ x ≤ 2147483647)
    (hy : -2147483648 ≤ y ∧ y ≤ 2147483647) :
    toUInt32 x = toUInt32 y ↔ x = y := by
  unfold toUInt32
  omega

theorem FullEntry.operatorLess_song {S : Type} (ctx : SortContext S) (a b : FullEntry S)
    (sa sb : S) (hta : a.type_ = EntryType.SongType) (hsa : a.song_ = some sa)
    (hsb : b.song_ = some sb) :
    FullEntry.operatorLess ctx a b =
      decide (toUInt32 (ctx.trackOf sa) < toUInt32 (ctx.trackOf sb)) := by
  unfold FullEntry.operatorLess
  rw [if_neg (by rw [hta]; decide), if_neg (by rw [hta]; decide), hsa, hsb]

/-- C15 (amended): for Song-type entries `a`, `b`, `c` with songs whose track
numbers (the `int` values of `atoi`) are `ta`, `tb`, `tc`: `a < b` holds iff
`ta` and `tb` have the same sign and `ta < tb`, or `ta` is non-negative and
`tb` is negative; so for non-negative track numbers `a < b` iff `ta < tb`.
`<` is irreflexive and transitive, `==` is transitive, and `a == b` holds
exactly when `ta = tb`. -/
theorem FullEntry.song_order_by_track {S : Type} (ctx : SortContext S) (a b c : FullEntry S)
    (sa sb sc : S)
    (hta : a.type_ = EntryType.SongType) (htb : b.type_ = EntryType.SongType)
    (htc : c.type_ = EntryType.SongType)
    (hsa : a.song_ = some sa) (hsb : b.song_ = some sb) (hsc : c.song_ = some sc)
    (hra : -2147483648 ≤ ctx.trackOf sa ∧ ctx.trackOf sa ≤ INT32_MAX)
    (hrb : -2147483648 ≤ ctx.trackOf sb ∧ ctx.trackOf sb ≤ INT32_MAX) :
    (FullEntry.operatorLess ctx a b = true ↔
      (((0 ≤ ctx.trackOf sa ↔ 0 ≤ ctx.trackOf sb) ∧ ctx.trackOf sa < ctx.trackOf sb) ∨
        (0 ≤ ctx.trackOf sa ∧ ctx.trackOf sb < 0))) ∧
    (0 ≤ ctx.trackOf sa → 0 ≤ ctx.trackOf sb →
      (FullEntry.operatorLess ctx a b = true ↔ ctx.trackOf sa < ctx.trackOf sb)) ∧
    FullEntry.operatorLess ctx a a = false ∧
    (FullEntry.operatorLess ctx a b = true → FullEntry.operatorLess ctx b c = true →
      FullEntry.operatorLess ctx a c = true) ∧
    (FullEntry.operatorEqual ctx a b = true → FullEntry.operatorEqual ctx b c = true →
      FullEntry.operatorEqual ctx a c = true) ∧
    (FullEntry.operatorEqual ctx a b = true ↔ ctx.trackOf sa = ctx.trackOf sb) := by
  simp only [INT32_MAX] at hra hrb
  have hab := FullEntry.operatorLess_song ctx a b sa sb hta hsa hsb
  have hba := FullEntry.operatorLess_song ctx b a sb sa htb hsb hsa
  have hbc := FullEntry.operatorLess_song ctx b c sb sc htb hsb hsc
  have hcb := FullEntry.operatorLess_song ctx c b sc sb htc hsc hsb
  have hac := FullEntry.operatorLess_song ctx a c sa sc hta hsa hsc
  have hca := FullEntry.operatorLess_song ctx c a sc sa htc hsc hsa
  have haa := FullEntry.operatorLess_song ctx a a sa sa hta hsa hsa
  have lab := toUInt32_lt_iff _ _ hra hrb
  have eab := toUInt32_eq_iff _ _ hra hrb
  simp only [FullEntry.operatorEqual, hab, hba, hbc, hcb, hac, hca, haa, decide_eq_true_eq,
    decide_eq_false_iff_not, Bool.and_eq_true, Bool.not_eq_true', lt_self_iff_false,
    not_false_eq_true, true_and]
  refine ⟨lab, fun h1 h2 => ?_, fun h1 h2 => Nat.lt_trans h1 h2, fun h1 h2 => ?_, ?_⟩
  · rw [lab]
    constructor
    · rintro (⟨-, h⟩ | ⟨-, h⟩)
      · exact h
      · exact absurd h2 (not_le.2 h)
    · intro h
      exact Or.inl ⟨⟨fun _ => h2, fun _ => h1⟩, h⟩
  · exact ⟨by omega, by omega⟩
  · rw [← eab]
    constructor
    · intro h; omega
    · intro h; omega

/-- Witness for C15 (amended): the Song entries of tracks 1, 2 and -1; track 1
sorts before track 2, which sorts before track -1. -/
theorem FullEntry.song_order_by_track_witness :
    FullEntry.operatorLess trackContext (FullEntry.songWithTrack 1)
      (FullEntry.songWithTrack 2) = true ∧
    FullEntry.operatorLess trackContext (FullEntry.songWithTrack 2)
      (FullEntry.songWithTrack (-1)) = true ∧
    FullEntry.operatorLess trackContext (FullEntry.songWithTrack 1)
      (FullEntry.songWithTrack (-1)) = true :=
  have h := FullEntry.song_order_by_track trackContext (FullEntry.songWithTrack 1)
    (FullEntry.songWithTrack 2) (FullEntry.songWithTrack (-1)) 1 2 (-1) rfl rfl rfl rfl rfl rfl
    (by decide) (by decide)
  ⟨by decide, by decide, h.2.2.2.1 (by decide) (by decide)⟩

end Vimpc
